import Mathlib

/-!
# BCM/XCP over USB: the communication subdriver `drivers/bcmxcp_usb.c`

A shallow embedding of the subdriver's frame codec (`send_read_command`,
`send_write_command`), reassembly loop (`get_answer`), retry loops
(`command_read_sequence`, `command_write_sequence`), connection handling
(`open_device`, `upsdrv_reconnect`) and failure tracking (`nutusb_comm_fail`,
`nutusb_comm_good`).

Conventions.
* A byte (`unsigned char`) is a `Nat`; the transport is expected to deliver octets.
* A C `int` is an `Int`; the quantities held in them here stay far below 2^31.
* The 256-byte stack buffer `buf` is a `List Nat` of length 256 and the pointer `my_buf`
  is an offset into it.  An access outside an array is undefined behaviour in C and is
  reported as `Fault.undefined`.
* What the outside world does (the result of each interrupt transfer, of each attempt to
  open the device) is scripted in the `World`; what the driver does to the outside world
  (frames sent, log lines, stale marks, other USB operations) is recorded there.
* The `while` loop of `get_answer` may run forever, so it is given an iteration budget.
-/

namespace Bcmxcp

/-! ## Constants -/

/-- Modelled from the spec: PW_COMMAND_START_BYTE is defined in bcmxcp.h, which is not
under src/; the spec's frames start with the sentinel byte 0xAB. -/
def PW_COMMAND_START_BYTE : Nat := 0xAB

/-- Modelled from the spec: PW_HEADER_LENGTH is defined in bcmxcp.h, which is not under
src/; the spec gives the header size as "4 bytes + 1 checksum byte". -/
def PW_HEADER_LENGTH : Nat := 4

/-- The macro `#define PW_HEADER_SIZE (PW_HEADER_LENGTH + 1)`. -/
def PW_HEADER_SIZE : Nat := PW_HEADER_LENGTH + 1

/-- The macro `#define PW_CMD_BUFSIZE 256`. -/
def PW_CMD_BUFSIZE : Nat := 256

/-- Modelled from the spec: PW_SEQ_MASK is defined in bcmxcp.h, which is not under src/;
in the spec the low bits of the sequence byte are the ordinal and the high bit is the
last-frame flag, so the ordinal is the low 7 bits. -/
def PW_SEQ_MASK : Nat := 0x7f

/-- Modelled from the spec: PW_LAST_SEQ is defined in bcmxcp.h, which is not under src/;
in the spec the high bit of the sequence byte is the last-frame flag (0x81 is ordinal 1
with the flag set). -/
def PW_LAST_SEQ : Nat := 0x80

/-- Modelled from the spec: SMALLBUF is defined in common.h, which is not under src/, and
the spec gives no value for it; 512 is assumed.  It only bounds the length of a formatted
log message, and the three messages of this file are far shorter. -/
def SMALLBUF : Nat := 512

/-- The macro `#define MAX_TRY 5`. -/
def MAX_TRY : Nat := 5

/-- The macro `#define USB_ERR_LIMIT 10`. -/
def USB_ERR_LIMIT : Nat := 10

/-- The macro `#define USB_ERR_RATE 10`. -/
def USB_ERR_RATE : Nat := 10

/-- The macro `#define XCP_USB_TIMEOUT 5000`. -/
def XCP_USB_TIMEOUT : Int := 5000

/-! ## Checksum -/

/-- Modelled from the spec: calc_checksum is declared in bcmxcp.h and defined outside
src/.  In the spec the checksum is one byte, "computed over all prior bytes of the frame"
by an algorithm that is "XOR/sum-based, fixed width, deterministic".  It is modelled as
the 8-bit two's complement of the sum of the bytes that precede it; `bytes` is the list of
those preceding bytes. -/
def calc_checksum (bytes : List Nat) : Nat :=
  (256 - bytes.sum % 256) % 256

/-- Modelled from the spec: checksum_test is declared in bcmxcp.h and defined outside
src/.  In the spec, `validate(frame)` "recomputes and compares the checksum", the checksum
being the frame's last byte and a function of all the bytes before it.  The C function
receives a pointer only; `get_answer` applies it to the `length + PW_HEADER_SIZE` bytes of
the frame at `my_buf`. -/
def checksum_test (frame : List Nat) : Bool :=
  match frame.getLast? with
  | none => false
  | some k => calc_checksum frame.dropLast == k

/-! ## The outside world -/

/-- Ways in which a run of the model ends without a result. -/
inductive Fault where
  /-- an access outside an array: undefined behaviour in C -/
  | undefined
  /-- the driver asked the outside world for more than was scripted -/
  | starved
  /-- the iteration budget of the `get_answer` loop is used up -/
  | fuel
  deriving DecidableEq

/-- What one `libusb_interrupt_transfer` on the input endpoint does. -/
structure Read where
  /-- the call returned `LIBUSB_SUCCESS` -/
  ok : Bool
  /-- the bytes stored at `buf + bytes_read`; `transferred` is their number (at most 128,
  the length asked for) -/
  bytes : List Nat
  /-- the milliseconds between `start_time` and the `gettimeofday` that follows the call -/
  now : Int
  deriving DecidableEq

/-- What one round of `open_device` meets. -/
structure OpenTry where
  /-- the call of `usb_subdriver.open` returned `LIBUSB_SUCCESS` -/
  opened : Bool
  /-- the value `usb_subdriver.open` leaves in `upsdev` -/
  dev : Option Nat
  /-- the call of `libusb_clear_halt` on the new handle returned `LIBUSB_SUCCESS` -/
  cleared : Bool
  deriving DecidableEq

/-- The USB operations other than sending a command, and the sleeps, in program order. -/
inductive Op where
  /-- The call `libusb_interrupt_transfer(upsdev, IN|1, buf + offset, 128, &transferred, timeout)`. -/
  | xfer (offset : Int) (timeout : Int)
  /-- The call `libusb_clear_halt(upsdev, IN|1)`. -/
  | clear_halt
  /-- The call `usb_subdriver.open(&upsdev, ...)`. -/
  | usb_open
  /-- The call `libusb_reset_device(upsdev)`. -/
  | reset_device
  /-- The call `usb_subdriver.close(upsdev)`. -/
  | usb_close
  /-- The call `sleep(secs)`. -/
  | sleep (secs : Nat)
  /-- The call `sleep(PW_SLEEP)`, the settle delay of a write command. -/
  | settle
  deriving DecidableEq

/-- The lines written with `upslogx`. -/
inductive Log where
  /-- The line "Warning: excessive comm failures, limiting error reporting". -/
  | excessive
  /-- The line "Communications with UPS lost - check cabling". -/
  | lost_generic
  /-- The line "usb_comm_fail: vsnprintf needed more than %d bytes". -/
  | vsnprintf_short
  /-- The line "Communications with UPS lost: %s". -/
  | lost (why : String)
  /-- The line "Communications with UPS re-established". -/
  | reestablished
  deriving DecidableEq

/-- The global variables of the file, the script of the outside world and the record of
what the driver did to it. -/
structure World where
  /-- The global `libusb_device_handle *upsdev`; `none` is `NULL`. -/
  upsdev : Option Nat
  /-- The global `extern int exit_flag`. -/
  exit_flag : Int
  /-- The global `static unsigned int comm_failures`. -/
  comm_failures : Nat
  /-- the interrupt transfers to come -/
  reads : List Read
  /-- the rounds of `open_device` to come -/
  opens : List OpenTry
  /-- the frames handed to `usb_set_descriptor`, oldest first -/
  sent : List (List Nat)
  /-- the other USB operations and the sleeps, oldest first -/
  ops : List Op
  /-- the `upslogx` lines, oldest first -/
  log : List Log
  /-- the number of calls of `dstate_datastale` -/
  stale : Nat
  deriving DecidableEq

/-! ## Frame codec: sending -/

/-- The function `void send_read_command(unsigned char command)`: the frame is built in
`buf[4]` and handed to `usb_set_descriptor` only when `upsdev` is not `NULL`. -/
def send_read_command (command : Nat) (w : World) : World :=
  match w.upsdev with
  | none => w
  | some _ =>
    let buf := [PW_COMMAND_START_BYTE, 0x01, command]
    { w with sent := w.sent ++ [buf ++ [calc_checksum buf]] }

/-- The function `void send_write_command(unsigned char *command, int command_length)`.
`sbuf` has 128 bytes: `memcpy` fills `sbuf[2 .. command_length + 2)` from `command` and the
checksum goes to `sbuf[command_length + 2]`. -/
def send_write_command (command : List Nat) (command_length : Nat) (w : World) :
    Except Fault World :=
  match w.upsdev with
  | none => .ok w
  | some _ =>
    if command.length < command_length ∨ 128 ≤ command_length + 2 then .error .undefined
    else
      let sbuf := [PW_COMMAND_START_BYTE, command_length % 256] ++ command.take command_length
      .ok { w with sent := w.sent ++ [sbuf ++ [calc_checksum sbuf]] }

/-! ## Connection lifecycle and failure tracking -/

/-- The `for (try = 1; try <= MAX_TRY; try++)` loop of `open_device`, with `tries` rounds
left.  A round whose open fails goes straight to the next one; a round whose open succeeds
but whose `libusb_clear_halt` fails resets the device, closes it, sets `upsdev` to `NULL`
and sleeps 5 seconds before the next one. -/
def open_device_loop : Nat → World → Except Fault (Bool × World)
  | 0, w => .ok (false, w)
  | tries + 1, w =>
    match w.opens with
    | [] => .error .starved
    | t :: rest =>
      let w1 := { w with opens := rest, upsdev := t.dev, ops := w.ops ++ [Op.usb_open] }
      if t.opened = false then open_device_loop tries w1
      else if t.cleared = false then
        open_device_loop tries
          { w1 with upsdev := none
                    ops := w1.ops ++ [Op.clear_halt, Op.reset_device, Op.usb_close, Op.sleep 5] }
      else .ok (true, { w1 with ops := w1.ops ++ [Op.clear_halt] })

/-- The function `static bool_t open_device(void)`. -/
def open_device (w : World) : Except Fault (Bool × World) :=
  open_device_loop MAX_TRY w

/-- The function `void upsdrv_reconnect(void)`: it calls `open_device` and only writes
debug output about the result. -/
def upsdrv_reconnect (w : World) : Except Fault World :=
  match open_device w with
  | .error e => .error e
  | .ok (_, w1) => .ok w1

/-- The statement `comm_failures++;` of `nutusb_comm_fail`, on an `unsigned int`. -/
def comm_fail_count (w : World) : World :=
  { w with comm_failures := (w.comm_failures + 1) % 4294967296 }

/-- The first `if` of `nutusb_comm_fail`: the "excessive comm failures" warning is logged
when `comm_failures == USB_ERR_LIMIT` or `comm_failures % USB_ERR_RATE == 0`. -/
def comm_fail_notice (w : World) : World :=
  if w.comm_failures = USB_ERR_LIMIT ∨ w.comm_failures % USB_ERR_RATE = 0
  then { w with log := w.log ++ [Log.excessive] } else w

/-- The end of `nutusb_comm_fail`, which logs the message.  `fmt` is `none` for a `NULL`
format and otherwise the text that `vsnprintf` makes of the format and its arguments;
`why` keeps at most `SMALLBUF - 1` characters of it, and a text of length below 1 or of
`SMALLBUF` or more is reported first. -/
def comm_fail_message (fmt : Option String) (w : World) : World :=
  match fmt with
  | none => { w with log := w.log ++ [Log.lost_generic] }
  | some text =>
    let w1 := if text.length < 1 ∨ SMALLBUF ≤ text.length
      then { w with log := w.log ++ [Log.vsnprintf_short] } else w
    { w1 with log := w1.log ++ [Log.lost (String.mk (text.data.take (SMALLBUF - 1)))] }

/-- The function `void nutusb_comm_fail(const char *fmt, ...)`: nothing is done when
`exit_flag` is set; otherwise the failure is counted, the warning logged when due, and
then either a reconnection is tried (past the limit, when the count is not a multiple of
`USB_ERR_LIMIT`) or the message is logged. -/
def nutusb_comm_fail (fmt : Option String) (w : World) : Except Fault World :=
  if w.exit_flag ≠ 0 then .ok w
  else
    let w1 := comm_fail_notice (comm_fail_count w)
    if w1.comm_failures > USB_ERR_LIMIT ∧ w1.comm_failures % USB_ERR_LIMIT ≠ 0
    then upsdrv_reconnect w1
    else .ok (comm_fail_message fmt w1)

/-- The function `void nutusb_comm_good(void)`. -/
def nutusb_comm_good (w : World) : World :=
  if w.comm_failures = 0 then w
  else { w with log := w.log ++ [Log.reestablished], comm_failures := 0 }

/-- The call `dstate_datastale()` of the surrounding driver: the published state is
marked stale. -/
def dstate_datastale (w : World) : World :=
  { w with stale := w.stale + 1 }

/-! ## Reassembly: `get_answer` -/

/-- The local variables of `get_answer` that live across the iterations of its loop,
together with the caller's output buffer `data`. -/
structure Locals where
  /-- the array `unsigned char buf[PW_CMD_BUFSIZE]` -/
  buf : List Nat
  /-- the pointer `my_buf`, as an offset into `buf` -/
  my_buf : Nat
  /-- the variable `int need_data` -/
  need_data : Int
  /-- the variable `int end_length` -/
  end_length : Int
  /-- the variable `int endblock` -/
  endblock : Bool
  /-- the variable `int bytes_read`; it is never negative -/
  bytes_read : Int
  /-- the variable `int ellapsed_time` -/
  ellapsed_time : Int
  /-- the variable `unsigned char seq_num` -/
  seq_num : Nat
  /-- the caller's buffer `unsigned char *data`, of a size `get_answer` does not know -/
  data : List Nat
  deriving DecidableEq

/-- How one pass through the body of the loop ends. -/
inductive Flow where
  /-- by `continue`, or by reaching the end of the body -/
  | again (s : Locals) (w : World)
  /-- by `break` -/
  | leave (s : Locals) (w : World)
  /-- by `return value` -/
  | give (value : Int) (s : Locals) (w : World)
  deriving DecidableEq

/-- Reading `buf[i]`. -/
def peek (buf : List Nat) (i : Nat) : Except Fault Nat :=
  match buf.get? i with
  | some b => .ok b
  | none => .error .undefined

/-- Reading the `n` bytes at `buf + off`. -/
def slice (buf : List Nat) (off n : Nat) : Except Fault (List Nat) :=
  if off + n ≤ buf.length then .ok ((buf.drop off).take n) else .error .undefined

/-- Writing `bytes` at `buf + off`. -/
def poke (buf : List Nat) (off : Nat) (bytes : List Nat) : Except Fault (List Nat) :=
  if off + bytes.length ≤ buf.length
  then .ok (buf.take off ++ bytes ++ buf.drop (off + bytes.length))
  else .error .undefined

/-- The call `memchr(buf + off, c, n)`: the offset of the first `c` among the `n` bytes at
`buf + off`, or `none` (a `NULL` result) when there is none.  The search stops at the
first occurrence; one that has to run past the end of `buf` is undefined. -/
def memchr (buf : List Nat) (off c n : Nat) : Except Fault (Option Nat) :=
  let region := (buf.drop off).take n
  let i := region.indexOf c
  if i < region.length then .ok (some (off + i))
  else if off + n ≤ buf.length then .ok none
  else .error .undefined

/-- The call `memcpy(data + off, bytes, length)` into the caller's buffer, whose size is
not known here: the bytes at `off` are replaced, what is beyond them is kept. -/
def memcpy_out (data : List Nat) (off : Nat) (bytes : List Nat) : List Nat :=
  data.take off ++ bytes ++ data.drop (off + bytes.length)

/-- The text of "get_answer: not the right sequence received %x!!!\n". -/
def sequence_message (ordinal : Nat) : String :=
  "get_answer: not the right sequence received " ++ String.mk (Nat.toDigits 16 ordinal) ++ "!!!\n"

/-- The statement `if (need_data < 0) --need_data;` of `get_answer`, commented "count
zerro byte too". -/
def count_zero_byte (need_data : Int) : Int :=
  if need_data < 0 then need_data - 1 else need_data

/-- The expected ordinal after a frame is accepted: `seq_num++` on an `unsigned char`
unless the frame is the last one. -/
def next_seq_num (last : Bool) (seq_num : Nat) : Nat :=
  if last then seq_num else (seq_num + 1) % 256

/-- The header check of `get_answer`: when `my_buf[0]` is not the start byte, `my_buf`
becomes `memchr(my_buf, PW_COMMAND_START_BYTE, bytes_read)`.  The result is the new
`my_buf`, or `none` when `memchr` finds nothing and `get_answer` returns -1. -/
def get_answer_resync (s : Locals) : Except Fault (Option Nat) :=
  match peek s.buf s.my_buf with
  | .error e => .error e
  | .ok b0 =>
    if b0 ≠ PW_COMMAND_START_BYTE
    then memchr s.buf s.my_buf PW_COMMAND_START_BYTE s.bytes_read.toNat
    else .ok (some s.my_buf)

/-- The end of the loop body of `get_answer`, from "Check if it's the last sequence": the
frame at `my_buf`, of payload length `length` and sequence byte `sequence`, has been
accepted.  Its payload is copied to `data + end_length`, and the `tail` bytes behind it
are moved to the front of `buf`. -/
def get_answer_accept (s : Locals) (w : World) (length sequence : Nat) : Except Fault Flow :=
  let last := decide (sequence &&& PW_LAST_SEQ ≠ 0)
  match slice s.buf (s.my_buf + 4) length with
  | .error e => .error e
  | .ok payload =>
    let tail := s.bytes_read - ((length : Int) + PW_HEADER_SIZE)
    let s1 :=
      { s with
        endblock := last
        seq_num := next_seq_num last s.seq_num
        data := memcpy_out s.data s.end_length.toNat payload
        end_length := s.end_length + length
        bytes_read := tail }
    if tail > 0 then
      match slice s.buf (s.my_buf + length + PW_HEADER_SIZE) tail.toNat with
      | .error e => .error e
      | .ok bytes =>
        match poke s.buf 0 bytes with
        | .error e => .error e
        | .ok buf => .ok (.again { s1 with buf := buf, my_buf := 0 } w)
    else if tail = 0 then .ok (.again { s1 with my_buf := 0 } w)
    else .ok (.again s1 w)

/-- The checks of `get_answer` on the frame at `my_buf`, from "Read block number byte" to
"Validate checksum": a frame that is not wholly buffered asks for more data, a length
above 140, a wrong sequence ordinal and a bad checksum return -1, the last two after
`nutusb_comm_fail`. -/
def get_answer_validate (s : Locals) (w : World) : Except Fault Flow :=
  match peek s.buf (s.my_buf + 1) with
  | .error e => .error e
  | .ok _block_number =>
    match peek s.buf (s.my_buf + 2) with
    | .error e => .error e
    | .ok length =>
      if s.bytes_read - ((length : Int) + PW_HEADER_SIZE) < 0 then
        .ok (.again { s with need_data := count_zero_byte s.need_data + length + 1 } w)
      else if length > 140 then .ok (.give (-1) s w)
      else
        match peek s.buf (s.my_buf + 3) with
        | .error e => .error e
        | .ok sequence =>
          if sequence &&& PW_SEQ_MASK ≠ s.seq_num then
            match nutusb_comm_fail (some (sequence_message (sequence &&& PW_SEQ_MASK))) w with
            | .error e => .error e
            | .ok w1 => .ok (.give (-1) s w1)
          else
            match slice s.buf s.my_buf (length + PW_HEADER_SIZE) with
            | .error e => .error e
            | .ok frame =>
              if checksum_test frame = false then
                match nutusb_comm_fail (some "get_answer: checksum error! ") w with
                | .error e => .error e
                | .ok w1 => .ok (.give (-1) s w1)
              else get_answer_accept s w length sequence

/-- The second half of the loop body of `get_answer`, from `if (need_data > 0) continue;`
to the end. -/
def get_answer_frame (s : Locals) (w : World) : Except Fault Flow :=
  if s.need_data > 0 then .ok (.again s w)
  else
    match get_answer_resync s with
    | .error e => .error e
    | .ok none => .ok (.give (-1) s w)
    | .ok (some my_buf) => get_answer_validate { s with my_buf := my_buf } w

/-- One pass through the loop body of `get_answer`: when `need_data > 0` one interrupt
transfer is made at `buf + bytes_read`, the elapsed time is updated, a failed transfer
leaves the loop and an empty one restarts it; then the frame is looked at. -/
def get_answer_step (s : Locals) (w : World) : Except Fault Flow :=
  if s.need_data > 0 then
    match w.reads with
    | [] => .error .starved
    | r :: rest =>
      let w1 := { w with
        reads := rest
        ops := w.ops ++ [Op.xfer s.bytes_read (XCP_USB_TIMEOUT - s.ellapsed_time)] }
      match poke s.buf s.bytes_read.toNat r.bytes with
      | .error e => .error e
      | .ok buf1 =>
        let s1 := { s with buf := buf1, ellapsed_time := r.now }
        if r.ok = false then .ok (.leave s1 { w1 with ops := w1.ops ++ [Op.clear_halt] })
        else if r.bytes.length = 0 then .ok (.again s1 w1)
        else
          get_answer_frame
            { s1 with
              bytes_read := s.bytes_read + r.bytes.length
              need_data := s.need_data - r.bytes.length } w1
  else get_answer_frame s w

/-- The loop `while ((!endblock) && ((XCP_USB_TIMEOUT - ellapsed_time) > 0))` of
`get_answer` followed by `return end_length;`, with a budget of `fuel` passes through the
body.  The result is the returned value, the caller's buffer and the world. -/
def get_answer_loop : Nat → Locals → World → Except Fault (Int × List Nat × World)
  | 0, s, w =>
    if s.endblock = false ∧ XCP_USB_TIMEOUT - s.ellapsed_time > 0 then .error .fuel
    else .ok (s.end_length, s.data, w)
  | fuel + 1, s, w =>
    if s.endblock = false ∧ XCP_USB_TIMEOUT - s.ellapsed_time > 0 then
      match get_answer_step s w with
      | .error e => .error e
      | .ok (.again s1 w1) => get_answer_loop fuel s1 w1
      | .ok (.leave s1 w1) => .ok (s1.end_length, s1.data, w1)
      | .ok (.give value s1 w1) => .ok (value, s1.data, w1)
    else .ok (s.end_length, s.data, w)

/-- The locals of `get_answer` as the loop is entered: `buf` zeroed by `memset`. -/
def get_answer_init (data : List Nat) : Locals :=
  { buf := List.replicate PW_CMD_BUFSIZE 0
    my_buf := 0
    need_data := PW_HEADER_SIZE
    end_length := 0
    endblock := false
    bytes_read := 0
    ellapsed_time := 0
    seq_num := 1
    data := data }

/-- The function `int get_answer(unsigned char *data, unsigned char command)`.  The
argument `command` is only written to the debug output. -/
def get_answer (fuel : Nat) (data : List Nat) (_command : Nat) (w : World) :
    Except Fault (Int × List Nat × World) :=
  match w.upsdev with
  | none => .ok (-1, data, w)
  | some _ => get_answer_loop fuel (get_answer_init data) w

/-! ## Transactions: the retry loops -/

/-- One pass through the body of the retry loop of `command_read_sequence`:
`send_read_command(command); bytes_read = get_answer(data, command);`. -/
def read_attempt (fuel command : Nat) (data : List Nat) (w : World) :
    Except Fault (Int × List Nat × World) :=
  get_answer fuel data command (send_read_command command w)

/-- One pass through the body of the retry loop of `command_write_sequence`:
`send_write_command(command, command_length); sleep(PW_SLEEP);
bytes_read = get_answer(answer, command[0]);`. -/
def write_attempt (fuel : Nat) (command : List Nat) (command_length : Nat)
    (answer : List Nat) (w : World) : Except Fault (Int × List Nat × World) :=
  match send_write_command command command_length w with
  | .error e => .error e
  | .ok w1 =>
    match command.head? with
    | none => .error .undefined
    | some c => get_answer fuel answer c { w1 with ops := w1.ops ++ [Op.settle] }

/-- The loop `while ((bytes_read < 1) && (retry < 5))` that the two transactions share,
with `left = 5 - retry` passes still allowed; `attempt` is the body of the loop. -/
def command_loop (attempt : List Nat → World → Except Fault (Int × List Nat × World)) :
    Nat → Int → List Nat → World → Except Fault (Int × List Nat × World)
  | 0, bytes_read, data, w => .ok (bytes_read, data, w)
  | left + 1, bytes_read, data, w =>
    if bytes_read < 1 then
      match attempt data w with
      | .error e => .error e
      | .ok (n, data1, w1) => command_loop attempt left n data1 w1
    else .ok (bytes_read, data, w)

/-- What follows the retry loop in both transactions: a result below 1 is reported with
`nutusb_comm_fail("Error executing command")`, the data is marked stale and -1 is
returned; any other result is returned as it is. -/
def command_finish (r : Int × List Nat × World) : Except Fault (Int × List Nat × World) :=
  if r.1 < 1 then
    match nutusb_comm_fail (some "Error executing command") r.2.2 with
    | .error e => .error e
    | .ok w1 => .ok (-1, r.2.1, dstate_datastale w1)
  else .ok r

/-- The function `int command_read_sequence(unsigned char command, unsigned char *data)`. -/
def command_read_sequence (fuel command : Nat) (data : List Nat) (w : World) :
    Except Fault (Int × List Nat × World) :=
  match command_loop (read_attempt fuel command) 5 0 data w with
  | .error e => .error e
  | .ok r => command_finish r

/-- The function `int command_write_sequence(unsigned char *command, int command_length,
unsigned char *answer)`. -/
def command_write_sequence (fuel : Nat) (command : List Nat) (command_length : Nat)
    (answer : List Nat) (w : World) : Except Fault (Int × List Nat × World) :=
  match command_loop (write_attempt fuel command command_length) 5 0 answer w with
  | .error e => .error e
  | .ok r => command_finish r

/-- The first `k` passes of a retry loop made one after the other whatever they return:
for each pass the world it started in and the value it returned, and then the buffer and
the world left by the last one. -/
def attempts (attempt : List Nat → World → Except Fault (Int × List Nat × World)) :
    Nat → List Nat → World → Except Fault (List (World × Int) × List Nat × World)
  | 0, data, w => .ok ([], data, w)
  | k + 1, data, w =>
    match attempt data w with
    | .error e => .error e
    | .ok (n, data1, w1) =>
      match attempts attempt k data1 w1 with
      | .error e => .error e
      | .ok (tr, data2, w2) => .ok ((w, n) :: tr, data2, w2)

/-- The transactions of the subdriver: a read of one opcode, or a write of
`command_length` command bytes. -/
inductive Transaction where
  /-- The call `command_read_sequence(command, data)`. -/
  | read (command : Nat)
  /-- The call `command_write_sequence(command, command_length, answer)`. -/
  | write (command : List Nat) (command_length : Nat)
  deriving DecidableEq

/-- The body of the retry loop of a transaction. -/
def Transaction.attempt (fuel : Nat) : Transaction → List Nat → World →
    Except Fault (Int × List Nat × World)
  | .read command => read_attempt fuel command
  | .write command command_length => write_attempt fuel command command_length

/-- The transaction as a whole. -/
def Transaction.sequence (fuel : Nat) : Transaction → List Nat → World →
    Except Fault (Int × List Nat × World)
  | .read command => command_read_sequence fuel command
  | .write command command_length => command_write_sequence fuel command command_length

/-! ## Vocabulary of the statements -/

/-- The bytes of a reply frame: start byte, block number, payload length, sequence byte,
payload, checksum. -/
def reply_frame (blk seq : Nat) (payload : List Nat) (ck : Nat) : List Nat :=
  0xAB :: blk :: payload.length :: seq :: (payload ++ [ck])

/-- The list `bytes` with bit `k` of the byte at index `i` flipped. -/
def flip_bit : List Nat → Nat → Nat → List Nat
  | [], _, _ => []
  | b :: bs, 0, k => (b ^^^ 2 ^ k) :: bs
  | b :: bs, i + 1, k => b :: flip_bit bs i k

/-- A world with an open connection, no failure counted, nothing sent or logged yet, in
which the interrupt transfers behave as `reads` says. -/
def fresh (reads : List Read) : World :=
  { upsdev := some 1
    exit_flag := 0
    comm_failures := 0
    reads := reads
    opens := []
    sent := []
    ops := []
    log := []
    stale := 0 }

/-- A world with a closed connection (`upsdev` is `NULL`), in which a reconnection would
fail five times. -/
def closed : World :=
  { upsdev := none
    exit_flag := 0
    comm_failures := 0
    reads := []
    opens := List.replicate 5 { opened := false, dev := none, cleared := false }
    sent := []
    ops := []
    log := []
    stale := 0 }

/-- The world a pass through the loop body of `get_answer` ends in. -/
def Flow.world : Flow → World
  | .again _ w => w
  | .leave _ w => w
  | .give _ _ w => w

/-- The world `w1` has the same frames sent and the same number of stale marks as `w`. -/
def same_traffic (w w1 : World) : Prop := w1.sent = w.sent ∧ w1.stale = w.stale

/-- The number of frames an attempt that starts in `w` hands to the transport: one when
the connection is open, none when it is closed. -/
def frames_of (w : World) : Nat := if w.upsdev.isSome then 1 else 0

/-- The locals of `get_answer` once it has accepted the frame `AB 01 01 01 10 42` that
came in one transfer together with the bytes `AB 01 00` of the next frame: the three bytes
have been moved to the front of `buf`, over the accepted frame. -/
def stuck : Locals :=
  { buf := [0xAB, 0x01, 0x00, 0x01, 0x10, 0x42, 0xAB, 0x01, 0x00] ++ List.replicate 247 0
    my_buf := 0
    need_data := -4
    end_length := 1
    endblock := false
    bytes_read := 3
    ellapsed_time := 1
    seq_num := 2
    data := [0x10] }

/-! ## Vocabulary of the statements on failures and connections -/

/-- The value `comm_failures++` gives an `unsigned int` counter that holds `c`. -/
def next_count (c : Nat) : Nat := (c + 1) % 4294967296

/-- A run of consecutive calls of `nutusb_comm_fail`, one for each format of the list,
with no call of `nutusb_comm_good` in between. -/
def comm_fail_run : List (Option String) → World → Except Fault World
  | [], w => .ok w
  | fmt :: rest, w =>
    match nutusb_comm_fail fmt w with
    | .error e => .error e
    | .ok w1 => comm_fail_run rest w1

/-- A round of `open_device` that ends the loop: the open and the clearing of the halt
both succeed. -/
def OpenTry.good (t : OpenTry) : Bool := t.opened && t.cleared

/-- Modelled from the spec: `usb_subdriver.open` is defined outside src/; in the spec the
low-level open is `enumerate_and_match(selector) -> session|none`, so it leaves a handle
in `upsdev` when it succeeds and `NULL` when it fails. -/
def OpenTry.sound (t : OpenTry) : Bool := t.opened == t.dev.isSome

/-- The USB operations and sleeps of one round of `open_device`. -/
def try_ops (t : OpenTry) : List Op :=
  if t.opened = false then [Op.usb_open]
  else if t.cleared = false then
    [Op.usb_open, Op.clear_halt, Op.reset_device, Op.usb_close, Op.sleep 5]
  else [Op.usb_open, Op.clear_halt]

/-- The world `w1` differs from `w` at most in the connection: `upsdev`, the rounds of
`open_device` to come and the USB operations recorded. -/
def same_record (w w1 : World) : Prop :=
  w1.exit_flag = w.exit_flag ∧ w1.comm_failures = w.comm_failures ∧ w1.reads = w.reads ∧
  w1.sent = w.sent ∧ w1.log = w.log ∧ w1.stale = w.stale

/-- A world with an open connection and a zero failure counter in which each of the next
`k` reconnections succeeds at its first round. -/
def patient (k : Nat) : World :=
  { upsdev := some 1
    exit_flag := 0
    comm_failures := 0
    reads := []
    opens := List.replicate k { opened := true, dev := some 1, cleared := true }
    sent := []
    ops := []
    log := []
    stale := 0 }

/-! ## Vocabulary of the statements on the loop of `get_answer` -/

/-- What the second half of the loop body decides from the locals alone, before the world
comes into play. -/
inductive Verdict where
  /-- an access outside `buf` -/
  | fault (e : Fault)
  /-- the pass ends by `continue` or at the end of the body, with these locals -/
  | again (s : Locals)
  /-- the pass ends by `return -1` without a failure report -/
  | reject (s : Locals)
  /-- the pass ends by `nutusb_comm_fail(text)` and `return -1` -/
  | report (text : String) (s : Locals)

/-- The pass through the second half of the loop body that a verdict stands for. -/
def Verdict.run : Verdict → World → Except Fault Flow
  | .fault e, _ => .error e
  | .again s, w => .ok (.again s w)
  | .reject s, w => .ok (.give (-1) s w)
  | .report text s, w =>
    match nutusb_comm_fail (some text) w with
    | .error e => .error e
    | .ok w1 => .ok (.give (-1) s w1)

/-- The locals `s1` have the output, the cumulative length, the expected ordinal and the
end flag of `s`. -/
def Quiet (s s1 : Locals) : Prop :=
  s1.data = s.data ∧ s1.end_length = s.end_length ∧ s1.seq_num = s.seq_num ∧
  s1.endblock = s.endblock

/-- The locals `s1` are those of `s` after a frame was accepted: its payload has at most
140 bytes and was copied to `data + end_length`, its ordinal was the expected one. -/
def Accepted (s s1 : Locals) : Prop :=
  ∃ payload sequence : _, List.length payload ≤ 140 ∧ sequence &&& PW_SEQ_MASK = s.seq_num ∧
    s1.endblock = decide (sequence &&& PW_LAST_SEQ ≠ 0) ∧
    s1.seq_num = next_seq_num s1.endblock s.seq_num ∧
    s1.data = memcpy_out s.data s.end_length.toNat payload ∧
    s1.end_length = s.end_length + payload.length

/-- A verdict on the locals `s` either leaves the reassembly as it is or accepts one
frame. -/
def Verdict.fits (s : Locals) : Verdict → Prop
  | .fault _ => True
  | .again s1 => Quiet s s1 ∨ Accepted s s1
  | .reject s1 => Quiet s s1
  | .report _ s1 => Quiet s s1

/-- What a pass through the loop body may have done to the failure counter of the world
`w` it started in: nothing when the loop goes on or is left, and nothing or one increment
when -1 is returned; `exit_flag` is as it was. -/
def Flow.tally (w : World) : Flow → Prop
  | .again _ w1 => w1.exit_flag = w.exit_flag ∧ w1.comm_failures = w.comm_failures
  | .leave _ w1 => w1.exit_flag = w.exit_flag ∧ w1.comm_failures = w.comm_failures
  | .give v _ w1 =>
    v = -1 ∧ w1.exit_flag = w.exit_flag ∧
    (w1.comm_failures = w.comm_failures ∨ w1.comm_failures = next_count w.comm_failures)

/-- What a call that returned `v` and left the world `w1` may have done to the failure
counter of the world `w` it started in: nothing, or one increment when `v` is -1. -/
def tallied (w : World) (v : Int) (w1 : World) : Prop :=
  w1.exit_flag = w.exit_flag ∧
  (w1.comm_failures = w.comm_failures ∨
    (v = -1 ∧ w1.comm_failures = next_count w.comm_failures))

/-- What a pass through the loop body that started with the locals `s` did to the
reassembly: nothing, or the acceptance of one frame when the loop goes on; a returned
value is -1. -/
def Flow.fits (s : Locals) : Flow → Prop
  | .again s1 _ => Quiet s s1 ∨ Accepted s s1
  | .leave s1 _ => Quiet s s1
  | .give v s1 _ => v = -1 ∧ Quiet s s1

/-- The most that the frames of one reply can carry: the ordinals 1 to 127 of the 7-bit
sequence field, with 140 bytes each. -/
def REPLY_MAX : Nat := 127 * 140

/-- The locals `s` of a call of `get_answer` for the output buffer `data`: the expected
ordinal is 1 more than the number of frames accepted before the last one, each of which
added at most 140 bytes to `end_length`, and `data` is as it was from `REPLY_MAX` on. -/
def Bounded (data : List Nat) (s : Locals) : Prop :=
  1 ≤ s.seq_num ∧ 0 ≤ s.end_length ∧
  s.seq_num ≤ (if s.endblock then 127 else 128) ∧
  s.end_length ≤ 140 * (((if s.endblock then s.seq_num else s.seq_num - 1 : Nat)) : Int) ∧
  s.data.drop REPLY_MAX = data.drop REPLY_MAX

/-! ## Vocabulary of the statements on transfers of no bytes -/

/-- The transfers `padded` are the transfers `reads` with successful transfers of no
bytes inserted anywhere, each at a time below the 5000 ms. -/
inductive Padded : List Read → List Read → Prop where
  /-- nothing is inserted into no transfers -/
  | done : Padded [] []
  /-- the next transfer is one of `reads` -/
  | keep (r : Read) {reads padded : List Read} :
      Padded reads padded → Padded (r :: reads) (r :: padded)
  /-- the next transfer is an inserted one -/
  | pad (now : Int) {reads padded : List Read} :
      now < XCP_USB_TIMEOUT → Padded reads padded → Padded reads (⟨true, [], now⟩ :: padded)

/-- The world `w1` is the world `w` but for the transfers to come and the record of the
USB operations: the handle, the globals, the opens to come, the frames sent, the log and
the stale marks are the same. -/
def same_but_transfers (w w1 : World) : Prop :=
  w1.upsdev = w.upsdev ∧ w1.exit_flag = w.exit_flag ∧ w1.comm_failures = w.comm_failures ∧
  w1.opens = w.opens ∧ w1.sent = w.sent ∧ w1.log = w.log ∧ w1.stale = w.stale

/-- Two passes through the loop body end the same way, with the same locals, in worlds
that are the same but for the transfers, and when the loop goes on the transfers to come
are related by `Q`. -/
def Flow.alike (Q : List Read → List Read → Prop) : Flow → Flow → Prop
  | .again s w, .again s1 w1 => s1 = s ∧ same_but_transfers w w1 ∧ Q w.reads w1.reads
  | .leave s w, .leave s1 w1 => s1 = s ∧ same_but_transfers w w1
  | .give v s w, .give v1 s1 w1 => v1 = v ∧ s1 = s ∧ same_but_transfers w w1
  | _, _ => False

/-- The locals `s1` are the locals `s`, or they are `s` with another elapsed time while a
transfer is due and both times are below the 5000 ms: the state of a run that has just
made transfers of no bytes that the run of `s` did not make. -/
def in_step (s s1 : Locals) : Prop :=
  s1 = s ∨
  ∃ t : Int, s1 = { s with ellapsed_time := t } ∧ t < XCP_USB_TIMEOUT ∧
    s.ellapsed_time < XCP_USB_TIMEOUT ∧ 0 < s.need_data

/-! ## Vocabulary of the statements on the checksum of a received frame -/

/-- The validation of the frame at the front of `buf` as `get_answer` does it at `my_buf`:
`length = my_buf[2];` and then `checksum_test(my_buf)`.  The function receives a pointer
only, and the frame it is applied to is made of the `length + PW_HEADER_SIZE` bytes that
the length byte declares. -/
def checksum_test_declared (buf : List Nat) : Except Fault Bool :=
  match peek buf 2 with
  | .error e => .error e
  | .ok length =>
    match slice buf 0 (length + PW_HEADER_SIZE) with
    | .error e => .error e
    | .ok frame => .ok (checksum_test frame)

/-! ## Vocabulary of the statements on the counter across a transaction -/

/-- The world `w1` has the handle, the globals, the opens to come and the log of `w`:
nothing was counted, logged or done to the connection in between. -/
def same_standing (w w1 : World) : Prop :=
  w1.upsdev = w.upsdev ∧ w1.exit_flag = w.exit_flag ∧ w1.comm_failures = w.comm_failures ∧
  w1.opens = w.opens ∧ w1.log = w.log

/-- The world `w1` is what one call of `nutusb_comm_fail` with a message leaves, made in a
world that has the standing of `w`. -/
def reported_from (w w1 : World) : Prop :=
  ∃ (text : String) (wx : World), same_standing w wx ∧ nutusb_comm_fail (some text) wx = .ok w1

/-- What a pass through the loop body did to the standing of the world `w` it started in:
nothing when the loop goes on or is left, and nothing or one call of `nutusb_comm_fail`
when a value is returned, which is then -1. -/
def Flow.outcome (w : World) : Flow → Prop
  | .again _ w1 => same_standing w w1
  | .leave _ w1 => same_standing w w1
  | .give v _ w1 => v = -1 ∧ (same_standing w w1 ∨ reported_from w w1)

/-! # Theorems -/

set_option maxRecDepth 100000

/-! ## Lemmas: the buffer and the acceptance of one frame -/

/-- Reading a byte of the middle part of a buffer. -/
theorem peek_mid (pre mid post : List Nat) (j : Nat) (hj : j < mid.length) :
    peek (pre ++ mid ++ post) (pre.length + j) = .ok (mid.get ⟨j, hj⟩) := by
  unfold peek
  have h : (pre ++ mid ++ post).get? (pre.length + j) = some (mid.get ⟨j, hj⟩) := by
    rw [List.append_assoc, List.get?_eq_getElem?, List.getElem?_append_right (by omega)]
    simp [List.getElem?_append_left hj]
  rw [h]

/-- Reading the whole middle part of a buffer. -/
theorem slice_mid (pre mid post : List Nat) :
    slice (pre ++ mid ++ post) pre.length mid.length = .ok mid := by
  unfold slice
  rw [if_pos (by simp)]
  simp [List.append_assoc]

/-- The first `c` of a list whose front part has none is right behind that part. -/
theorem indexOf_skip (pre rest : List Nat) (c : Nat) (h : c ∉ pre) :
    (pre ++ c :: rest).indexOf c = pre.length := by
  induction pre with
  | nil => simp
  | cons x xs ih =>
    have hx : x ≠ c := fun e => h (by simp [e])
    have hxs : c ∉ xs := fun e => h (by simp [e])
    simp [List.indexOf_cons, hx, ih hxs]

/-- The result of `memchr` on bytes without `c` followed by `c`. -/
theorem memchr_skip (pre rest post : List Nat) (c : Nat) (h : c ∉ pre) :
    memchr (pre ++ c :: rest ++ post) 0 c (pre.length + (rest.length + 1)) = .ok (some pre.length) := by
  unfold memchr
  have hr : ((pre ++ c :: rest ++ post).drop 0).take (pre.length + (rest.length + 1)) = pre ++ c :: rest := by
    rw [List.drop_zero]
    apply List.take_left'
    simp
  simp only [hr, indexOf_skip pre rest c h]
  simp

/-- A reply frame has 5 bytes more than its payload. -/
theorem reply_frame_length (blk seq ck : Nat) (payload : List Nat) :
    (reply_frame blk seq payload ck).length = payload.length + 5 := by
  simp [reply_frame]

/-- The header check finds the frame behind garbage that has no start byte. -/
theorem resync_skip (s : Locals) (garbage payload post : List Nat) (blk seq ck : Nat)
    (hbuf : s.buf = garbage ++ reply_frame blk seq payload ck ++ post)
    (hmy : s.my_buf = 0)
    (hread : s.bytes_read = ((garbage.length + payload.length + 5 : Nat) : Int))
    (hg : 0xAB ∉ garbage) :
    get_answer_resync s = .ok (some garbage.length) := by
  unfold get_answer_resync
  rw [hmy, hbuf, hread, Int.toNat_ofNat]
  cases garbage with
  | nil => simp [peek, reply_frame, PW_COMMAND_START_BYTE]
  | cons x xs =>
    have hx : x ≠ 171 := fun e => hg (by simp [e])
    have h := memchr_skip (x :: xs) (blk :: payload.length :: seq :: (payload ++ [ck])) post 0xAB hg
    simp only [List.length_cons, List.length_append, List.length_singleton] at h
    simp only [peek, reply_frame, PW_COMMAND_START_BYTE, List.cons_append, List.get?_cons_zero,
      List.length_cons]
    rw [if_pos hx]
    rw [← h]
    congr 1

/-- A wholly buffered frame with length at most 140, the expected ordinal and an accepted
checksum passes all the checks. -/
theorem validate_ok (s : Locals) (w : World) (garbage payload post : List Nat) (blk seq ck : Nat)
    (hbuf : s.buf = garbage ++ reply_frame blk seq payload ck ++ post)
    (hmy : s.my_buf = garbage.length)
    (hread : s.bytes_read = ((garbage.length + payload.length + 5 : Nat) : Int))
    (hL : payload.length ≤ 140)
    (hseq : seq &&& 0x7f = s.seq_num)
    (hsum : checksum_test (reply_frame blk seq payload ck) = true) :
    get_answer_validate s w = get_answer_accept s w payload.length seq := by
  have hlen := reply_frame_length blk seq ck payload
  have p1 := peek_mid garbage (reply_frame blk seq payload ck) post 1 (by omega)
  have p2 := peek_mid garbage (reply_frame blk seq payload ck) post 2 (by omega)
  have p3 := peek_mid garbage (reply_frame blk seq payload ck) post 3 (by omega)
  have sl := slice_mid garbage (reply_frame blk seq payload ck) post
  rw [hlen] at sl
  simp only [reply_frame, List.get] at p1 p2 p3 sl hsum
  unfold get_answer_validate
  simp only [hbuf, hmy, hread, reply_frame, p1, p2, p3, PW_HEADER_SIZE, PW_HEADER_LENGTH, PW_SEQ_MASK, sl, hsum]
  have c1 : ¬ (((garbage.length + payload.length + 5 : Nat) : Int) - ((payload.length : Int) + ((4 + 1 : Nat) : Int)) < 0) := by
    push_cast; omega
  have c2 : ¬ (payload.length > 140) := by omega
  have c3 : ¬ (seq &&& 127 ≠ s.seq_num) := by simp [hseq]
  rw [if_neg c1, if_neg c2, if_neg c3]
  simp

/-- Reading the first bytes of the back part of a buffer. -/
theorem slice_at (pre rest : List Nat) (off n : Nat) (hoff : off = pre.length)
    (h : n ≤ rest.length) : slice (pre ++ rest) off n = .ok (rest.take n) := by
  subst hoff
  unfold slice
  rw [if_pos (by simp; omega)]
  simp

/-- What accepting a frame does to the locals, when the buffer holds garbage, the frame
and `post`, and `bytes_read` counts the garbage and the frame. -/
theorem accept_ok (s : Locals) (w : World) (garbage payload post : List Nat) (blk seq ck : Nat)
    (hbuf : s.buf = garbage ++ reply_frame blk seq payload ck ++ post)
    (hmy : s.my_buf = garbage.length)
    (hread : s.bytes_read = ((garbage.length + payload.length + 5 : Nat) : Int))
    (hpost : garbage.length ≤ post.length) :
    ∃ s1, get_answer_accept s w payload.length seq = .ok (.again s1 w) ∧
      s1.endblock = decide (seq &&& 0x80 ≠ 0) ∧
      s1.end_length = s.end_length + payload.length ∧
      s1.data = memcpy_out s.data s.end_length.toNat payload ∧
      s1.bytes_read = garbage.length ∧
      s1.my_buf = 0 ∧
      s1.need_data = s.need_data ∧
      s1.ellapsed_time = s.ellapsed_time ∧
      s1.seq_num = next_seq_num (decide (seq &&& 0x80 ≠ 0)) s.seq_num ∧
      s1.buf = post.take garbage.length ++ s.buf.drop garbage.length := by
  have hpay : slice s.buf (s.my_buf + 4) payload.length = .ok payload := by
    have h := slice_at (garbage ++ [0xAB, blk, payload.length, seq]) (payload ++ ([ck] ++ post))
      (s.my_buf + 4) payload.length (by simp [hmy]) (by simp)
    simp only [List.take_left'] at h
    rw [← h, hbuf]
    simp [reply_frame]
  have htail : s.bytes_read - ((payload.length : Int) + (PW_HEADER_SIZE : Nat)) = (garbage.length : Int) := by
    rw [hread]; simp only [PW_HEADER_SIZE, PW_HEADER_LENGTH]; push_cast; omega
  unfold get_answer_accept
  simp only [hpay, htail, Int.toNat_ofNat, PW_LAST_SEQ]
  by_cases hg : garbage.length = 0
  · have hnil : garbage = [] := List.length_eq_zero.mp hg
    subst hnil
    simp
  · have hpos : ((garbage.length : Nat) : Int) > 0 := by omega
    have hmove : slice s.buf (s.my_buf + payload.length + PW_HEADER_SIZE) garbage.length
        = .ok (post.take garbage.length) := by
      have h := slice_at (garbage ++ reply_frame blk seq payload ck) post
        (s.my_buf + payload.length + PW_HEADER_SIZE) garbage.length
        (by simp [hmy, reply_frame_length, PW_HEADER_SIZE, PW_HEADER_LENGTH]; omega) hpost
      rw [← h, hbuf]
    have hlen : (post.take garbage.length).length = garbage.length := by simp [hpost]
    have hpoke : poke s.buf 0 (post.take garbage.length)
        = .ok (post.take garbage.length ++ s.buf.drop garbage.length) := by
      unfold poke
      rw [if_pos (by rw [hlen, hbuf]; simp)]
      simp [hlen]
    rw [if_pos hpos]
    simp only [hmove, hpoke]
    simp

/-- The loop ends at once when `endblock` is set. -/
theorem loop_done (fuel : Nat) (s : Locals) (w : World) (h : s.endblock = true) :
    get_answer_loop fuel s w = .ok (s.end_length, s.data, w) := by
  cases fuel <;> simp [get_answer_loop, h]

/-- The second half of the loop body on a buffer that holds garbage without a start byte
and then a complete valid frame. -/
theorem frame_ok (s : Locals) (w : World) (garbage payload post : List Nat) (blk seq ck : Nat)
    (hbuf : s.buf = garbage ++ reply_frame blk seq payload ck ++ post)
    (hmy : s.my_buf = 0)
    (hread : s.bytes_read = ((garbage.length + payload.length + 5 : Nat) : Int))
    (hneed : s.need_data ≤ 0)
    (hg : 0xAB ∉ garbage)
    (hL : payload.length ≤ 140)
    (hseq : seq &&& 0x7f = s.seq_num)
    (hsum : checksum_test (reply_frame blk seq payload ck) = true)
    (hpost : garbage.length ≤ post.length) :
    ∃ s1, get_answer_frame s w = .ok (.again s1 w) ∧
      s1.endblock = decide (seq &&& 0x80 ≠ 0) ∧
      s1.end_length = s.end_length + payload.length ∧
      s1.data = memcpy_out s.data s.end_length.toNat payload ∧
      s1.bytes_read = garbage.length ∧
      s1.my_buf = 0 ∧
      s1.need_data = s.need_data ∧
      s1.ellapsed_time = s.ellapsed_time ∧
      s1.seq_num = next_seq_num (decide (seq &&& 0x80 ≠ 0)) s.seq_num ∧
      s1.buf = post.take garbage.length ++ s.buf.drop garbage.length := by
  unfold get_answer_frame
  rw [if_neg (by omega), resync_skip s garbage payload post blk seq ck hbuf hmy hread hg]
  simp only
  rw [validate_ok { s with my_buf := garbage.length } w garbage payload post blk seq ck hbuf rfl
    hread hL hseq hsum]
  exact accept_ok { s with my_buf := garbage.length } w garbage payload post blk seq ck hbuf rfl
    hread hpost

/-- One transfer brings garbage without a start byte and then a complete valid last frame
of ordinal 1: `get_answer` returns the frame's length and payload. -/
theorem get_answer_one_read (fuel : Nat) (data : List Nat) (command : Nat) (w : World)
    (garbage payload : List Nat) (blk ck : Nat) (now : Int) (rest : List Read)
    (hopen : w.upsdev ≠ none)
    (hreads : w.reads = ⟨true, garbage ++ reply_frame blk 0x81 payload ck, now⟩ :: rest)
    (hg : 0xAB ∉ garbage)
    (hL : payload.length ≤ 140)
    (hsum : checksum_test (reply_frame blk 0x81 payload ck) = true)
    (hsize : garbage.length + (garbage.length + payload.length + 5) ≤ 256) :
    get_answer (fuel + 1) data command w =
      .ok (payload.length, memcpy_out data 0 payload,
        { w with reads := rest, ops := w.ops ++ [Op.xfer 0 5000] }) := by
  cases hu : w.upsdev with
  | none => exact absurd hu hopen
  | some d =>
    have hlen := reply_frame_length blk 0x81 ck payload
    have hsz : PW_CMD_BUFSIZE = 256 := rfl
    have hpoke : poke (List.replicate PW_CMD_BUFSIZE 0) 0 (garbage ++ reply_frame blk 0x81 payload ck) =
        .ok (garbage ++ reply_frame blk 0x81 payload ck ++
          List.replicate (PW_CMD_BUFSIZE - (garbage.length + (payload.length + 5))) 0) := by
      unfold poke
      simp only [List.length_replicate, List.length_append, hlen, List.take_zero, List.nil_append,
        List.drop_replicate, zero_add]
      rw [if_pos (by omega)]
    have hs : (0x81 &&& 0x7f : Nat) = 1 := by decide
    obtain ⟨s1, h1, hend, hlen1, hdata, -⟩ := frame_ok
      { buf := garbage ++ reply_frame blk 0x81 payload ck ++
          List.replicate (PW_CMD_BUFSIZE - (garbage.length + (payload.length + 5))) 0
        my_buf := 0
        need_data := 5 - ((garbage.length + payload.length + 5 : Nat) : Int)
        end_length := 0
        endblock := false
        bytes_read := ((garbage.length + payload.length + 5 : Nat) : Int)
        ellapsed_time := now
        seq_num := 1
        data := data }
      { w with reads := rest, ops := w.ops ++ [Op.xfer 0 5000] }
      garbage payload _ blk 0x81 ck rfl rfl rfl (by simp only; omega) hg hL hs hsum
      (by simp only [List.length_replicate]; omega)
    have hne : (garbage ++ reply_frame blk 0x81 payload ck).length ≠ 0 := by
      simp only [List.length_append, hlen]; omega
    have hcast : (((garbage ++ reply_frame blk 0x81 payload ck).length : Nat) : Int)
        = ((garbage.length + payload.length + 5 : Nat) : Int) := by
      simp only [List.length_append, hlen]; congr 1
    simp only [get_answer, hu, get_answer_loop, get_answer_init, get_answer_step, hreads,
      PW_HEADER_SIZE, PW_HEADER_LENGTH, XCP_USB_TIMEOUT, Int.toNat_zero, hpoke,
      if_neg hne, hcast]
    simp only [Nat.reduceAdd, Nat.cast_ofNat, gt_iff_lt, Nat.ofNat_pos, ↓reduceIte, zero_add, sub_zero, true_and,
      Bool.true_eq_false]
    simp only [hu] at h1
    rw [h1]
    simp only
    rw [loop_done fuel s1 _ (by simp [hend])]
    simp [hlen1, hdata]


/-! ## Lemmas: the iteration budget -/

/-- A run of the loop that ends within its budget ends the same way with a larger one. -/
theorem get_answer_loop_more_fuel (fuel extra : Nat) (s : Locals) (w : World)
    (r : Int × List Nat × World) (h : get_answer_loop fuel s w = .ok r) :
    get_answer_loop (fuel + extra) s w = .ok r := by
  induction fuel generalizing s w with
  | zero =>
    unfold get_answer_loop at h
    split at h
    · cases h
    · rename_i hc
      cases extra with
      | zero => simp only [get_answer_loop, hc, if_false, Nat.add_zero]; exact h
      | succ e =>
        rw [show 0 + (e + 1) = e + 1 by omega]
        simp only [get_answer_loop, hc, if_false]; exact h
  | succ n ih =>
    rw [show n + 1 + extra = (n + extra) + 1 by omega]
    unfold get_answer_loop at h ⊢
    split at h
    · rename_i hc
      rw [if_pos hc]
      split at h
      · cases h
      · rename_i s1 w1 hs
        exact ih _ _ h
      · rename_i s1 w1 hs
        exact h
      · rename_i v s1 w1 hs
        exact h
    · rename_i hc
      rw [if_neg hc]; exact h

/-- A call of `get_answer` that ends within its budget ends the same way with a larger
one: a result does not depend on the budget it was computed with. -/
theorem get_answer_more_fuel (fuel extra : Nat) (data : List Nat) (command : Nat) (w : World)
    (r : Int × List Nat × World) (h : get_answer fuel data command w = .ok r) :
    get_answer (fuel + extra) data command w = .ok r := by
  unfold get_answer at h ⊢
  split
  · rename_i hu
    simp only [hu] at h
    exact h
  · rename_i d hu
    simp only [hu] at h
    exact get_answer_loop_more_fuel _ _ _ _ _ h


/-! ## Lemmas: what `get_answer` leaves untouched -/

/-- The relation `same_traffic` is transitive. -/
theorem same_traffic_trans {a b c : World} (h1 : same_traffic a b) (h2 : same_traffic b c) :
    same_traffic a c := ⟨h2.1.trans h1.1, h2.2.trans h1.2⟩

/-- Opening the device sends no command frame and marks nothing stale. -/
theorem open_device_loop_traffic (tries : Nat) (w w1 : World) (b : Bool)
    (h : open_device_loop tries w = .ok (b, w1)) : same_traffic w w1 := by
  induction tries generalizing w with
  | zero =>
    simp only [open_device_loop, Except.ok.injEq, Prod.mk.injEq] at h
    rw [← h.2]; exact ⟨rfl, rfl⟩
  | succ n ih =>
    unfold open_device_loop at h
    cases ho : w.opens with
    | nil => simp [ho] at h
    | cons t rest =>
      simp only [ho] at h
      split at h
      · have ht := ih _ h; exact ⟨ht.1, ht.2⟩
      · split at h
        · have ht := ih _ h; exact ⟨ht.1, ht.2⟩
        · cases h; exact ⟨rfl, rfl⟩

/-- The warning of `nutusb_comm_fail` sends no command frame and marks nothing stale. -/
theorem comm_fail_notice_traffic (w : World) : same_traffic w (comm_fail_notice w) := by
  unfold comm_fail_notice; split <;> exact ⟨rfl, rfl⟩

/-- The message of `nutusb_comm_fail` sends no command frame and marks nothing stale. -/
theorem comm_fail_message_traffic (fmt : Option String) (w : World) :
    same_traffic w (comm_fail_message fmt w) := by
  unfold comm_fail_message
  cases fmt with
  | none => exact ⟨rfl, rfl⟩
  | some text => simp only; split <;> exact ⟨rfl, rfl⟩

/-- The function `nutusb_comm_fail` sends no command frame and marks nothing stale. -/
theorem nutusb_comm_fail_traffic (fmt : Option String) (w w1 : World)
    (h : nutusb_comm_fail fmt w = .ok w1) : same_traffic w w1 := by
  unfold nutusb_comm_fail at h
  have hn : same_traffic w (comm_fail_notice (comm_fail_count w)) :=
    same_traffic_trans (b := comm_fail_count w) ⟨rfl, rfl⟩ (comm_fail_notice_traffic _)
  split at h
  · cases h; exact ⟨rfl, rfl⟩
  · simp only at h
    split at h
    · unfold upsdrv_reconnect open_device at h
      split at h
      · cases h
      · rename_i b w2 ho
        cases h
        exact same_traffic_trans hn (open_device_loop_traffic _ _ _ _ ho)
    · cases h
      exact same_traffic_trans hn (comm_fail_message_traffic _ _)

/-- Accepting a frame sends no command frame and marks nothing stale. -/
theorem get_answer_accept_traffic (s : Locals) (w : World) (length sequence : Nat) (fl : Flow)
    (h : get_answer_accept s w length sequence = .ok fl) : same_traffic w fl.world := by
  unfold get_answer_accept at h
  split at h
  · cases h
  · simp only at h
    split at h
    · split at h
      · cases h
      · split at h
        · cases h
        · cases h; exact ⟨rfl, rfl⟩
    · split at h
      · cases h; exact ⟨rfl, rfl⟩
      · cases h; exact ⟨rfl, rfl⟩

/-- Checking a frame sends no command frame and marks nothing stale. -/
theorem get_answer_validate_traffic (s : Locals) (w : World) (fl : Flow)
    (h : get_answer_validate s w = .ok fl) : same_traffic w fl.world := by
  unfold get_answer_validate at h
  split at h
  · cases h
  · split at h
    · cases h
    · split at h
      · cases h; exact ⟨rfl, rfl⟩
      · split at h
        · cases h; exact ⟨rfl, rfl⟩
        · split at h
          · cases h
          · split at h
            · split at h
              · cases h
              · rename_i w1 hf
                cases h
                exact nutusb_comm_fail_traffic _ _ _ hf
            · split at h
              · cases h
              · split at h
                · split at h
                  · cases h
                  · rename_i w1 hf
                    cases h
                    exact nutusb_comm_fail_traffic _ _ _ hf
                · exact get_answer_accept_traffic _ _ _ _ _ h

/-- The second half of the loop body sends no command frame and marks nothing stale. -/
theorem get_answer_frame_traffic (s : Locals) (w : World) (fl : Flow)
    (h : get_answer_frame s w = .ok fl) : same_traffic w fl.world := by
  unfold get_answer_frame at h
  split at h
  · cases h; exact ⟨rfl, rfl⟩
  · split at h
    · cases h
    · cases h; exact ⟨rfl, rfl⟩
    · exact get_answer_validate_traffic _ _ _ h

/-- A pass through the loop body sends no command frame and marks nothing stale. -/
theorem get_answer_step_traffic (s : Locals) (w : World) (fl : Flow)
    (h : get_answer_step s w = .ok fl) : same_traffic w fl.world := by
  unfold get_answer_step at h
  split at h
  · split at h
    · cases h
    · simp only at h
      split at h
      · cases h
      · split at h
        · cases h; exact ⟨rfl, rfl⟩
        · split at h
          · cases h; exact ⟨rfl, rfl⟩
          · have ht := get_answer_frame_traffic _ _ _ h; exact ⟨ht.1, ht.2⟩
  · exact get_answer_frame_traffic _ _ _ h

/-- The loop of `get_answer` sends no command frame and marks nothing stale. -/
theorem get_answer_loop_traffic (fuel : Nat) (s : Locals) (w : World) (r : Int × List Nat × World)
    (h : get_answer_loop fuel s w = .ok r) : same_traffic w r.2.2 := by
  induction fuel generalizing s w with
  | zero =>
    unfold get_answer_loop at h
    split at h
    · cases h
    · cases h; exact ⟨rfl, rfl⟩
  | succ n ih =>
    unfold get_answer_loop at h
    split at h
    · split at h
      · cases h
      · rename_i s1 w1 hs
        exact same_traffic_trans (get_answer_step_traffic _ _ _ hs) (ih _ _ h)
      · rename_i s1 w1 hs
        cases h
        exact get_answer_step_traffic _ _ _ hs
      · rename_i v s1 w1 hs
        cases h
        exact get_answer_step_traffic _ _ _ hs
    · cases h; exact ⟨rfl, rfl⟩

/-- The function `get_answer` sends no command frame and marks nothing stale. -/
theorem get_answer_traffic (fuel : Nat) (data : List Nat) (command : Nat) (w : World)
    (r : Int × List Nat × World) (h : get_answer fuel data command w = .ok r) :
    same_traffic w r.2.2 := by
  unfold get_answer at h
  split at h
  · cases h; exact ⟨rfl, rfl⟩
  · exact get_answer_loop_traffic _ _ _ _ h

/-- On a closed connection `get_answer` returns -1 and does nothing. -/
theorem get_answer_closed (fuel : Nat) (data : List Nat) (command : Nat) (w : World)
    (h : w.upsdev = none) : get_answer fuel data command w = .ok (-1, data, w) := by
  simp [get_answer, h]

/-- The function `send_read_command` sends one frame on an open connection and none on a
closed one, and leaves the stale marks and `upsdev` alone. -/
theorem send_read_command_sent (command : Nat) (w : World) :
    (send_read_command command w).sent.length = w.sent.length + frames_of w ∧
    (send_read_command command w).stale = w.stale ∧
    (send_read_command command w).upsdev = w.upsdev := by
  unfold send_read_command frames_of
  cases hu : w.upsdev <;> simp [hu]

/-- The function `send_write_command` sends one frame on an open connection and none on
a closed one, and leaves the stale marks and `upsdev` alone. -/
theorem send_write_command_sent (command : List Nat) (n : Nat) (w w1 : World)
    (h : send_write_command command n w = .ok w1) :
    w1.sent.length = w.sent.length + frames_of w ∧ w1.stale = w.stale ∧ w1.upsdev = w.upsdev := by
  unfold send_write_command at h
  unfold frames_of
  cases hu : w.upsdev with
  | none => simp only [hu] at h; cases h; simp [hu]
  | some d =>
    simp only [hu] at h
    split at h
    · cases h
    · cases h; simp [hu]

/-- An attempt sends one frame when it starts with an open connection and none
otherwise. -/
theorem attempt_sent (fuel : Nat) (t : Transaction) (data : List Nat) (w : World)
    (r : Int × List Nat × World) (h : t.attempt fuel data w = .ok r) :
    r.2.2.sent.length = w.sent.length + frames_of w ∧ r.2.2.stale = w.stale := by
  cases t with
  | read command =>
    simp only [Transaction.attempt, read_attempt] at h
    have h1 := get_answer_traffic _ _ _ _ _ h
    have h2 := send_read_command_sent command w
    exact ⟨by rw [h1.1, h2.1], by rw [h1.2, h2.2.1]⟩
  | write command n =>
    simp only [Transaction.attempt, write_attempt] at h
    split at h
    · cases h
    · rename_i w1 hs
      split at h
      · cases h
      · have h1 := get_answer_traffic _ _ _ _ _ h
        have h2 := send_write_command_sent command n w w1 hs
        exact ⟨by rw [h1.1]; exact h2.1, by rw [h1.2]; exact h2.2.1⟩

/-- An attempt that starts with a closed connection yields -1 and leaves the connection
closed. -/
theorem attempt_closed (fuel : Nat) (t : Transaction) (data : List Nat) (w : World)
    (r : Int × List Nat × World) (hc : w.upsdev = none) (h : t.attempt fuel data w = .ok r) :
    r.1 = -1 ∧ r.2.2.upsdev = none := by
  cases t with
  | read command =>
    simp only [Transaction.attempt, read_attempt] at h
    have h2 := (send_read_command_sent command w).2.2
    rw [get_answer_closed _ _ _ _ (h2.trans hc)] at h
    cases h
    exact ⟨rfl, h2.trans hc⟩
  | write command n =>
    simp only [Transaction.attempt, write_attempt] at h
    split at h
    · cases h
    · rename_i w1 hs
      have h2 := (send_write_command_sent command n w w1 hs).2.2
      split at h
      · cases h
      · rw [get_answer_closed _ _ _ _ (by simpa using h2.trans hc)] at h
        cases h
        exact ⟨rfl, by simpa using h2.trans hc⟩

/-- The frames sent by a run of attempts, attempt by attempt. -/
theorem attempts_sent (fuel : Nat) (t : Transaction) (k : Nat) (data : List Nat) (w : World)
    (r : List (World × Int) × List Nat × World)
    (h : attempts (t.attempt fuel) k data w = .ok r) :
    r.2.2.sent.length = w.sent.length + (r.1.map (fun p => frames_of p.1)).sum ∧
    r.2.2.stale = w.stale := by
  induction k generalizing data w r with
  | zero => simp only [attempts] at h; cases h; simp
  | succ n ih =>
    unfold attempts at h
    split at h
    · cases h
    · rename_i n0 d0 w0 ha
      split at h
      · cases h
      · rename_i tr d2 w2 hr
        cases h
        have h1 := attempt_sent fuel t data w _ ha
        have h2 := ih _ _ _ hr
        simp only at h1 h2 ⊢
        simp only [List.map_cons, List.sum_cons]
        exact ⟨by rw [h2.1, h1.1]; omega, by rw [h2.2, h1.2]⟩

/-- Attempts that start with a closed connection all yield -1. -/
theorem attempts_closed (fuel : Nat) (t : Transaction) (k : Nat) (data : List Nat) (w : World)
    (r : List (World × Int) × List Nat × World) (hc : w.upsdev = none)
    (h : attempts (t.attempt fuel) k data w = .ok r) : ∀ p ∈ r.1, p.2 = -1 := by
  induction k generalizing data w r with
  | zero => simp only [attempts] at h; cases h; simp
  | succ n ih =>
    unfold attempts at h
    split at h
    · cases h
    · rename_i n0 d0 w0 ha
      split at h
      · cases h
      · rename_i tr d2 w2 hr
        cases h
        have h1 := attempt_closed fuel t data w _ hc ha
        have h2 := ih _ _ _ h1.2 hr
        intro p hp
        simp only [List.mem_cons] at hp
        rcases hp with rfl | hp
        · exact h1.1
        · exact h2 p hp

/-- When the last attempt of a run yields 1 or more, every attempt of the run started with
an open connection. -/
theorem attempts_open (fuel : Nat) (t : Transaction) (k : Nat) (data : List Nat) (w : World)
    (r : List (World × Int) × List Nat × World) (n : Int) (hn : 1 ≤ n)
    (hlast : r.1.getLast?.map Prod.snd = some n)
    (h : attempts (t.attempt fuel) k data w = .ok r) : ∀ p ∈ r.1, frames_of p.1 = 1 := by
  induction k generalizing data w r with
  | zero => simp only [attempts] at h; cases h; simp
  | succ m ih =>
    have hall := h
    unfold attempts at h
    split at h
    · cases h
    · rename_i n0 d0 w0 ha
      split at h
      · cases h
      · rename_i tr d2 w2 hr
        cases h
        have hopen : frames_of w = 1 := by
          unfold frames_of
          cases hu : w.upsdev with
          | some d => rfl
          | none =>
            exfalso
            have hc := attempts_closed fuel t (m + 1) data w _ hu hall
            simp only at hlast hc
            cases hl : ((w, n0) :: tr).getLast? with
            | none => simp [hl] at hlast
            | some q =>
              rw [hl] at hlast
              simp only [Option.map_some', Option.some.injEq] at hlast
              have := hc q (List.mem_of_getLast?_eq_some hl)
              omega
        intro p hp
        simp only [List.mem_cons] at hp
        rcases hp with rfl | hp
        · exact hopen
        · cases tr with
          | nil => simp at hp
          | cons x xs =>
            refine ih _ _ _ ?_ hr p hp
            simpa [List.getLast?_cons_cons] using hlast

/-- The retry loop ends when the last result is 1 or more, or no pass is left. -/
theorem command_loop_stop (attempt : List Nat → World → Except Fault (Int × List Nat × World))
    (left : Nat) (n : Int) (d : List Nat) (w : World) (h : 1 ≤ n ∨ left = 0) :
    command_loop attempt left n d w = .ok (n, d, w) := by
  cases left with
  | zero => rfl
  | succ l =>
    have hn : ¬ n < 1 := by omega
    simp [command_loop, hn]

/-- The retry loop makes the attempts one after the other while they yield less than 1,
up to the number of passes allowed. -/
theorem command_loop_attempts (attempt : List Nat → World → Except Fault (Int × List Nat × World))
    (tr : List (World × Int)) (left : Nat) (b : Int) (data : List Nat) (w wl : World) (n : Int)
    (d : List Nat) (w1 : World) (hb : b < 1) (hk : tr.length + 1 ≤ left)
    (hrun : attempts attempt (tr.length + 1) data w = .ok (tr ++ [(wl, n)], d, w1))
    (hfail : ∀ p ∈ tr, p.2 < 1) (hend : 1 ≤ n ∨ tr.length + 1 = left) :
    command_loop attempt left b data w = .ok (n, d, w1) := by
  induction tr generalizing left b data w with
  | nil =>
    obtain ⟨l, rfl⟩ : ∃ l, left = l + 1 := ⟨left - 1, by simp at hk; omega⟩
    simp only [List.length_nil, zero_add, List.nil_append] at hrun
    unfold attempts at hrun
    unfold command_loop
    rw [if_pos hb]
    split at hrun
    · cases hrun
    · rename_i n0 d0 w0 ha
      simp only [attempts] at hrun
      cases hrun
      exact command_loop_stop attempt l n d w1 (by simp at hend; omega)
  | cons x xs ih =>
    obtain ⟨l, rfl⟩ : ∃ l, left = l + 1 := ⟨left - 1, by simp at hk; omega⟩
    simp only [List.length_cons, List.cons_append] at hrun hk hend
    unfold attempts at hrun
    unfold command_loop
    rw [if_pos hb]
    split at hrun
    · cases hrun
    · rename_i n0 d0 w0 ha
      split at hrun
      · cases hrun
      · rename_i tr1 d2 w2 hr
        simp only [Except.ok.injEq, Prod.mk.injEq, List.cons.injEq] at hrun
        obtain ⟨⟨hx, htr⟩, hd, hw⟩ := hrun
        subst hd hw htr
        have hx2 : n0 < 1 := by
          have := hfail x (by simp)
          rw [← hx] at this
          exact this
        exact ih l n0 d0 w0 hx2 (by omega) hr (fun p hp => hfail p (by simp [hp])) (by omega)

/-- Both transactions are the retry loop over their attempt followed by the common end. -/
theorem sequence_eq (fuel : Nat) (t : Transaction) (data : List Nat) (w : World) :
    t.sequence fuel data w =
      match command_loop (t.attempt fuel) 5 0 data w with
      | .error e => .error e
      | .ok r => command_finish r := by
  cases t <;> rfl

/-- The frames sent by a run of attempts are as many as the attempts that started with an
open connection. -/
theorem attempts_sent_count (fuel : Nat) (t : Transaction) (k : Nat) (data : List Nat) (w : World)
    (r : List (World × Int) × List Nat × World)
    (h : attempts (t.attempt fuel) k data w = .ok r) :
    r.2.2.sent.length = w.sent.length + r.1.countP (fun p => p.1.upsdev.isSome) ∧
    r.2.2.stale = w.stale := by
  have h1 := attempts_sent fuel t k data w r h
  refine ⟨?_, h1.2⟩
  rw [h1.1]
  congr 1
  generalize r.1 = l
  induction l with
  | nil => rfl
  | cons x xs ih =>
    rw [List.map_cons, List.sum_cons, List.countP_cons, ih]
    unfold frames_of
    omega


/-! ## Lemmas: the checksum -/

/-- Flipping one of the low 8 bits of a number changes it modulo 256. -/
theorem xor_two_pow_mod_ne (b k : Nat) (hk : k < 8) : (b ^^^ 2 ^ k) % 256 ≠ b % 256 := by
  intro h
  have h1 : ((b ^^^ 2 ^ k) % 2 ^ 8).testBit k = (b % 2 ^ 8).testBit k := congrArg (fun x => Nat.testBit x k) h
  rw [Nat.testBit_mod_two_pow, Nat.testBit_mod_two_pow, Nat.testBit_xor, Nat.testBit_two_pow_self] at h1
  simp [hk] at h1

/-- Flipping one bit of one byte changes the byte sum modulo 256. -/
theorem flip_bit_sum (bytes : List Nat) (i k : Nat) (hi : i < bytes.length) (hk : k < 8) :
    (flip_bit bytes i k).sum % 256 ≠ bytes.sum % 256 := by
  induction bytes generalizing i with
  | nil => simp at hi
  | cons b bs ih =>
    cases i with
    | zero =>
      have := xor_two_pow_mod_ne b k hk
      simp only [flip_bit, List.sum_cons]
      omega
    | succ j =>
      have := ih j (by simpa using hi)
      simp only [flip_bit, List.sum_cons]
      omega

/-- The test of a frame compares the checksum of all bytes but the last with the last. -/
theorem checksum_test_append (bytes : List Nat) (c : Nat) :
    checksum_test (bytes ++ [c]) = (calc_checksum bytes == c) := by
  simp [checksum_test]


/-! ## Lemmas: the loop that never reads -/

/-- The first pass through the loop body accepts the first frame and leaves the locals
`stuck`. -/
theorem stuck_reached (rest : List Read) :
    get_answer_step (get_answer_init [])
        (fresh (⟨true, [0xAB, 0x01, 0x01, 0x01, 0x10, 0x42, 0xAB, 0x01, 0x00], 1⟩ :: rest)) =
      .ok (.again stuck { fresh rest with ops := [Op.xfer 0 5000] }) := rfl

/-- From the locals `stuck` a pass through the loop body makes no transfer and changes
nothing. -/
theorem stuck_step (w : World) : get_answer_step stuck w = .ok (.again stuck w) := rfl

/-- From the locals `stuck` the loop uses up any budget. -/
theorem stuck_loop (fuel : Nat) (w : World) : get_answer_loop fuel stuck w = .error .fuel := by
  induction fuel with
  | zero => rfl
  | succ n ih =>
    unfold get_answer_loop
    rw [if_pos (by decide), stuck_step]
    exact ih


/-! ## The claims -/

/-- C1: a reply made of one frame `[0xAB, block number, L, 0x81, L payload bytes,
checksum]` with `1 ≤ L ≤ 140` and a checksum that `checksum_test` accepts, delivered in one
successful transfer on an open connection, makes `command_read_sequence` return `L` for
every opcode, after one attempt: one command frame is sent, one transfer is made, and the
first `L` bytes of the output buffer are the payload. -/
theorem command_read_sequence_single_frame (fuel command : Nat) (data : List Nat) (w : World)
    (blk ck : Nat) (payload : List Nat) (now : Int) (rest : List Read)
    (hopen : w.upsdev ≠ none)
    (hreads : w.reads = ⟨true, reply_frame blk 0x81 payload ck, now⟩ :: rest)
    (hmin : 1 ≤ payload.length) (hmax : payload.length ≤ 140)
    (hsum : checksum_test (reply_frame blk 0x81 payload ck) = true) :
    command_read_sequence (fuel + 1) command data w =
      .ok (payload.length, payload ++ data.drop payload.length,
        { w with
          reads := rest
          sent := w.sent ++ [[0xAB, 0x01, command, calc_checksum [0xAB, 0x01, command]]]
          ops := w.ops ++ [Op.xfer 0 5000] }) := by
  have hlen := reply_frame_length blk 0x81 ck payload
  have hsent := (send_read_command_sent command w).2.2
  have hone := get_answer_one_read fuel data command (send_read_command command w) []
    payload blk ck now rest (by rw [hsent]; exact hopen)
    (by
      cases hu : w.upsdev with
      | none => exact absurd hu hopen
      | some d => simp [send_read_command, hu, hreads])
    (by simp) hmax hsum (by simp only [List.length_nil]; omega)
  have hpos : ¬ ((payload.length : Int) < 1) := by omega
  cases hu : w.upsdev with
  | none => exact absurd hu hopen
  | some d =>
    simp only [command_read_sequence, command_loop, read_attempt, hone, command_finish,
      memcpy_out]
    have hne : payload ≠ [] := by
      intro h
      rw [h] at hmin
      simp at hmin
    simp [send_read_command, hu, PW_COMMAND_START_BYTE, hne]

/-- C1, at the reply `AB 01 03 81 10 20 30 70` to opcode 0x01: the call returns 3 and the
bytes `10 20 30`. -/
theorem command_read_sequence_single_frame_witness :
    (fresh [⟨true, [0xAB, 0x01, 0x03, 0x81, 0x10, 0x20, 0x30, 0x70], 7⟩]).upsdev ≠ none ∧
    checksum_test [0xAB, 0x01, 0x03, 0x81, 0x10, 0x20, 0x30, 0x70] = true ∧
    command_read_sequence 1 0x01 []
        (fresh [⟨true, [0xAB, 0x01, 0x03, 0x81, 0x10, 0x20, 0x30, 0x70], 7⟩]) =
      .ok (3, [0x10, 0x20, 0x30],
        { fresh [] with sent := [[0xAB, 0x01, 0x01, 0x53]], ops := [Op.xfer 0 5000] }) :=
  ⟨by decide, by decide,
    command_read_sequence_single_frame 0 0x01 []
      (fresh [⟨true, [0xAB, 0x01, 0x03, 0x81, 0x10, 0x20, 0x30, 0x70], 7⟩])
      0x01 0x70 [0x10, 0x20, 0x30] 7 [] (by decide) rfl (by decide) (by decide) (by decide)⟩

/-- C2, the code at a failing input: the valid one-frame reply `AB 01 01 81 10 C2`
(length 1, ordinal 1, last) is returned as 1 byte, `10`, when it comes in one transfer, but
`get_answer` returns 0 and copies nothing when it comes as the 5 bytes `AB 01 01 81 10`
followed by `C2`, or one byte per transfer: with exactly 5 bytes buffered `need_data` is
set to `length + 1`, one byte more than the frame still lacks, so after the frame is
complete another transfer is made, and that one times out. -/
theorem get_answer_split_read_fails :
    checksum_test [0xAB, 0x01, 0x01, 0x81, 0x10, 0xC2] = true ∧
    get_answer 10 [] 0x01 (fresh [⟨true, [0xAB, 0x01, 0x01, 0x81, 0x10, 0xC2], 1⟩]) =
      .ok (1, [0x10], { fresh [] with ops := [Op.xfer 0 5000] }) ∧
    get_answer 10 [] 0x01
        (fresh [⟨true, [0xAB, 0x01, 0x01, 0x81, 0x10], 1⟩, ⟨true, [0xC2], 2⟩, ⟨false, [], 5000⟩]) =
      .ok (0, [], { fresh [] with
        ops := [Op.xfer 0 5000, Op.xfer 5 4999, Op.xfer 6 4998, Op.clear_halt] }) ∧
    get_answer 10 [] 0x01
        (fresh [⟨true, [0xAB], 1⟩, ⟨true, [0x01], 2⟩, ⟨true, [0x01], 3⟩, ⟨true, [0x81], 4⟩,
          ⟨true, [0x10], 5⟩, ⟨true, [0xC2], 6⟩, ⟨false, [], 5000⟩]) =
      .ok (0, [], { fresh [] with
        ops := [Op.xfer 0 5000, Op.xfer 1 4999, Op.xfer 2 4998, Op.xfer 3 4997, Op.xfer 4 4996,
          Op.xfer 5 4995, Op.xfer 6 4994, Op.clear_halt] }) :=
  ⟨by decide, rfl, rfl, rfl⟩


/-- C3, the code at a failing input: after the valid frame `AB 01 01 01 10 42` (length 1,
ordinal 1, not last) is accepted, a failed transfer makes `get_answer` return 1, the
cumulative length so far, and so does the expiry of the 5000 ms: both leave the loop for
`return end_length`. -/
theorem get_answer_returns_cumulative_length :
    checksum_test [0xAB, 0x01, 0x01, 0x01, 0x10, 0x42] = true ∧
    get_answer 10 [] 0x01
        (fresh [⟨true, [0xAB, 0x01, 0x01, 0x01, 0x10, 0x42], 1⟩, ⟨false, [], 2⟩]) =
      .ok (1, [0x10], { fresh [] with
        ops := [Op.xfer 0 5000, Op.xfer 0 4999, Op.clear_halt] }) ∧
    get_answer 10 [] 0x01 (fresh [⟨true, [0xAB, 0x01, 0x01, 0x01, 0x10, 0x42], 5000⟩]) =
      .ok (1, [0x10], { fresh [] with ops := [Op.xfer 0 5000] }) :=
  ⟨by decide, rfl, rfl⟩


/-- C4, the code at a failing input: the valid frame `AB 01 01 01 10 42` (ordinal 1, not
last) is followed by the valid frame `AB 01 01 83 20 B0` of ordinal 3.  When the second
frame comes as 5 bytes and then 1 byte, `get_answer` waits for one byte more than the
frame has, the next transfer times out and 1 is returned, the length of the first payload;
the wrong ordinal is never looked at.  When the second frame comes in one transfer the
ordinal is rejected and -1 returned. -/
theorem get_answer_sequence_gap_undetected :
    checksum_test [0xAB, 0x01, 0x01, 0x01, 0x10, 0x42] = true ∧
    checksum_test [0xAB, 0x01, 0x01, 0x83, 0x20, 0xB0] = true ∧
    get_answer 20 [] 0x01
        (fresh [⟨true, [0xAB, 0x01, 0x01, 0x01, 0x10, 0x42], 1⟩,
          ⟨true, [0xAB, 0x01, 0x01, 0x83, 0x20], 2⟩, ⟨true, [0xB0], 3⟩, ⟨false, [], 5000⟩]) =
      .ok (1, [0x10], { fresh [] with
        ops := [Op.xfer 0 5000, Op.xfer 0 4999, Op.xfer 5 4998, Op.xfer 6 4997, Op.clear_halt] }) ∧
    get_answer 20 [] 0x01
        (fresh [⟨true, [0xAB, 0x01, 0x01, 0x01, 0x10, 0x42], 1⟩,
          ⟨true, [0xAB, 0x01, 0x01, 0x83, 0x20, 0xB0], 2⟩, ⟨false, [], 5000⟩]) =
      .ok (-1, [0x10], { fresh [⟨false, [], 5000⟩] with
        comm_failures := 1
        ops := [Op.xfer 0 5000, Op.xfer 0 4999]
        log := [Log.lost "get_answer: not the right sequence received 3!!!\n"] }) :=
  ⟨by decide, by decide, rfl, rfl⟩


/-- C5: garbage bytes without a start byte followed by one complete valid frame (ordinal
1, last, length `L ≤ 140`), all in one transfer of at most 128 bytes: `get_answer`
returns `L` and the output buffer starts with that frame's payload; nothing of the
garbage is copied. -/
theorem get_answer_resynchronises (fuel command : Nat) (data : List Nat) (w : World)
    (garbage payload : List Nat) (blk ck : Nat) (now : Int) (rest : List Read)
    (hopen : w.upsdev ≠ none)
    (hreads : w.reads = ⟨true, garbage ++ reply_frame blk 0x81 payload ck, now⟩ :: rest)
    (_hne : garbage ≠ [])
    (hg : 0xAB ∉ garbage)
    (hmax : payload.length ≤ 140)
    (hsum : checksum_test (reply_frame blk 0x81 payload ck) = true)
    (hsize : (garbage ++ reply_frame blk 0x81 payload ck).length ≤ 128) :
    get_answer (fuel + 1) data command w =
      .ok (payload.length, payload ++ data.drop payload.length,
        { w with reads := rest, ops := w.ops ++ [Op.xfer 0 5000] }) := by
  have hlen := reply_frame_length blk 0x81 ck payload
  have hone := get_answer_one_read fuel data command w garbage payload blk ck now rest hopen
    hreads hg hmax hsum (by simp only [List.length_append, hlen] at hsize; omega)
  rw [hone]
  simp [memcpy_out]

/-- C5, at the garbage `00 FF` followed by the frame `AB 01 03 81 10 20 30 70`. -/
theorem get_answer_resynchronises_witness :
    (0xAB ∉ [0x00, 0xFF]) ∧
    checksum_test [0xAB, 0x01, 0x03, 0x81, 0x10, 0x20, 0x30, 0x70] = true ∧
    get_answer 1 [] 0x01
        (fresh [⟨true, [0x00, 0xFF, 0xAB, 0x01, 0x03, 0x81, 0x10, 0x20, 0x30, 0x70], 7⟩]) =
      .ok (3, [0x10, 0x20, 0x30], { fresh [] with ops := [Op.xfer 0 5000] }) :=
  ⟨by decide, by decide,
    get_answer_resynchronises 0 0x01 []
      (fresh [⟨true, [0x00, 0xFF, 0xAB, 0x01, 0x03, 0x81, 0x10, 0x20, 0x30, 0x70], 7⟩])
      [0x00, 0xFF] [0x10, 0x20, 0x30] 0x01 0x70 7 [] (by decide) rfl (by decide) (by decide)
      (by decide) (by decide) (by decide)⟩

/-- C6, the code at a failing input: one transfer brings the valid frame
`AB 01 01 01 10 42` (ordinal 1, not last) and the first three bytes `AB 01 00` of a second
frame of length 0.  Once the first frame is accepted `need_data` is -4, `bytes_read` is 3
and the declared length is 0, so each pass takes `need_data` to -5 and back to -4 and
goes round again without a transfer and without a look at the clock: whatever the budget
of passes, it is used up, whatever the transfers still to come. -/
theorem get_answer_spins_forever (fuel : Nat) (rest : List Read) :
    get_answer fuel [] 0x01
        (fresh (⟨true, [0xAB, 0x01, 0x01, 0x01, 0x10, 0x42, 0xAB, 0x01, 0x00], 1⟩ :: rest)) =
      .error .fuel := by
  cases fuel with
  | zero => rfl
  | succ n =>
    show get_answer_loop (n + 1) (get_answer_init [])
        (fresh (⟨true, [0xAB, 0x01, 0x01, 0x01, 0x10, 0x42, 0xAB, 0x01, 0x00], 1⟩ :: rest)) =
      .error .fuel
    unfold get_answer_loop
    rw [if_pos (by decide), stuck_reached]
    exact stuck_loop n _



/-- C7 as stated fails on a closed connection: the five attempts of a read or a write
transaction each yield -1 and the transaction returns -1, marks the data stale once and
reports one failure, yet no command frame is handed to the transport. -/
theorem closed_connection_sends_no_frame :
    attempts (Transaction.attempt 0 (.read 0x01)) 5 [] closed =
      .ok (List.replicate 5 (closed, -1), [], closed) ∧
    Transaction.sequence 0 (.read 0x01) [] closed =
      .ok (-1, [], { closed with
        comm_failures := 1, log := [Log.lost "Error executing command"], stale := 1 }) ∧
    Transaction.sequence 0 (.write [0x01, 0x02] 2) [] closed =
      .ok (-1, [], { closed with
        comm_failures := 1, log := [Log.lost "Error executing command"], stale := 1,
        ops := List.replicate 5 Op.settle }) :=
  ⟨rfl, rfl, rfl⟩


/-- C7, amended: the first `k - 1` attempts (`tr`) of a read or write transaction yield a
value below 1 and attempt `k ≤ 5` yields `n`.  If `n ≥ 1` the transaction returns `n`
with the buffer and the world that attempt `k` left (no stale mark, no failure report of
its own) and exactly `k` command frames have been sent.  If `n < 1` and `k = 5` it
returns -1 after one `nutusb_comm_fail("Error executing command")` and one stale mark,
and the frames sent are as many as the attempts that started with an open connection:
5 when the connection was open at each attempt. -/
theorem retry_policy (fuel : Nat) (t : Transaction) (data : List Nat) (w : World)
    (tr : List (World × Int)) (wl : World) (n : Int) (d : List Nat) (w1 : World)
    (hk : tr.length + 1 ≤ 5)
    (hrun : attempts (t.attempt fuel) (tr.length + 1) data w = .ok (tr ++ [(wl, n)], d, w1))
    (hfail : ∀ p ∈ tr, p.2 < 1) :
    (1 ≤ n →
      t.sequence fuel data w = .ok (n, d, w1) ∧
      w1.sent.length = w.sent.length + (tr.length + 1) ∧
      w1.stale = w.stale) ∧
    (n < 1 → tr.length + 1 = 5 →
      t.sequence fuel data w =
        (nutusb_comm_fail (some "Error executing command") w1).map
          (fun w2 => (-1, d, dstate_datastale w2)) ∧
      w1.sent.length =
        w.sent.length + (tr ++ [(wl, n)]).countP (fun p => p.1.upsdev.isSome) ∧
      ((∀ p ∈ tr ++ [(wl, n)], p.1.upsdev ≠ none) → w1.sent.length = w.sent.length + 5) ∧
      w1.stale = w.stale) := by
  have hcount := attempts_sent_count fuel t _ data w _ hrun
  simp only at hcount
  constructor
  · intro hn
    have hloop := command_loop_attempts (t.attempt fuel) tr 5 0 data w wl n d w1 (by decide) hk
      hrun hfail (Or.inl hn)
    have hopen := attempts_open fuel t _ data w _ n hn (by simp) hrun
    refine ⟨?_, ?_, hcount.2⟩
    · rw [sequence_eq, hloop]
      simp only [command_finish]
      rw [if_neg (by omega)]
    · rw [hcount.1]
      congr 1
      have hall : ∀ p ∈ tr ++ [(wl, n)], (fun p : World × Int => p.1.upsdev.isSome) p = true := by
        intro p hp
        have := hopen p hp
        unfold frames_of at this
        split at this
        · assumption
        · cases this
      rw [List.countP_eq_length.mpr hall]
      simp
  · intro hn h5
    have hloop := command_loop_attempts (t.attempt fuel) tr 5 0 data w wl n d w1 (by decide) hk
      hrun hfail (Or.inr h5)
    refine ⟨?_, hcount.1, ?_, hcount.2⟩
    · rw [sequence_eq, hloop]
      simp only [command_finish]
      rw [if_pos hn]
      cases nutusb_comm_fail (some "Error executing command") w1 <;> rfl
    · intro hall
      have hall2 : ∀ p ∈ tr ++ [(wl, n)],
          (fun p : World × Int => p.1.upsdev.isSome) p = true := by
        intro p hp
        have := hall p hp
        cases hu : p.1.upsdev with
        | none => exact absurd hu this
        | some d => simp [hu]
      rw [hcount.1, List.countP_eq_length.mpr hall2]
      simp only [List.length_append, List.length_singleton]
      omega


/-- C7, amended, at two inputs: a read whose first attempt meets a failed transfer and
whose second attempt receives `AB 01 03 81 10 20 30 70` returns 3 with two frames sent,
and a read on a closed connection makes five attempts and sends nothing. -/
theorem retry_policy_witness :
    (Transaction.sequence 1 (.read 0x01) []
        (fresh [⟨false, [], 5000⟩, ⟨true, [0xAB, 0x01, 0x03, 0x81, 0x10, 0x20, 0x30, 0x70], 7⟩]) =
      .ok (3, [0x10, 0x20, 0x30],
        { fresh [] with
          sent := [[0xAB, 0x01, 0x01, 0x53], [0xAB, 0x01, 0x01, 0x53]]
          ops := [Op.xfer 0 5000, Op.clear_halt, Op.xfer 0 5000] })) ∧
    (Transaction.sequence 0 (.read 0x01) [] closed =
      (nutusb_comm_fail (some "Error executing command") closed).map
        (fun w2 => (-1, [], dstate_datastale w2)) ∧
      closed.sent.length = closed.sent.length +
        (List.replicate 4 (closed, (-1 : Int)) ++ [(closed, -1)]).countP
          (fun p : World × Int => p.1.upsdev.isSome)) :=
  ⟨((retry_policy 1 (.read 0x01) []
      (fresh [⟨false, [], 5000⟩, ⟨true, [0xAB, 0x01, 0x03, 0x81, 0x10, 0x20, 0x30, 0x70], 7⟩])
      [(fresh [⟨false, [], 5000⟩,
          ⟨true, [0xAB, 0x01, 0x03, 0x81, 0x10, 0x20, 0x30, 0x70], 7⟩], 0)]
      { fresh [⟨true, [0xAB, 0x01, 0x03, 0x81, 0x10, 0x20, 0x30, 0x70], 7⟩] with
        sent := [[0xAB, 0x01, 0x01, 0x53]], ops := [Op.xfer 0 5000, Op.clear_halt] }
      3 [0x10, 0x20, 0x30]
      { fresh [] with
        sent := [[0xAB, 0x01, 0x01, 0x53], [0xAB, 0x01, 0x01, 0x53]]
        ops := [Op.xfer 0 5000, Op.clear_halt, Op.xfer 0 5000] }
      (by decide) rfl (by decide)).1 (by decide)).1,
   let h := (retry_policy 0 (.read 0x01) [] closed (List.replicate 4 (closed, -1)) closed (-1)
      [] closed (by decide) rfl (by decide)).2 (by decide) rfl
   ⟨h.1, h.2.1⟩⟩

/-- C8: on an open connection `send_read_command(c)` hands the transport the 4-byte frame
`[0xAB, 0x01, c, k]` with `k` the `calc_checksum` of the first three bytes, and nothing
else changes; on a closed connection it does nothing. -/
theorem send_read_command_frame (command : Nat) (w : World) :
    (w.upsdev ≠ none → send_read_command command w =
      { w with sent := w.sent ++ [[0xAB, 0x01, command, calc_checksum [0xAB, 0x01, command]]] }) ∧
    (w.upsdev = none → send_read_command command w = w) := by
  constructor
  · intro h
    cases hu : w.upsdev with
    | none => exact absurd hu h
    | some d => simp [send_read_command, hu, PW_COMMAND_START_BYTE]
  · intro h
    simp [send_read_command, h]

/-- C8, at opcode 0x01: the frame `AB 01 01 53` on an open connection, nothing on a
closed one. -/
theorem send_read_command_frame_witness :
    ((fresh []).upsdev ≠ none ∧
      send_read_command 0x01 (fresh []) = { fresh [] with sent := [[0xAB, 0x01, 0x01, 0x53]] }) ∧
    (closed.upsdev = none ∧ send_read_command 0x01 closed = closed) :=
  ⟨⟨by decide, (send_read_command_frame 0x01 (fresh [])).1 (by decide)⟩,
   ⟨rfl, (send_read_command_frame 0x01 closed).2 rfl⟩⟩

/-- C9: a command of `n` bytes with `1 ≤ n ≤ 125`, on an open connection:
`send_write_command` hands the transport `n + 3` bytes, the start byte 0xAB, the length
byte `n`, the `n` command bytes in order and the `calc_checksum` of those `n + 2` bytes. -/
theorem send_write_command_frame (command : List Nat) (n : Nat) (w : World)
    (h1 : 1 ≤ n) (h2 : n ≤ 125) (hlen : command.length = n) (hopen : w.upsdev ≠ none) :
    send_write_command command n w =
      .ok { w with sent := w.sent ++
        [[0xAB, n] ++ command ++ [calc_checksum ([0xAB, n] ++ command)]] } ∧
    ([0xAB, n] ++ command ++ [calc_checksum ([0xAB, n] ++ command)]).length = n + 3 := by
  constructor
  · cases hu : w.upsdev with
    | none => exact absurd hu hopen
    | some d =>
      have hmod : n % 256 = n := Nat.mod_eq_of_lt (by omega)
      have htake : command.take n = command := by rw [← hlen]; exact List.take_length command
      simp only [send_write_command, hu, hlen, PW_COMMAND_START_BYTE, hmod, htake]
      rw [if_neg (by omega)]
  · simp [hlen]

/-- C9, at the command `01 02 03`: the frame `AB 03 01 02 03 4C` of 6 bytes. -/
theorem send_write_command_frame_witness :
    (1 ≤ 3 ∧ 3 ≤ 125 ∧ [0x01, 0x02, 0x03].length = 3 ∧ (fresh []).upsdev ≠ none) ∧
    send_write_command [0x01, 0x02, 0x03] 3 (fresh []) =
      .ok { fresh [] with sent := [[0xAB, 0x03, 0x01, 0x02, 0x03, 0x4C]] } :=
  ⟨⟨by decide, by decide, rfl, by decide⟩,
   (send_write_command_frame [0x01, 0x02, 0x03] 3 (fresh []) (by decide) (by decide) rfl
      (by decide)).1⟩

/-! ## Lemmas: the checksum over the declared extent -/

/-- Flipping a bit keeps the number of bytes. -/
theorem flip_bit_length (bytes : List Nat) (i k : Nat) :
    (flip_bit bytes i k).length = bytes.length := by
  induction bytes generalizing i with
  | nil => rfl
  | cons b bs ih =>
    cases i with
    | zero => rfl
    | succ j => simp only [flip_bit, List.length_cons, ih]

/-- Flipping a bit of one byte leaves the other bytes as they are. -/
theorem flip_bit_other (bytes : List Nat) (i j k : Nat) (h : i ≠ j) :
    (flip_bit bytes i k).get? j = bytes.get? j := by
  induction bytes generalizing i j with
  | nil => rfl
  | cons b bs ih =>
    cases i with
    | zero =>
      cases j with
      | zero => exact absurd rfl h
      | succ m => rfl
    | succ n =>
      cases j with
      | zero => rfl
      | succ m =>
        simp only [flip_bit, List.get?_cons_succ]
        exact ih n m (by omega)

/-- The validation of bytes whose length byte declares exactly their extent is the test of
all of them. -/
theorem checksum_test_declared_whole (bytes : List Nat) (c L : Nat)
    (hlen : bytes.get? 2 = some L) (hext : bytes.length = L + 4) :
    checksum_test_declared (bytes ++ [c]) = .ok (checksum_test (bytes ++ [c])) := by
  have h2 : 2 < bytes.length := by omega
  have hpeek : peek (bytes ++ [c]) 2 = .ok L := by
    unfold peek
    rw [List.get?_eq_getElem?] at hlen ⊢
    rw [List.getElem?_append_left h2, hlen]
  have hslice : slice (bytes ++ [c]) 0 (L + PW_HEADER_SIZE) = .ok (bytes ++ [c]) := by
    have hsz : (bytes ++ [c]).length = L + PW_HEADER_SIZE := by
      simp [PW_HEADER_SIZE, PW_HEADER_LENGTH, hext]
    unfold slice
    rw [if_pos (by omega), List.drop_zero, ← hsz, List.take_length]
  unfold checksum_test_declared
  simp only [hpeek, hslice]

/-- C10 as stated fails for a flip in the length byte: the frame `AB 01 03 81 10 20 A1 FF`
carries the checksum `calc_checksum` gives; with bit 0 of its length byte flipped the
bytes are `AB 01 02 81 10 20 A1 FF`, the length byte declares a frame of 7 bytes, and
`A1` is the checksum of the 6 bytes before it: the validation accepts the mutated frame
and `get_answer` returns 2 with the payload `10 20`. -/
theorem checksum_accepts_length_flip :
    [0xAB, 0x01, 0x03, 0x81, 0x10, 0x20, 0xA1] ++
        [calc_checksum [0xAB, 0x01, 0x03, 0x81, 0x10, 0x20, 0xA1]] =
      [0xAB, 0x01, 0x03, 0x81, 0x10, 0x20, 0xA1, 0xFF] ∧
    flip_bit [0xAB, 0x01, 0x03, 0x81, 0x10, 0x20, 0xA1] 2 0 ++
        [calc_checksum [0xAB, 0x01, 0x03, 0x81, 0x10, 0x20, 0xA1]] =
      [0xAB, 0x01, 0x02, 0x81, 0x10, 0x20, 0xA1, 0xFF] ∧
    checksum_test_declared [0xAB, 0x01, 0x02, 0x81, 0x10, 0x20, 0xA1, 0xFF] = .ok true ∧
    get_answer 3 [] 0x01 (fresh [⟨true, [0xAB, 0x01, 0x03, 0x81, 0x10, 0x20, 0xA1, 0xFF], 1⟩]) =
      .ok (3, [0x10, 0x20, 0xA1], { fresh [] with ops := [Op.xfer 0 5000] }) ∧
    get_answer 3 [] 0x01 (fresh [⟨true, [0xAB, 0x01, 0x02, 0x81, 0x10, 0x20, 0xA1, 0xFF], 1⟩]) =
      .ok (2, [0x10, 0x20], { fresh [] with ops := [Op.xfer 0 5000] }) :=
  ⟨by decide, by decide, rfl, rfl, rfl⟩

/-- C10, amended: a frame whose last byte is the `calc_checksum` of the bytes before it
passes `checksum_test`, and over the same extent it fails `checksum_test` once any single
bit of any byte before the checksum is flipped.  As `get_answer` validates a frame, over
the extent its length byte declares, the frame is accepted, and it is rejected once any
single bit of its start byte, block number, sequence byte or payload is flipped; a flip
in the length byte changes the extent and is left out. -/
theorem checksum_roundtrip :
    (∀ bytes : List Nat, checksum_test (bytes ++ [calc_checksum bytes]) = true) ∧
    (∀ (bytes : List Nat) (i k : Nat), i < bytes.length → k < 8 →
      checksum_test (flip_bit bytes i k ++ [calc_checksum bytes]) = false) ∧
    (∀ (bytes : List Nat) (L : Nat), bytes.get? 2 = some L → bytes.length = L + 4 →
      checksum_test_declared (bytes ++ [calc_checksum bytes]) = .ok true ∧
      ∀ i k : Nat, i < bytes.length → k < 8 → i ≠ 2 →
        checksum_test_declared (flip_bit bytes i k ++ [calc_checksum bytes]) = .ok false) := by
  have hflip : ∀ (bytes : List Nat) (i k : Nat), i < bytes.length → k < 8 →
      checksum_test (flip_bit bytes i k ++ [calc_checksum bytes]) = false := by
    intro bytes i k hi hk
    have h := flip_bit_sum bytes i k hi hk
    rw [checksum_test_append]
    simp only [calc_checksum, beq_eq_false_iff_ne, ne_eq]
    omega
  refine ⟨fun bytes => by simp [checksum_test_append], hflip, fun bytes L hlen hext => ⟨?_, ?_⟩⟩
  · rw [checksum_test_declared_whole bytes _ L hlen hext]
    simp [checksum_test_append]
  · intro i k hi hk hne
    rw [checksum_test_declared_whole (flip_bit bytes i k) _ L
      (by rw [flip_bit_other bytes i 2 k hne, hlen]) (by rw [flip_bit_length, hext])]
    rw [hflip bytes i k hi hk]

/-- C10, amended, at the frame `AB 01 03 81 10 20 30 70`: it is accepted, and rejected
once bit 0 of its byte `10` is flipped, over the extent given and over the extent its
length byte declares. -/
theorem checksum_roundtrip_witness :
    checksum_test ([0xAB, 0x01, 0x03, 0x81, 0x10, 0x20, 0x30] ++ [0x70]) = true ∧
    checksum_test (flip_bit [0xAB, 0x01, 0x03, 0x81, 0x10, 0x20, 0x30] 4 0 ++
      [calc_checksum [0xAB, 0x01, 0x03, 0x81, 0x10, 0x20, 0x30]]) = false ∧
    checksum_test_declared ([0xAB, 0x01, 0x03, 0x81, 0x10, 0x20, 0x30] ++ [0x70]) = .ok true ∧
    checksum_test_declared (flip_bit [0xAB, 0x01, 0x03, 0x81, 0x10, 0x20, 0x30] 4 0 ++
      [calc_checksum [0xAB, 0x01, 0x03, 0x81, 0x10, 0x20, 0x30]]) = .ok false :=
  ⟨checksum_roundtrip.1 [0xAB, 0x01, 0x03, 0x81, 0x10, 0x20, 0x30],
   checksum_roundtrip.2.1 [0xAB, 0x01, 0x03, 0x81, 0x10, 0x20, 0x30] 4 0 (by decide) (by decide),
   (checksum_roundtrip.2.2 [0xAB, 0x01, 0x03, 0x81, 0x10, 0x20, 0x30] 3 rfl rfl).1,
   (checksum_roundtrip.2.2 [0xAB, 0x01, 0x03, 0x81, 0x10, 0x20, 0x30] 3 rfl rfl).2 4 0
     (by decide) (by decide) (by decide)⟩

/-! ## Lemmas: failure tracking -/

/-- Opening the device changes nothing but the connection. -/
theorem open_device_loop_record (tries : Nat) (w w1 : World) (b : Bool)
    (h : open_device_loop tries w = .ok (b, w1)) : same_record w w1 := by
  induction tries generalizing w with
  | zero =>
    simp only [open_device_loop, Except.ok.injEq, Prod.mk.injEq] at h
    rw [← h.2]; exact ⟨rfl, rfl, rfl, rfl, rfl, rfl⟩
  | succ n ih =>
    unfold open_device_loop at h
    cases ho : w.opens with
    | nil => simp [ho] at h
    | cons t rest =>
      simp only [ho] at h
      split at h
      · have ht := ih _ h; exact ht
      · split at h
        · have ht := ih _ h; exact ht
        · cases h; exact ⟨rfl, rfl, rfl, rfl, rfl, rfl⟩

/-- A reconnection changes nothing but the connection. -/
theorem upsdrv_reconnect_record (w w1 : World) (h : upsdrv_reconnect w = .ok w1) :
    same_record w w1 := by
  unfold upsdrv_reconnect open_device at h
  split at h
  · cases h
  · rename_i b w2 ho
    cases h
    exact open_device_loop_record _ _ _ _ ho

/-- The counter after the increment of `nutusb_comm_fail`. -/
theorem comm_fail_count_counter (w : World) :
    (comm_fail_notice (comm_fail_count w)).comm_failures = next_count w.comm_failures := by
  unfold comm_fail_notice comm_fail_count next_count
  split <;> rfl

/-- The warning of `nutusb_comm_fail` is logged when the counter has become a multiple of
10, and only then. -/
theorem comm_fail_notice_eq (w : World) :
    comm_fail_notice (comm_fail_count w) =
      if next_count w.comm_failures % 10 = 0
      then { comm_fail_count w with log := w.log ++ [Log.excessive] }
      else comm_fail_count w := by
  unfold comm_fail_notice comm_fail_count next_count USB_ERR_LIMIT USB_ERR_RATE
  simp only
  by_cases h : (w.comm_failures + 1) % 4294967296 % 10 = 0
  · rw [if_pos (Or.inr h), if_pos h]
  · rw [if_neg (by omega), if_neg h]

/-- What one call of `nutusb_comm_fail` does when the process is not shutting down, by the
value `c` the counter takes. -/
theorem comm_fail_call (fmt : Option String) (w : World) (h : w.exit_flag = 0) :
    nutusb_comm_fail fmt w =
      if 10 < next_count w.comm_failures ∧ next_count w.comm_failures % 10 ≠ 0
      then upsdrv_reconnect (comm_fail_count w)
      else if next_count w.comm_failures % 10 = 0
      then .ok (comm_fail_message fmt { comm_fail_count w with log := w.log ++ [Log.excessive] })
      else .ok (comm_fail_message fmt (comm_fail_count w)) := by
  unfold nutusb_comm_fail
  rw [if_neg (by simp [h])]
  simp only [comm_fail_count_counter, USB_ERR_LIMIT, gt_iff_lt]
  rw [comm_fail_notice_eq]
  by_cases h1 : 10 < next_count w.comm_failures ∧ next_count w.comm_failures % 10 ≠ 0
  · rw [if_pos h1, if_pos h1, if_neg h1.2]
  · rw [if_neg h1, if_neg h1]
    by_cases h2 : next_count w.comm_failures % 10 = 0
    · rw [if_pos h2, if_pos h2]
    · rw [if_neg h2, if_neg h2]

/-- A call of `nutusb_comm_fail` leaves `exit_flag` alone and, when the process is not
shutting down, takes the counter to the next value. -/
theorem comm_fail_counter (fmt : Option String) (w w1 : World)
    (h : nutusb_comm_fail fmt w = .ok w1) :
    w1.exit_flag = w.exit_flag ∧
    w1.comm_failures = if w.exit_flag = 0 then next_count w.comm_failures else w.comm_failures := by
  by_cases hf : w.exit_flag = 0
  · rw [if_pos hf]
    rw [comm_fail_call fmt w hf] at h
    split at h
    · have hr := upsdrv_reconnect_record _ _ h
      exact ⟨hr.1, hr.2.1⟩
    · split at h
      · cases h
        unfold comm_fail_message
        cases fmt with
        | none => exact ⟨rfl, rfl⟩
        | some text => simp only; split <;> exact ⟨rfl, rfl⟩
      · cases h
        unfold comm_fail_message
        cases fmt with
        | none => exact ⟨rfl, rfl⟩
        | some text => simp only; split <;> exact ⟨rfl, rfl⟩
  · rw [if_neg hf]
    unfold nutusb_comm_fail at h
    rw [if_pos hf] at h
    cases h
    exact ⟨rfl, rfl⟩

/-- A run of calls leaves `exit_flag` alone and counts them. -/
theorem comm_fail_run_counter (fmts : List (Option String)) (w w1 : World)
    (hflag : w.exit_flag = 0) (h : comm_fail_run fmts w = .ok w1) :
    w1.exit_flag = 0 ∧ w1.comm_failures % 4294967296 = (w.comm_failures + fmts.length) % 4294967296 := by
  induction fmts generalizing w with
  | nil => simp only [comm_fail_run] at h; cases h; exact ⟨hflag, rfl⟩
  | cons f rest ih =>
    unfold comm_fail_run at h
    split at h
    · cases h
    · rename_i w2 hc
      have h2 := comm_fail_counter f w w2 hc
      rw [if_pos hflag] at h2
      obtain ⟨h3, h4⟩ := ih w2 (h2.1.trans hflag) h
      refine ⟨h3, ?_⟩
      rw [h4, h2.2]
      unfold next_count
      simp only [List.length_cons]
      omega

/-- The call that follows a run of `k` calls from a zero counter takes the counter to
`k + 1` modulo 2^32. -/
theorem comm_fail_run_next (fmts : List (Option String)) (w0 w : World)
    (h0 : w0.comm_failures = 0) (hflag : w0.exit_flag = 0)
    (h : comm_fail_run fmts w0 = .ok w) :
    w.exit_flag = 0 ∧ next_count w.comm_failures = (fmts.length + 1) % 4294967296 := by
  obtain ⟨h1, h2⟩ := comm_fail_run_counter fmts w0 w hflag h
  refine ⟨h1, ?_⟩
  rw [h0] at h2
  unfold next_count
  omega

/-- The message of `nutusb_comm_fail` changes nothing but the log. -/
theorem comm_fail_message_fields (fmt : Option String) (w : World) :
    (comm_fail_message fmt w).exit_flag = w.exit_flag ∧
    (comm_fail_message fmt w).opens = w.opens ∧
    (comm_fail_message fmt w).comm_failures = w.comm_failures ∧
    (comm_fail_message fmt w).upsdev = w.upsdev ∧
    (comm_fail_message fmt w).ops = w.ops := by
  unfold comm_fail_message
  cases fmt with
  | none => exact ⟨rfl, rfl, rfl, rfl, rfl⟩
  | some text => simp only; split <;> exact ⟨rfl, rfl, rfl, rfl, rfl⟩

/-- In a world where every round of `open_device` to come is a good one, a call of
`nutusb_comm_fail` goes through and uses up at most one round. -/
theorem comm_fail_call_ok (fmt : Option String) (w : World) (m : Nat)
    (hflag : w.exit_flag = 0)
    (hopens : w.opens = List.replicate (m + 1) { opened := true, dev := some 1, cleared := true }) :
    ∃ w1 m1, nutusb_comm_fail fmt w = .ok w1 ∧ w1.exit_flag = 0 ∧ m ≤ m1 ∧
      w1.opens = List.replicate m1 { opened := true, dev := some 1, cleared := true } := by
  rw [comm_fail_call fmt w hflag]
  by_cases h1 : 10 < next_count w.comm_failures ∧ next_count w.comm_failures % 10 ≠ 0
  · rw [if_pos h1]
    refine ⟨{ comm_fail_count w with
        opens := List.replicate m { opened := true, dev := some 1, cleared := true }
        upsdev := some 1
        ops := w.ops ++ [Op.usb_open] ++ [Op.clear_halt] }, m, ?_, hflag, le_refl m, rfl⟩
    simp [upsdrv_reconnect, open_device, MAX_TRY, open_device_loop, comm_fail_count, hopens,
      List.replicate_succ]
  · rw [if_neg h1]
    by_cases h2 : next_count w.comm_failures % 10 = 0
    · rw [if_pos h2]
      exact ⟨_, m + 1, rfl, (comm_fail_message_fields fmt _).1.trans hflag, by omega,
        (comm_fail_message_fields fmt _).2.1.trans hopens⟩
    · rw [if_neg h2]
      exact ⟨_, m + 1, rfl, (comm_fail_message_fields fmt _).1.trans hflag, by omega,
        (comm_fail_message_fields fmt _).2.1.trans hopens⟩

/-- In a world where every round of `open_device` to come is a good one, a run of calls
that is no longer than the rounds to come goes through. -/
theorem comm_fail_run_ok (fmt : Option String) (k : Nat) (w : World) (m : Nat)
    (hflag : w.exit_flag = 0)
    (hopens : w.opens = List.replicate m { opened := true, dev := some 1, cleared := true })
    (hk : k ≤ m) :
    ∃ w1, comm_fail_run (List.replicate k fmt) w = .ok w1 := by
  induction k generalizing w m with
  | zero => exact ⟨w, rfl⟩
  | succ n ih =>
    obtain ⟨m1, rfl⟩ : ∃ m1, m = m1 + 1 := ⟨m - 1, by omega⟩
    obtain ⟨w1, m2, hc, hf, hm, ho⟩ := comm_fail_call_ok fmt w m1 hflag hopens
    simp only [List.replicate_succ, comm_fail_run, hc]
    exact ih w1 m2 hf ho (by omega)

/-- The warning is the only line of `nutusb_comm_fail` that counts as a notice: the message
adds none. -/
theorem comm_fail_message_notices (fmt : Option String) (w : World) :
    (comm_fail_message fmt w).log.count Log.excessive = w.log.count Log.excessive := by
  unfold comm_fail_message
  cases fmt with
  | none => simp [List.count_append]
  | some text => simp only; split <;> simp [List.count_append]

/-! ## Lemmas: the verdict of the loop body -/

/-- A slice has the length asked for. -/
theorem slice_length (buf : List Nat) (off n : Nat) (p : List Nat)
    (h : slice buf off n = .ok p) : p.length = n := by
  unfold slice at h
  split at h
  · cases h
    rw [List.length_take, List.length_drop]
    omega
  · cases h

/-- The verdict of the acceptance of a frame. -/
theorem accept_verdict (s : Locals) (length sequence : Nat) (hlen : length ≤ 140)
    (hseq : sequence &&& PW_SEQ_MASK = s.seq_num) :
    ∃ V : Verdict, (∀ w, get_answer_accept s w length sequence = V.run w) ∧
      (∀ s1, V = .again s1 → Accepted s s1) ∧ (∀ s1, V ≠ .reject s1) ∧
      (∀ t s1, V ≠ .report t s1) := by
  unfold get_answer_accept
  cases hp : slice s.buf (s.my_buf + 4) length with
  | error e => exact ⟨.fault e, fun w => rfl, by simp, by simp, by simp⟩
  | ok payload =>
    have hpl := slice_length _ _ _ _ hp
    have hacc : ∀ buf mb, Accepted s
        { s with
          endblock := decide (sequence &&& PW_LAST_SEQ ≠ 0)
          seq_num := next_seq_num (decide (sequence &&& PW_LAST_SEQ ≠ 0)) s.seq_num
          data := memcpy_out s.data s.end_length.toNat payload
          end_length := s.end_length + length
          bytes_read := s.bytes_read - ((length : Int) + PW_HEADER_SIZE)
          buf := buf
          my_buf := mb } := by
      intro buf mb
      exact ⟨payload, sequence, by omega, hseq, rfl, rfl, rfl, by simp [hpl]⟩
    simp only
    by_cases ht : s.bytes_read - ((length : Int) + PW_HEADER_SIZE) > 0
    · simp only [if_pos ht]
      cases hm : slice s.buf (s.my_buf + length + PW_HEADER_SIZE)
          (s.bytes_read - ((length : Int) + PW_HEADER_SIZE)).toNat with
      | error e => exact ⟨.fault e, fun w => rfl, by simp, by simp, by simp⟩
      | ok bytes =>
        dsimp only
        cases hk : poke s.buf 0 bytes with
        | error e => exact ⟨.fault e, fun w => rfl, by simp, by simp, by simp⟩
        | ok buf =>
          refine ⟨.again _, fun w => rfl, ?_, by simp, by simp⟩
          intro s1 h1
          cases h1
          exact hacc buf 0
    · simp only [if_neg ht]
      by_cases h0 : s.bytes_read - ((length : Int) + PW_HEADER_SIZE) = 0
      · simp only [if_pos h0]
        refine ⟨.again _, fun w => rfl, ?_, by simp, by simp⟩
        intro s1 h1
        cases h1
        have := hacc s.buf 0
        rw [h0] at this
        exact this
      · simp only [if_neg h0]
        refine ⟨.again _, fun w => rfl, ?_, by simp, by simp⟩
        intro s1 h1
        cases h1
        exact hacc s.buf s.my_buf

/-- The verdict of the checks on the frame at `my_buf`. -/
theorem validate_verdict (s : Locals) :
    ∃ V : Verdict, (∀ w, get_answer_validate s w = V.run w) ∧ V.fits s := by
  unfold get_answer_validate
  cases h1 : peek s.buf (s.my_buf + 1) with
  | error e => exact ⟨.fault e, fun w => rfl, trivial⟩
  | ok block_number =>
    dsimp only
    cases h2 : peek s.buf (s.my_buf + 2) with
    | error e => exact ⟨.fault e, fun w => rfl, trivial⟩
    | ok length =>
      dsimp only
      by_cases hmore : s.bytes_read - ((length : Int) + PW_HEADER_SIZE) < 0
      · simp only [if_pos hmore]
        exact ⟨.again _, fun w => rfl, Or.inl ⟨rfl, rfl, rfl, rfl⟩⟩
      · simp only [if_neg hmore]
        by_cases hbig : length > 140
        · simp only [if_pos hbig]
          exact ⟨.reject s, fun w => rfl, ⟨rfl, rfl, rfl, rfl⟩⟩
        · simp only [if_neg hbig]
          cases h3 : peek s.buf (s.my_buf + 3) with
          | error e => exact ⟨.fault e, fun w => rfl, trivial⟩
          | ok sequence =>
            dsimp only
            by_cases hseq : sequence &&& PW_SEQ_MASK ≠ s.seq_num
            · simp only [if_pos hseq]
              exact ⟨.report _ s, fun w => rfl, ⟨rfl, rfl, rfl, rfl⟩⟩
            · simp only [if_neg hseq]
              cases h4 : slice s.buf s.my_buf (length + PW_HEADER_SIZE) with
              | error e => exact ⟨.fault e, fun w => rfl, trivial⟩
              | ok frame =>
                dsimp only
                by_cases hsum : checksum_test frame = false
                · simp only [if_pos hsum]
                  exact ⟨.report _ s, fun w => rfl, ⟨rfl, rfl, rfl, rfl⟩⟩
                · simp only [if_neg hsum]
                  obtain ⟨V, hV, hA, hR, hP⟩ := accept_verdict s length sequence (by omega)
                    (by simpa using hseq)
                  refine ⟨V, hV, ?_⟩
                  cases V with
                  | fault e => trivial
                  | again s1 => exact Or.inr (hA s1 rfl)
                  | reject s1 => exact absurd rfl (hR s1)
                  | report t s1 => exact absurd rfl (hP t s1)

/-- A verdict that fits the locals with another `my_buf` fits the locals. -/
theorem Verdict.fits_my_buf (s : Locals) (mb : Nat) (V : Verdict)
    (h : V.fits { s with my_buf := mb }) : V.fits s := by
  cases V with
  | fault e => trivial
  | again s1 => exact h
  | reject s1 => exact h
  | report t s1 => exact h

/-- The verdict of the second half of the loop body: what it does depends on the world
only through `nutusb_comm_fail`. -/
theorem frame_verdict (s : Locals) :
    ∃ V : Verdict, (∀ w, get_answer_frame s w = V.run w) ∧ V.fits s := by
  unfold get_answer_frame
  by_cases hneed : s.need_data > 0
  · simp only [if_pos hneed]
    exact ⟨.again s, fun w => rfl, Or.inl ⟨rfl, rfl, rfl, rfl⟩⟩
  · simp only [if_neg hneed]
    cases hr : get_answer_resync s with
    | error e => exact ⟨.fault e, fun w => rfl, trivial⟩
    | ok found =>
      cases found with
      | none => exact ⟨.reject s, fun w => rfl, ⟨rfl, rfl, rfl, rfl⟩⟩
      | some mb =>
        obtain ⟨V, hV, hfit⟩ := validate_verdict { s with my_buf := mb }
        exact ⟨V, hV, Verdict.fits_my_buf s mb V hfit⟩

/-- The counter after the pass a verdict stands for. -/
theorem verdict_run_tally (V : Verdict) (w : World) (fl : Flow) (h : V.run w = .ok fl) :
    fl.tally w := by
  cases V with
  | fault e => cases h
  | again s1 => cases h; exact ⟨rfl, rfl⟩
  | reject s1 => cases h; exact ⟨rfl, rfl, Or.inl rfl⟩
  | report t s1 =>
    simp only [Verdict.run] at h
    split at h
    · cases h
    · rename_i w1 hc
      cases h
      have hcount := comm_fail_counter _ _ _ hc
      refine ⟨rfl, hcount.1, ?_⟩
      rw [hcount.2]
      split
      · exact Or.inr rfl
      · exact Or.inl rfl

/-- The counter after a pass through the loop body. -/
theorem get_answer_step_tally (s : Locals) (w : World) (fl : Flow)
    (h : get_answer_step s w = .ok fl) : fl.tally w := by
  unfold get_answer_step at h
  split at h
  · split at h
    · cases h
    · simp only at h
      split at h
      · cases h
      · split at h
        · cases h; exact ⟨rfl, rfl⟩
        · split at h
          · cases h; exact ⟨rfl, rfl⟩
          · obtain ⟨V, hV, -⟩ := frame_verdict _
            rw [hV] at h
            have ht := verdict_run_tally V _ fl h
            cases fl <;> exact ht
  · obtain ⟨V, hV, -⟩ := frame_verdict s
    rw [hV] at h
    exact verdict_run_tally V _ fl h

/-- The counter after the loop of `get_answer`. -/
theorem get_answer_loop_tally (fuel : Nat) (s : Locals) (w : World)
    (r : Int × List Nat × World) (h : get_answer_loop fuel s w = .ok r) :
    tallied w r.1 r.2.2 := by
  induction fuel generalizing s w with
  | zero =>
    unfold get_answer_loop at h
    split at h
    · cases h
    · cases h; exact ⟨rfl, Or.inl rfl⟩
  | succ n ih =>
    unfold get_answer_loop at h
    split at h
    · split at h
      · cases h
      · rename_i s1 w1 hs
        have h1 : Flow.tally w (.again s1 w1) := get_answer_step_tally _ _ _ hs
        have h2 := ih _ _ h
        refine ⟨h2.1.trans h1.1, ?_⟩
        rcases h2.2 with h3 | ⟨h3, h4⟩
        · exact Or.inl (h3.trans h1.2)
        · exact Or.inr ⟨h3, by rw [h4, h1.2]⟩
      · rename_i s1 w1 hs
        have h1 : Flow.tally w (.leave s1 w1) := get_answer_step_tally _ _ _ hs
        cases h
        exact ⟨h1.1, Or.inl h1.2⟩
      · rename_i v s1 w1 hs
        have h1 : Flow.tally w (.give v s1 w1) := get_answer_step_tally _ _ _ hs
        cases h
        refine ⟨h1.2.1, ?_⟩
        rcases h1.2.2 with h3 | h3
        · exact Or.inl h3
        · exact Or.inr ⟨h1.1, h3⟩
    · cases h; exact ⟨rfl, Or.inl rfl⟩

/-- The counter after `get_answer`. -/
theorem get_answer_tally (fuel : Nat) (data : List Nat) (command : Nat) (w : World)
    (r : Int × List Nat × World) (h : get_answer fuel data command w = .ok r) :
    tallied w r.1 r.2.2 := by
  unfold get_answer at h
  split at h
  · cases h; exact ⟨rfl, Or.inl rfl⟩
  · exact get_answer_loop_tally _ _ _ _ h

/-- The counter after one attempt of a transaction. -/
theorem attempt_tally (fuel : Nat) (t : Transaction) (data : List Nat) (w : World)
    (r : Int × List Nat × World) (h : t.attempt fuel data w = .ok r) :
    tallied w r.1 r.2.2 := by
  cases t with
  | read command =>
    simp only [Transaction.attempt, read_attempt] at h
    have h1 := get_answer_tally _ _ _ _ _ h
    have h2 : (send_read_command command w).exit_flag = w.exit_flag ∧
        (send_read_command command w).comm_failures = w.comm_failures := by
      unfold send_read_command
      split <;> exact ⟨rfl, rfl⟩
    unfold tallied at h1 ⊢
    rw [h2.1, h2.2] at h1
    exact h1
  | write command n =>
    simp only [Transaction.attempt, write_attempt] at h
    split at h
    · cases h
    · rename_i w1 hs
      split at h
      · cases h
      · have h1 := get_answer_tally _ _ _ _ _ h
        have h2 : w1.exit_flag = w.exit_flag ∧ w1.comm_failures = w.comm_failures := by
          unfold send_write_command at hs
          split at hs
          · cases hs; exact ⟨rfl, rfl⟩
          · split at hs
            · cases hs
            · cases hs; exact ⟨rfl, rfl⟩
        unfold tallied at h1 ⊢
        simp only at h1
        rw [h2.1, h2.2] at h1
        exact h1

/-- The counter after the retry loop: it was incremented at most once for each pass, and
at most once for each pass but one when the loop ends with a value of 1 or more. -/
theorem command_loop_tally (fuel : Nat) (t : Transaction) (left : Nat) (b : Int)
    (data : List Nat) (w : World) (r : Int × List Nat × World)
    (h : command_loop (t.attempt fuel) left b data w = .ok r) :
    ∃ j, j ≤ left ∧ r.2.2.comm_failures = next_count^[j] w.comm_failures ∧
      (1 ≤ r.1 → b < 1 → j + 1 ≤ left) := by
  induction left generalizing b data w with
  | zero =>
    simp only [command_loop] at h
    cases h
    exact ⟨0, le_refl 0, rfl, fun h1 h2 => by omega⟩
  | succ l ih =>
    unfold command_loop at h
    split at h
    · rename_i hb
      split at h
      · cases h
      · rename_i n0 d0 w0 ha
        have h1 := attempt_tally fuel t data w _ ha
        obtain ⟨j, hj, hc, hs⟩ := ih n0 d0 w0 h
        rcases h1.2 with h2 | ⟨h2, h3⟩
        · refine ⟨j, by omega, ?_, fun _ _ => by omega⟩
          rw [hc]
          simp only at h2
          rw [h2]
        · refine ⟨j + 1, by omega, ?_, fun hr _ => ?_⟩
          · rw [hc]
            simp only at h3
            rw [h3, Function.iterate_succ_apply]
          · simp only at h2
            have := hs hr (by omega)
            omega
    · cases h
      exact ⟨0, by omega, rfl, fun _ hb2 => by omega⟩

/-! ## Lemmas: opening the device -/

/-- A round of `open_device` that is not a good one leads to the next round; with a sound
low-level open the handle is `NULL` by then. -/
theorem open_device_loop_bad (n : Nat) (w : World) (t : OpenTry) (rest : List OpenTry)
    (ho : w.opens = t :: rest) (hbad : t.good = false) (hsound : t.sound = true) :
    open_device_loop (n + 1) w =
      open_device_loop n { w with upsdev := none, opens := rest, ops := w.ops ++ try_ops t } := by
  unfold OpenTry.good at hbad
  unfold OpenTry.sound at hsound
  conv_lhs => unfold open_device_loop
  simp only [ho]
  by_cases h1 : t.opened = false
  · have hdev : t.dev = none := by
      rw [h1] at hsound
      cases hd : t.dev with
      | none => rfl
      | some d => rw [hd] at hsound; simp at hsound
    simp only [if_pos h1, try_ops, hdev]
  · have h2 : t.cleared = false := by
      cases hc : t.cleared with
      | false => rfl
      | true =>
        cases ho2 : t.opened with
        | false => exact absurd ho2 h1
        | true => rw [hc, ho2] at hbad; simp at hbad
    simp only [if_neg h1, if_pos h2, try_ops, List.append_assoc, List.singleton_append]

/-- A good round of `open_device` ends the loop with the handle the open gave. -/
theorem open_device_loop_good (n : Nat) (w : World) (t : OpenTry) (rest : List OpenTry)
    (ho : w.opens = t :: rest) (hgood : t.good = true) :
    open_device_loop (n + 1) w =
      .ok (true, { w with upsdev := t.dev, opens := rest, ops := w.ops ++ try_ops t }) := by
  unfold OpenTry.good at hgood
  have h1 : t.opened = true := by
    cases ho2 : t.opened with
    | true => rfl
    | false => rw [ho2] at hgood; simp at hgood
  have h2 : t.cleared = true := by
    cases hc : t.cleared with
    | true => rfl
    | false => rw [hc, h1] at hgood; simp at hgood
  conv_lhs => unfold open_device_loop
  simp only [ho, h1, h2, try_ops, List.append_assoc, List.singleton_append]
  simp

/-- A string of rounds that are not good ones is gone through one by one. -/
theorem open_device_loop_bads (pre : List OpenTry) (n : Nat) (w : World) (rest : List OpenTry)
    (ho : w.opens = pre ++ rest) (hne : pre ≠ [])
    (hbad : ∀ x ∈ pre, x.good = false) (hsound : ∀ x ∈ pre, x.sound = true) :
    open_device_loop (n + pre.length) w =
      open_device_loop n
        { w with upsdev := none, opens := rest, ops := w.ops ++ pre.flatMap try_ops } := by
  induction pre generalizing w with
  | nil => exact absurd rfl hne
  | cons t ts ih =>
    rw [List.length_cons, ← Nat.add_assoc]
    rw [open_device_loop_bad _ w t (ts ++ rest) ho (hbad t (by simp)) (hsound t (by simp))]
    cases ts with
    | nil => simp
    | cons u us =>
      rw [ih _ rfl (by simp) (fun x hx => hbad x (by simp [hx]))
        (fun x hx => hsound x (by simp [hx]))]
      simp [List.flatMap_cons, List.append_assoc]

/-! ## Lemmas: the bound on the output -/

/-- The reassembly after the pass a verdict stands for. -/
theorem verdict_run_fits (s : Locals) (V : Verdict) (w : World) (fl : Flow)
    (hfit : V.fits s) (h : V.run w = .ok fl) : fl.fits s := by
  cases V with
  | fault e => cases h
  | again s1 => cases h; exact hfit
  | reject s1 => cases h; exact ⟨rfl, hfit⟩
  | report t s1 =>
    simp only [Verdict.run] at h
    split at h
    · cases h
    · cases h; exact ⟨rfl, hfit⟩

/-- The reassembly after the second half of the loop body. -/
theorem get_answer_frame_fits (s : Locals) (w : World) (fl : Flow)
    (h : get_answer_frame s w = .ok fl) : fl.fits s := by
  obtain ⟨V, hV, hfit⟩ := frame_verdict s
  rw [hV] at h
  exact verdict_run_fits s V w fl hfit h

/-- The reassembly after a pass through the loop body: a transfer changes none of the
output, the cumulative length, the expected ordinal and the end flag. -/
theorem get_answer_step_fits (s : Locals) (w : World) (fl : Flow)
    (h : get_answer_step s w = .ok fl) : fl.fits s := by
  unfold get_answer_step at h
  split at h
  · split at h
    · cases h
    · simp only at h
      split at h
      · cases h
      · split at h
        · cases h; exact ⟨rfl, rfl, rfl, rfl⟩
        · split at h
          · cases h; exact Or.inl ⟨rfl, rfl, rfl, rfl⟩
          · have ht := get_answer_frame_fits _ _ fl h
            cases fl <;> exact ht
  · exact get_answer_frame_fits s w fl h

/-- A copy that ends at or before an offset leaves the output as it was from there on. -/
theorem memcpy_out_drop (data bytes : List Nat) (off n : Nat) (h : off + bytes.length ≤ n) :
    (memcpy_out data off bytes).drop n = data.drop n := by
  unfold memcpy_out
  by_cases hd : off ≤ data.length
  · have h1 : (data.take off ++ bytes).length = off + bytes.length := by
      simp [List.length_append, List.length_take, Nat.min_eq_left hd]
    have h2 : n = (data.take off ++ bytes).length + (n - (off + bytes.length)) := by omega
    rw [h2, List.drop_append, List.drop_drop, ← h2]
    congr 1
    omega
  · have h1 : data.length < off := by omega
    have e1 : data.drop n = [] := List.drop_eq_nil_of_le (by omega)
    have e2 : (data.take off ++ bytes ++ data.drop (off + bytes.length)).drop n = [] := by
      apply List.drop_eq_nil_of_le
      simp only [List.length_append, List.length_take, List.length_drop]
      omega
    rw [e1, e2]

/-- The bound is kept when nothing is done to the reassembly. -/
theorem Bounded.quiet {data : List Nat} {s s1 : Locals} (hb : Bounded data s)
    (hq : Quiet s s1) : Bounded data s1 := by
  obtain ⟨h1, h2, h3, h4⟩ := hq
  unfold Bounded at hb ⊢
  rw [h1, h2, h3, h4]
  exact hb

/-- The bound is kept when a frame is accepted, which takes an ordinal of at most 127. -/
theorem Bounded.accepted {data : List Nat} {s s1 : Locals} (hb : Bounded data s)
    (hopen : s.endblock = false) (ha : Accepted s s1) : Bounded data s1 := by
  obtain ⟨payload, sequence, hlen, hseq, hend, hnext, hdata, hsum⟩ := ha
  obtain ⟨b1, b2, b3, b4, b5⟩ := hb
  rw [hopen] at b3 b4
  simp only [Bool.false_eq_true, if_false] at b3 b4
  have h127 : s.seq_num ≤ 127 := by
    rw [← hseq]
    exact Nat.and_le_right
  have hroom : s.end_length.toNat + payload.length ≤ REPLY_MAX := by
    unfold REPLY_MAX
    omega
  unfold Bounded
  rw [hdata, hsum, memcpy_out_drop _ _ _ _ hroom, hnext]
  unfold next_seq_num
  cases hl : s1.endblock with
  | true =>
    simp only [if_true]
    refine ⟨b1, by omega, h127, by omega, b5⟩
  | false =>
    simp only [Bool.false_eq_true, if_false]
    have hm : (s.seq_num + 1) % 256 = s.seq_num + 1 := Nat.mod_eq_of_lt (by omega)
    rw [hm]
    refine ⟨by omega, by omega, by omega, by omega, b5⟩

/-- What the loop of `get_answer` returns from locals within the bound. -/
theorem get_answer_loop_bounded (fuel : Nat) (data : List Nat) (s : Locals) (w : World)
    (r : Int × List Nat × World) (hb : Bounded data s)
    (h : get_answer_loop fuel s w = .ok r) :
    -1 ≤ r.1 ∧ r.1 ≤ REPLY_MAX ∧ r.2.1.drop REPLY_MAX = data.drop REPLY_MAX := by
  have hend : ∀ s1 : Locals, Bounded data s1 →
      -1 ≤ s1.end_length ∧ s1.end_length ≤ REPLY_MAX ∧
        s1.data.drop REPLY_MAX = data.drop REPLY_MAX := by
    intro s1 hb1
    obtain ⟨b1, b2, b3, b4, b5⟩ := hb1
    refine ⟨by omega, ?_, b5⟩
    unfold REPLY_MAX
    cases hl : s1.endblock with
    | true => rw [hl] at b3 b4; simp only [if_true] at b3 b4; omega
    | false => rw [hl] at b3 b4; simp only [Bool.false_eq_true, if_false] at b3 b4; omega
  induction fuel generalizing s w with
  | zero =>
    unfold get_answer_loop at h
    split at h
    · cases h
    · cases h; exact hend s hb
  | succ n ih =>
    unfold get_answer_loop at h
    split at h
    · rename_i hc
      split at h
      · cases h
      · rename_i s1 w1 hs
        have hf : Flow.fits s (.again s1 w1) := get_answer_step_fits _ _ _ hs
        rcases hf with hq | ha
        · exact ih s1 w1 (hb.quiet hq) h
        · exact ih s1 w1 (hb.accepted hc.1 ha) h
      · rename_i s1 w1 hs
        have hf : Flow.fits s (.leave s1 w1) := get_answer_step_fits _ _ _ hs
        cases h
        exact hend s1 (hb.quiet hf)
      · rename_i v s1 w1 hs
        have hf : Flow.fits s (.give v s1 w1) := get_answer_step_fits _ _ _ hs
        cases h
        have he := hend s1 (hb.quiet hf.2)
        refine ⟨by rw [hf.1], ?_, he.2.2⟩
        show v ≤ _
        rw [hf.1]
        unfold REPLY_MAX
        omega
    · cases h; exact hend s hb

/-! ## Lemmas: two worlds that differ in their transfers -/

/-- A world is the same but for the transfers as itself. -/
theorem same_but_transfers_refl (w : World) : same_but_transfers w w :=
  ⟨rfl, rfl, rfl, rfl, rfl, rfl, rfl⟩

/-- Being the same but for the transfers goes both ways. -/
theorem same_but_transfers_symm {w w1 : World} (h : same_but_transfers w w1) :
    same_but_transfers w1 w :=
  ⟨h.1.symm, h.2.1.symm, h.2.2.1.symm, h.2.2.2.1.symm, h.2.2.2.2.1.symm, h.2.2.2.2.2.1.symm,
    h.2.2.2.2.2.2.symm⟩

/-- The rounds of `open_device` go the same way in two worlds that are the same but for
the transfers. -/
theorem open_device_loop_alike (tries : Nat) (w w1 : World) (b : Bool) (x : World)
    (hs : same_but_transfers w w1) (h : open_device_loop tries w = .ok (b, x)) :
    ∃ x1, open_device_loop tries w1 = .ok (b, x1) ∧ same_but_transfers x x1 := by
  induction tries generalizing w w1 with
  | zero =>
    simp only [open_device_loop, Except.ok.injEq, Prod.mk.injEq] at h
    refine ⟨w1, ?_, ?_⟩
    · simp only [open_device_loop, ← h.1]
    · rw [← h.2]; exact hs
  | succ n ih =>
    obtain ⟨h1, h2, h3, h4, h5, h6, h7⟩ := hs
    unfold open_device_loop at h ⊢
    rw [h4]
    cases ho : w.opens with
    | nil => simp [ho] at h
    | cons t rest =>
      simp only [ho] at h ⊢
      split at h
      · rename_i hopen
        rw [if_pos hopen]
        refine ih _ _ ?_ h; exact ⟨rfl, h2, h3, rfl, h5, h6, h7⟩
      · rename_i hopen
        rw [if_neg hopen]
        split at h
        · rename_i hclear
          rw [if_pos hclear]
          refine ih _ _ ?_ h; exact ⟨rfl, h2, h3, rfl, h5, h6, h7⟩
        · rename_i hclear
          rw [if_neg hclear]
          cases h
          exact ⟨_, rfl, ⟨rfl, h2, h3, rfl, h5, h6, h7⟩⟩

/-- The function `nutusb_comm_fail` goes the same way in two worlds that are the same but
for the transfers. -/
theorem nutusb_comm_fail_alike (fmt : Option String) (w w1 x : World)
    (hs : same_but_transfers w w1) (h : nutusb_comm_fail fmt w = .ok x) :
    ∃ x1, nutusb_comm_fail fmt w1 = .ok x1 ∧ same_but_transfers x x1 := by
  have hn : same_but_transfers (comm_fail_notice (comm_fail_count w))
      (comm_fail_notice (comm_fail_count w1)) := by
    obtain ⟨h1, h2, h3, h4, h5, h6, h7⟩ := hs
    unfold comm_fail_notice comm_fail_count
    simp only [h3]
    split
    · exact ⟨h1, h2, rfl, h4, h5, by simp only [h6], h7⟩
    · exact ⟨h1, h2, rfl, h4, h5, h6, h7⟩
  unfold nutusb_comm_fail at h ⊢
  rw [hs.2.1]
  split at h
  · rename_i hx
    rw [if_pos hx]
    cases h
    exact ⟨w1, rfl, hs⟩
  · rename_i hx
    rw [if_neg hx]
    simp only at h ⊢
    rw [hn.2.2.1]
    split at h
    · rename_i hc
      rw [if_pos hc]
      unfold upsdrv_reconnect open_device at h ⊢
      split at h
      · cases h
      · rename_i b w2 ho
        cases h
        obtain ⟨x1, hx1, hsx⟩ := open_device_loop_alike _ _ _ _ _ hn ho
        rw [hx1]
        exact ⟨x1, rfl, hsx⟩
    · rename_i hc
      rw [if_neg hc]
      cases h
      refine ⟨_, rfl, ?_⟩
      obtain ⟨h1, h2, h3, h4, h5, h6, h7⟩ := hn
      unfold comm_fail_message
      cases fmt with
      | none => exact ⟨h1, h2, h3, h4, h5, by simp only [h6], h7⟩
      | some text =>
        simp only
        split
        · exact ⟨h1, h2, h3, h4, h5, by simp only [h6], h7⟩
        · exact ⟨h1, h2, h3, h4, h5, by simp only [h6], h7⟩

/-- The pass a verdict stands for goes the same way in two worlds that are the same but
for the transfers. -/
theorem verdict_run_alike (Q : List Read → List Read → Prop) (V : Verdict) (w w1 : World)
    (fl : Flow) (hs : same_but_transfers w w1) (hq : Q w.reads w1.reads)
    (h : V.run w = .ok fl) : ∃ fl1, V.run w1 = .ok fl1 ∧ Flow.alike Q fl fl1 := by
  cases V with
  | fault e => cases h
  | again s1 => cases h; exact ⟨_, rfl, rfl, hs, hq⟩
  | reject s1 => cases h; exact ⟨_, rfl, rfl, rfl, hs⟩
  | report t s1 =>
    simp only [Verdict.run] at h ⊢
    split at h
    · cases h
    · rename_i x hc
      cases h
      obtain ⟨x1, hx1, hsx⟩ := nutusb_comm_fail_alike _ _ _ _ hs hc
      rw [hx1]
      exact ⟨_, rfl, rfl, rfl, hsx⟩

/-- The second half of the loop body goes the same way in two worlds that are the same
but for the transfers. -/
theorem get_answer_frame_alike (Q : List Read → List Read → Prop) (s : Locals)
    (w w1 : World) (fl : Flow) (hs : same_but_transfers w w1) (hq : Q w.reads w1.reads)
    (h : get_answer_frame s w = .ok fl) :
    ∃ fl1, get_answer_frame s w1 = .ok fl1 ∧ Flow.alike Q fl fl1 := by
  obtain ⟨V, hV, -⟩ := frame_verdict s
  rw [hV] at h ⊢
  exact verdict_run_alike Q V w w1 fl hs hq h

/-- A pass through the loop body in which no transfer is due goes the same way in two
worlds that are the same but for the transfers. -/
theorem get_answer_step_alike (Q : List Read → List Read → Prop) (s : Locals)
    (w w1 : World) (fl : Flow) (hneed : ¬ s.need_data > 0)
    (hs : same_but_transfers w w1) (hq : Q w.reads w1.reads)
    (h : get_answer_step s w = .ok fl) :
    ∃ fl1, get_answer_step s w1 = .ok fl1 ∧ Flow.alike Q fl fl1 := by
  unfold get_answer_step at h ⊢
  rw [if_neg hneed] at h ⊢
  exact get_answer_frame_alike Q s w w1 fl hs hq h

/-- A pass through the loop body that makes a transfer goes the same way when the same
transfer is made in a world that is the same but for the transfers, whatever the elapsed
time was before. -/
theorem get_answer_step_read_alike (Q : List Read → List Read → Prop) (s : Locals)
    (w w1 : World) (fl : Flow) (r : Read) (rest rest1 : List Read) (t : Int)
    (hneed : s.need_data > 0) (hs : same_but_transfers w w1)
    (hr : w.reads = r :: rest) (hr1 : w1.reads = r :: rest1) (hq : Q rest rest1)
    (h : get_answer_step s w = .ok fl) :
    ∃ fl1, get_answer_step { s with ellapsed_time := t } w1 = .ok fl1 ∧
      Flow.alike Q fl fl1 := by
  unfold get_answer_step at h ⊢
  rw [if_pos hneed] at h
  rw [if_pos (show ({ s with ellapsed_time := t } : Locals).need_data > 0 from hneed)]
  simp only [hr] at h
  simp only [hr1]
  cases hp : poke s.buf s.bytes_read.toNat r.bytes with
  | error e => rw [hp] at h; cases h
  | ok buf1 =>
    rw [hp] at h
    simp only at h ⊢
    obtain ⟨h1, h2, h3, h4, h5, h6, h7⟩ := hs
    by_cases hok : r.ok = false
    · rw [if_pos hok] at h ⊢
      cases h
      exact ⟨_, rfl, rfl, ⟨h1, h2, h3, h4, h5, h6, h7⟩⟩
    · rw [if_neg hok] at h ⊢
      by_cases hz : r.bytes.length = 0
      · rw [if_pos hz] at h ⊢
        cases h
        exact ⟨_, rfl, rfl, ⟨h1, h2, h3, h4, h5, h6, h7⟩, hq⟩
      · rw [if_neg hz] at h ⊢
        refine get_answer_frame_alike Q _ _ _ fl ?_ ?_ h
        · exact ⟨h1, h2, h3, h4, h5, h6, h7⟩
        · exact hq

/-! ## Lemmas: transfers of no bytes -/

/-- Writing no bytes into the buffer leaves it as it is. -/
theorem poke_nil (buf : List Nat) (off : Nat) (h : off ≤ buf.length) :
    poke buf off [] = .ok buf := by
  unfold poke
  simp only [List.length_nil, Nat.add_zero, if_pos h, List.append_nil, List.take_append_drop]

/-- A write into the buffer that is defined starts inside the buffer. -/
theorem poke_room (buf bytes buf1 : List Nat) (off : Nat) (h : poke buf off bytes = .ok buf1) :
    off ≤ buf.length := by
  unfold poke at h
  split at h
  · omega
  · cases h

/-- A pass through the loop body whose transfer succeeds with no bytes only sets the
elapsed time. -/
theorem get_answer_step_zero (s : Locals) (w : World) (now : Int) (rest : List Read)
    (hneed : s.need_data > 0) (hr : w.reads = ⟨true, [], now⟩ :: rest)
    (hroom : s.bytes_read.toNat ≤ s.buf.length) :
    get_answer_step s w =
      .ok (.again { s with ellapsed_time := now }
        { w with
          reads := rest
          ops := w.ops ++ [Op.xfer s.bytes_read (XCP_USB_TIMEOUT - s.ellapsed_time)] }) := by
  unfold get_answer_step
  rw [if_pos hneed]
  simp only [hr, poke_nil _ _ hroom]
  simp

/-- The transfers before the first kept one are inserted ones. -/
theorem Padded.split {reads padded : List Read} (h : Padded reads padded) :
    ∀ (r : Read) (rest : List Read), reads = r :: rest →
      ∃ (zs : List Int) (rest1 : List Read),
        padded = zs.map (fun t => (⟨true, [], t⟩ : Read)) ++ r :: rest1 ∧ Padded rest rest1 ∧
        ∀ t ∈ zs, t < XCP_USB_TIMEOUT := by
  induction h with
  | done => intro r rest h; cases h
  | keep r0 hp _ =>
    intro r rest h
    cases h
    exact ⟨[], _, rfl, hp, by simp⟩
  | pad now hn hp ih =>
    intro r rest h
    obtain ⟨zs, rest1, e, hp1, hz⟩ := ih r rest h
    refine ⟨now :: zs, rest1, by simp [e], hp1, ?_⟩
    intro t ht
    rcases List.mem_cons.mp ht with h1 | h1
    · rw [h1]; exact hn
    · exact hz t h1

/-- How the first of the padded transfers comes about. -/
theorem Padded.first {reads padded : List Read} (h : Padded reads padded) :
    (reads = [] ∧ padded = []) ∨
    (∃ (r : Read) (rest rest1 : List Read),
      reads = r :: rest ∧ padded = r :: rest1 ∧ Padded rest rest1) ∨
    (∃ (now : Int) (rest1 : List Read),
      padded = ⟨true, [], now⟩ :: rest1 ∧ now < XCP_USB_TIMEOUT ∧ Padded reads rest1) := by
  cases h with
  | done => exact Or.inl ⟨rfl, rfl⟩
  | keep r hp => exact Or.inr (Or.inl ⟨r, _, _, rfl, rfl, hp⟩)
  | pad now hn hp => exact Or.inr (Or.inr ⟨now, _, rfl, hn, hp⟩)

/-- The loop goes through transfers of no bytes one pass each, and only the elapsed time
and the record of the transfers change. -/
theorem get_answer_loop_skip (zs : List Int) (hz : ∀ t ∈ zs, t < XCP_USB_TIMEOUT) (n : Nat)
    (s : Locals) (w : World) (tl : List Read)
    (hr : w.reads = zs.map (fun t => (⟨true, [], t⟩ : Read)) ++ tl)
    (hend : s.endblock = false) (ht : s.ellapsed_time < XCP_USB_TIMEOUT)
    (hneed : s.need_data > 0) (hroom : s.bytes_read.toNat ≤ s.buf.length) :
    ∃ (t : Int) (w1 : World), t < XCP_USB_TIMEOUT ∧ w1.reads = tl ∧
      same_but_transfers w w1 ∧
      get_answer_loop (n + zs.length) s w =
        get_answer_loop n { s with ellapsed_time := t } w1 := by
  induction zs generalizing s w with
  | nil =>
    exact ⟨s.ellapsed_time, w, ht, by simpa using hr, same_but_transfers_refl w, rfl⟩
  | cons z zs ih =>
    have hz0 : z < XCP_USB_TIMEOUT := hz z (by simp)
    have hcond : s.endblock = false ∧ XCP_USB_TIMEOUT - s.ellapsed_time > 0 := ⟨hend, by omega⟩
    have hr0 : w.reads = ⟨true, [], z⟩ :: (zs.map (fun t => (⟨true, [], t⟩ : Read)) ++ tl) := by
      simpa using hr
    obtain ⟨t, w1, h1, h2, h3, h4⟩ := ih (fun t ht => hz t (by simp [ht]))
      { s with ellapsed_time := z }
      { w with
        reads := zs.map (fun t => (⟨true, [], t⟩ : Read)) ++ tl
        ops := w.ops ++ [Op.xfer s.bytes_read (XCP_USB_TIMEOUT - s.ellapsed_time)] }
      rfl hend hz0 hneed hroom
    refine ⟨t, w1, h1, h2, ?_, ?_⟩
    · obtain ⟨a1, a2, a3, a4, a5, a6, a7⟩ := h3
      exact ⟨a1, a2, a3, a4, a5, a6, a7⟩
    · rw [List.length_cons, ← Nat.add_assoc]
      conv_lhs => unfold get_answer_loop
      rw [if_pos hcond, get_answer_step_zero s w z _ hneed hr0 hroom]
      exact h4

/-- A loop that does not start returns the cumulative length. -/
theorem get_answer_loop_over (fuel : Nat) (s : Locals) (w : World)
    (h : ¬ (s.endblock = false ∧ XCP_USB_TIMEOUT - s.ellapsed_time > 0)) :
    get_answer_loop fuel s w = .ok (s.end_length, s.data, w) := by
  cases fuel with
  | zero => simp only [get_answer_loop, if_neg h]
  | succ n => simp only [get_answer_loop, if_neg h]

/-- Being the same but for the transfers carries over. -/
theorem same_but_transfers_trans {a b c : World} (h1 : same_but_transfers a b)
    (h2 : same_but_transfers b c) : same_but_transfers a c := by
  obtain ⟨a1, a2, a3, a4, a5, a6, a7⟩ := h1
  obtain ⟨b1, b2, b3, b4, b5, b6, b7⟩ := h2
  exact ⟨b1.trans a1, b2.trans a2, b3.trans a3, b4.trans a4, b5.trans a5, b6.trans a6,
    b7.trans a7⟩

/-- A pass through the loop body that is due a transfer and ends without a fault found a
transfer to make, at a place inside the buffer. -/
theorem get_answer_step_room (s : Locals) (w : World) (fl : Flow) (hneed : s.need_data > 0)
    (h : get_answer_step s w = .ok fl) :
    s.bytes_read.toNat ≤ s.buf.length ∧ ∃ (r : Read) (rest : List Read), w.reads = r :: rest := by
  unfold get_answer_step at h
  rw [if_pos hneed] at h
  cases hr : w.reads with
  | nil => simp only [hr] at h; cases h
  | cons r rest =>
    simp only [hr] at h
    cases hp : poke s.buf s.bytes_read.toNat r.bytes with
    | error e => rw [hp] at h; cases h
    | ok b => exact ⟨poke_room _ _ _ _ hp, r, rest, rfl⟩

/-- A run of the loop ends the same way when transfers of no bytes are inserted, within a
budget larger by their number. -/
theorem get_answer_loop_padded (fuel : Nat) (s : Locals) (w w1 : World)
    (r : Int × List Nat × World) (hs : same_but_transfers w w1)
    (hp : Padded w.reads w1.reads) (h : get_answer_loop fuel s w = .ok r) :
    ∃ x1, get_answer_loop (fuel + w1.reads.length) s w1 = .ok (r.1, r.2.1, x1) ∧
      same_but_transfers r.2.2 x1 := by
  induction fuel generalizing s w w1 with
  | zero =>
    unfold get_answer_loop at h
    split at h
    · cases h
    · rename_i hc
      cases h
      exact ⟨w1, get_answer_loop_over _ s w1 hc, hs⟩
  | succ n ih =>
    unfold get_answer_loop at h
    split at h
    · rename_i hc
      have htime : s.ellapsed_time < XCP_USB_TIMEOUT := by
        have := hc.2
        omega
      cases hstep : get_answer_step s w with
      | error e => rw [hstep] at h; cases h
      | ok fl =>
        rw [hstep] at h
        by_cases hneed : s.need_data > 0
        · obtain ⟨hroom, r0, rest, hrd⟩ := get_answer_step_room s w fl hneed hstep
          obtain ⟨zs, rest1, e, hp1, hz⟩ := hp.split r0 rest hrd
          obtain ⟨t, w2, ht, hw2, hs2, heq⟩ := get_answer_loop_skip zs hz
            (n + rest1.length + 1 + 1) s w1 (r0 :: rest1) e hc.1 htime hneed hroom
          have hlen : w1.reads.length = zs.length + (rest1.length + 1) := by
            rw [e]; simp
          have hfuel : n + 1 + w1.reads.length = (n + rest1.length + 1 + 1) + zs.length := by
            omega
          obtain ⟨fl1, hstep1, halike⟩ := get_answer_step_read_alike
            (fun a b => Padded a b ∧ b.length ≤ rest1.length) s w w2 fl r0 rest rest1 t hneed
            (same_but_transfers_trans hs hs2) hrd hw2 ⟨hp1, le_refl _⟩ hstep
          have hcond : ({ s with ellapsed_time := t } : Locals).endblock = false ∧
              XCP_USB_TIMEOUT - ({ s with ellapsed_time := t } : Locals).ellapsed_time > 0 :=
            ⟨hc.1, by show XCP_USB_TIMEOUT - t > 0; omega⟩
          rw [hfuel, heq]
          unfold get_answer_loop
          rw [if_pos hcond, hstep1]
          cases fl with
          | again s1 x =>
            cases fl1 with
            | again s2 x2 =>
              obtain ⟨e1, hsx, hpx, hlx⟩ := halike
              subst e1
              simp only at h ⊢
              obtain ⟨x1, hx1, hsx1⟩ := ih _ x x2 hsx hpx h
              obtain ⟨k, hk⟩ : ∃ k, n + rest1.length + 1 = (n + x2.reads.length) + k :=
                ⟨rest1.length + 1 - x2.reads.length, by omega⟩
              rw [hk]
              exact ⟨x1, get_answer_loop_more_fuel _ _ _ _ _ hx1, hsx1⟩
            | leave s2 x2 => exact False.elim halike
            | give v2 s2 x2 => exact False.elim halike
          | leave s1 x =>
            cases fl1 with
            | again s2 x2 => exact False.elim halike
            | leave s2 x2 =>
              obtain ⟨e1, hsx⟩ := halike
              subst e1
              cases h
              exact ⟨x2, rfl, hsx⟩
            | give v2 s2 x2 => exact False.elim halike
          | give v s1 x =>
            cases fl1 with
            | again s2 x2 => exact False.elim halike
            | leave s2 x2 => exact False.elim halike
            | give v2 s2 x2 =>
              obtain ⟨e0, e1, hsx⟩ := halike
              subst e0 e1
              cases h
              exact ⟨x2, rfl, hsx⟩
        · obtain ⟨fl1, hstep1, halike⟩ := get_answer_step_alike
            (fun a b => Padded a b ∧ b.length ≤ w1.reads.length) s w w1 fl hneed hs
            ⟨hp, le_refl _⟩ hstep
          rw [show n + 1 + w1.reads.length = (n + w1.reads.length) + 1 by omega]
          unfold get_answer_loop
          rw [if_pos hc, hstep1]
          cases fl with
          | again s1 x =>
            cases fl1 with
            | again s2 x2 =>
              obtain ⟨e1, hsx, hpx, hlx⟩ := halike
              subst e1
              simp only at h ⊢
              obtain ⟨x1, hx1, hsx1⟩ := ih _ x x2 hsx hpx h
              obtain ⟨k, hk⟩ : ∃ k, n + w1.reads.length = (n + x2.reads.length) + k :=
                ⟨w1.reads.length - x2.reads.length, by omega⟩
              rw [hk]
              exact ⟨x1, get_answer_loop_more_fuel _ _ _ _ _ hx1, hsx1⟩
            | leave s2 x2 => exact False.elim halike
            | give v2 s2 x2 => exact False.elim halike
          | leave s1 x =>
            cases fl1 with
            | again s2 x2 => exact False.elim halike
            | leave s2 x2 =>
              obtain ⟨e1, hsx⟩ := halike
              subst e1
              cases h
              exact ⟨x2, rfl, hsx⟩
            | give v2 s2 x2 => exact False.elim halike
          | give v s1 x =>
            cases fl1 with
            | again s2 x2 => exact False.elim halike
            | leave s2 x2 => exact False.elim halike
            | give v2 s2 x2 =>
              obtain ⟨e0, e1, hsx⟩ := halike
              subst e0 e1
              cases h
              exact ⟨x2, rfl, hsx⟩
    · rename_i hc
      cases h
      exact ⟨w1, get_answer_loop_over _ s w1 hc, hs⟩

/-- What locals in step share: the reassembly, the need for data and whether the loop goes
on; they are the same locals when no transfer is due, and after the next transfer. -/
theorem in_step_facts {s s1 : Locals} (h : in_step s s1) :
    s1.end_length = s.end_length ∧ s1.data = s.data ∧ s1.need_data = s.need_data ∧
    ((s1.endblock = false ∧ XCP_USB_TIMEOUT - s1.ellapsed_time > 0) ↔
      (s.endblock = false ∧ XCP_USB_TIMEOUT - s.ellapsed_time > 0)) ∧
    (¬ s.need_data > 0 → s1 = s) ∧
    ∀ t : Int, ({ s1 with ellapsed_time := t } : Locals) = { s with ellapsed_time := t } := by
  rcases h with h | ⟨t, h, h1, h2, h3⟩
  · subst h
    exact ⟨rfl, rfl, rfl, Iff.rfl, fun _ => rfl, fun _ => rfl⟩
  · subst h
    refine ⟨rfl, rfl, rfl, ?_, fun hn => absurd h3 hn, fun _ => rfl⟩
    constructor
    · intro hc
      exact ⟨hc.1, by omega⟩
    · intro hc
      exact ⟨hc.1, by show XCP_USB_TIMEOUT - t > 0; omega⟩

/-- A run of the loop with inserted transfers of no bytes ends the same way without
them, within the same budget. -/
theorem get_answer_loop_unpadded (fuel : Nat) (s s1 : Locals) (w w1 : World)
    (r : Int × List Nat × World) (hin : in_step s s1) (hs : same_but_transfers w w1)
    (hp : Padded w.reads w1.reads) (h : get_answer_loop fuel s1 w1 = .ok r) :
    ∃ x, get_answer_loop fuel s w = .ok (r.1, r.2.1, x) ∧ same_but_transfers x r.2.2 := by
  induction fuel generalizing s s1 w w1 with
  | zero =>
    obtain ⟨f1, f2, f3, f4, f5, f6⟩ := in_step_facts hin
    unfold get_answer_loop at h
    split at h
    · cases h
    · rename_i hc
      cases h
      refine ⟨w, ?_, hs⟩
      rw [get_answer_loop_over 0 s w (fun hx => hc (f4.mpr hx)), f1, f2]
  | succ n ih =>
    obtain ⟨f1, f2, f3, f4, f5, f6⟩ := in_step_facts hin
    unfold get_answer_loop at h
    split at h
    · rename_i hc1
      have hc := f4.mp hc1
      have htime : s.ellapsed_time < XCP_USB_TIMEOUT := by
        have := hc.2
        omega
      cases hstep : get_answer_step s1 w1 with
      | error e => rw [hstep] at h; cases h
      | ok fl1 =>
        rw [hstep] at h
        by_cases hneed : s.need_data > 0
        · have hneed1 : s1.need_data > 0 := by rw [f3]; exact hneed
          obtain ⟨hroom, r1, tl1, hrd1⟩ := get_answer_step_room s1 w1 fl1 hneed1 hstep
          rcases hp.first with ⟨e1, e2⟩ | ⟨r0, rest, rest1, e1, e2, hp1⟩ |
            ⟨now, rest1, e2, hnow, hp1⟩
          · rw [e2] at hrd1
            cases hrd1
          · obtain ⟨fl, hstep0, halike⟩ := get_answer_step_read_alike
              (fun a b => Padded b a) s1 w1 w fl1 r0 rest1 rest s.ellapsed_time hneed1
              (same_but_transfers_symm hs) e2 e1 hp1 hstep
            rw [f6 s.ellapsed_time] at hstep0
            have hstep2 : get_answer_step s w = .ok fl := hstep0
            unfold get_answer_loop
            rw [if_pos hc, hstep2]
            cases fl1 with
            | again s2 x2 =>
              cases fl with
              | again s3 x3 =>
                obtain ⟨e3, hsx, hpx⟩ := halike
                subst e3
                simp only at h ⊢
                exact ih _ _ x3 x2 (Or.inl rfl) (same_but_transfers_symm hsx) hpx h
              | leave s3 x3 => exact False.elim halike
              | give v3 s3 x3 => exact False.elim halike
            | leave s2 x2 =>
              cases fl with
              | again s3 x3 => exact False.elim halike
              | leave s3 x3 =>
                obtain ⟨e3, hsx⟩ := halike
                subst e3
                cases h
                exact ⟨x3, rfl, same_but_transfers_symm hsx⟩
              | give v3 s3 x3 => exact False.elim halike
            | give v2 s2 x2 =>
              cases fl with
              | again s3 x3 => exact False.elim halike
              | leave s3 x3 => exact False.elim halike
              | give v3 s3 x3 =>
                obtain ⟨e0, e3, hsx⟩ := halike
                subst e0 e3
                cases h
                exact ⟨x3, rfl, same_but_transfers_symm hsx⟩
          · rw [get_answer_step_zero s1 w1 now rest1 hneed1 e2 hroom] at hstep
            cases hstep
            simp only at h
            obtain ⟨x, hx, hsx⟩ := ih s { s1 with ellapsed_time := now } w _
              (Or.inr ⟨now, f6 now, hnow, htime, hneed⟩)
              (by
                obtain ⟨a1, a2, a3, a4, a5, a6, a7⟩ := hs
                exact ⟨a1, a2, a3, a4, a5, a6, a7⟩)
              hp1 h
            exact ⟨x, get_answer_loop_more_fuel n 1 s w _ hx, hsx⟩
        · have e : s1 = s := f5 hneed
          subst e
          obtain ⟨fl, hstep2, halike⟩ := get_answer_step_alike
            (fun a b => Padded b a) s1 w1 w fl1 hneed (same_but_transfers_symm hs) hp hstep
          unfold get_answer_loop
          rw [if_pos hc, hstep2]
          cases fl1 with
          | again s2 x2 =>
            cases fl with
            | again s3 x3 =>
              obtain ⟨e3, hsx, hpx⟩ := halike
              subst e3
              simp only at h ⊢
              exact ih _ _ x3 x2 (Or.inl rfl) (same_but_transfers_symm hsx) hpx h
            | leave s3 x3 => exact False.elim halike
            | give v3 s3 x3 => exact False.elim halike
          | leave s2 x2 =>
            cases fl with
            | again s3 x3 => exact False.elim halike
            | leave s3 x3 =>
              obtain ⟨e3, hsx⟩ := halike
              subst e3
              cases h
              exact ⟨x3, rfl, same_but_transfers_symm hsx⟩
            | give v3 s3 x3 => exact False.elim halike
          | give v2 s2 x2 =>
            cases fl with
            | again s3 x3 => exact False.elim halike
            | leave s3 x3 => exact False.elim halike
            | give v3 s3 x3 =>
              obtain ⟨e0, e3, hsx⟩ := halike
              subst e0 e3
              cases h
              exact ⟨x3, rfl, same_but_transfers_symm hsx⟩
    · rename_i hc
      cases h
      refine ⟨w, ?_, hs⟩
      rw [get_answer_loop_over _ s w (fun hx => hc (f4.mpr hx)), f1, f2]

/-! ## Lemmas: a frame that declares too long a payload -/

/-- A byte of the buffer that can be read has a readable byte before it. -/
theorem peek_before (buf : List Nat) (i b : Nat) (h : peek buf (i + 1) = .ok b) :
    ∃ a, peek buf i = .ok a := by
  unfold peek at h ⊢
  cases hi : buf.get? i with
  | some a => exact ⟨a, rfl⟩
  | none =>
    have hlen : buf.length ≤ i := List.get?_eq_none.mp hi
    have hn : buf.get? (i + 1) = none := List.get?_eq_none.mpr (by omega)
    rw [hn] at h
    cases h

/-- The checks on a frame whose length byte is above 140: more data is asked for until
the declared length and the 5 bytes around it are buffered, and then -1 is returned
before the ordinal and the checksum are looked at. -/
theorem get_answer_validate_oversized (s : Locals) (w : World) (L : Nat)
    (hlen : peek s.buf (s.my_buf + 2) = .ok L) (hbig : 140 < L) :
    get_answer_validate s w =
      if s.bytes_read - ((L : Int) + PW_HEADER_SIZE) < 0
      then .ok (.again { s with need_data := count_zero_byte s.need_data + L + 1 } w)
      else .ok (.give (-1) s w) := by
  obtain ⟨b1, hb1⟩ := peek_before s.buf (s.my_buf + 1) L hlen
  unfold get_answer_validate
  simp only [hb1, hlen]
  by_cases hmore : s.bytes_read - ((L : Int) + PW_HEADER_SIZE) < 0
  · simp only [if_pos hmore]
  · simp only [if_neg hmore, if_pos (show L > 140 from hbig)]

/-! ## Lemmas: the standing of the world across a transaction -/

/-- A world has its own standing. -/
theorem same_standing_refl (w : World) : same_standing w w := ⟨rfl, rfl, rfl, rfl, rfl⟩

/-- Having the same standing carries over. -/
theorem same_standing_trans {a b c : World} (h1 : same_standing a b)
    (h2 : same_standing b c) : same_standing a c := by
  obtain ⟨a1, a2, a3, a4, a5⟩ := h1
  obtain ⟨b1, b2, b3, b4, b5⟩ := h2
  exact ⟨b1.trans a1, b2.trans a2, b3.trans a3, b4.trans a4, b5.trans a5⟩

/-- A report made after steps that kept the standing is a report from the first world. -/
theorem reported_from_trans {a b c : World} (h1 : same_standing a b)
    (h2 : reported_from b c) : reported_from a c := by
  obtain ⟨text, wx, hs, hc⟩ := h2
  exact ⟨text, wx, same_standing_trans h1 hs, hc⟩

/-- What a report does to the counter: one step forward when the process is not shutting
down, nothing otherwise. -/
theorem reported_from_counter {w w1 : World} (h : reported_from w w1) :
    w1.exit_flag = w.exit_flag ∧
    w1.comm_failures =
      if w.exit_flag = 0 then next_count w.comm_failures else w.comm_failures := by
  obtain ⟨text, wx, hs, hc⟩ := h
  have hcount := comm_fail_counter _ _ _ hc
  rw [hs.2.1, hs.2.2.1] at hcount
  exact ⟨hcount.1, hcount.2⟩

/-- The standing after the pass a verdict stands for. -/
theorem verdict_run_outcome (V : Verdict) (w0 w : World) (fl : Flow)
    (hs : same_standing w0 w) (h : V.run w = .ok fl) : fl.outcome w0 := by
  cases V with
  | fault e => cases h
  | again s1 => cases h; exact hs
  | reject s1 => cases h; exact ⟨rfl, Or.inl hs⟩
  | report t s1 =>
    simp only [Verdict.run] at h
    split at h
    · cases h
    · rename_i w1 hc
      cases h
      exact ⟨rfl, Or.inr ⟨t, w, hs, hc⟩⟩

/-- The standing after a pass through the loop body: a transfer does not touch it. -/
theorem get_answer_step_outcome (s : Locals) (w : World) (fl : Flow)
    (h : get_answer_step s w = .ok fl) : fl.outcome w := by
  unfold get_answer_step at h
  split at h
  · split at h
    · cases h
    · simp only at h
      split at h
      · cases h
      · split at h
        · cases h; exact ⟨rfl, rfl, rfl, rfl, rfl⟩
        · split at h
          · cases h; exact ⟨rfl, rfl, rfl, rfl, rfl⟩
          · obtain ⟨V, hV, -⟩ := frame_verdict _
            rw [hV] at h
            refine verdict_run_outcome V w _ fl ?_ h
            exact ⟨rfl, rfl, rfl, rfl, rfl⟩
  · obtain ⟨V, hV, -⟩ := frame_verdict s
    rw [hV] at h
    exact verdict_run_outcome V w w fl (same_standing_refl w) h

/-- The standing after the loop of `get_answer`: it is that of the world the loop started
in, unless -1 was returned after one report. -/
theorem get_answer_loop_outcome (fuel : Nat) (s : Locals) (w0 w : World)
    (r : Int × List Nat × World) (hs : same_standing w0 w)
    (h : get_answer_loop fuel s w = .ok r) :
    same_standing w0 r.2.2 ∨ (r.1 = -1 ∧ reported_from w0 r.2.2) := by
  induction fuel generalizing s w with
  | zero =>
    unfold get_answer_loop at h
    split at h
    · cases h
    · cases h; exact Or.inl hs
  | succ n ih =>
    unfold get_answer_loop at h
    split at h
    · split at h
      · cases h
      · rename_i s1 w1 hstep
        have h1 : Flow.outcome w (.again s1 w1) := get_answer_step_outcome _ _ _ hstep
        exact ih s1 w1 (same_standing_trans hs h1) h
      · rename_i s1 w1 hstep
        have h1 : Flow.outcome w (.leave s1 w1) := get_answer_step_outcome _ _ _ hstep
        cases h
        exact Or.inl (same_standing_trans hs h1)
      · rename_i v s1 w1 hstep
        have h1 : Flow.outcome w (.give v s1 w1) := get_answer_step_outcome _ _ _ hstep
        cases h
        rcases h1.2 with h2 | h2
        · exact Or.inl (same_standing_trans hs h2)
        · exact Or.inr ⟨h1.1, reported_from_trans hs h2⟩
    · cases h; exact Or.inl hs

/-- The standing after `get_answer`. -/
theorem get_answer_outcome (fuel : Nat) (data : List Nat) (command : Nat) (w0 w : World)
    (r : Int × List Nat × World) (hs : same_standing w0 w)
    (h : get_answer fuel data command w = .ok r) :
    same_standing w0 r.2.2 ∨ (r.1 = -1 ∧ reported_from w0 r.2.2) := by
  unfold get_answer at h
  split at h
  · cases h; exact Or.inl hs
  · exact get_answer_loop_outcome _ _ _ _ _ hs h

/-- The standing after one attempt of a transaction: sending the command does not touch
it. -/
theorem attempt_outcome (fuel : Nat) (t : Transaction) (data : List Nat) (w : World)
    (r : Int × List Nat × World) (h : t.attempt fuel data w = .ok r) :
    same_standing w r.2.2 ∨ (r.1 = -1 ∧ reported_from w r.2.2) := by
  cases t with
  | read command =>
    simp only [Transaction.attempt, read_attempt] at h
    refine get_answer_outcome _ _ _ w _ _ ?_ h
    unfold send_read_command
    split <;> exact ⟨rfl, rfl, rfl, rfl, rfl⟩
  | write command n =>
    simp only [Transaction.attempt, write_attempt] at h
    split at h
    · cases h
    · rename_i w1 hsend
      split at h
      · cases h
      · refine get_answer_outcome _ _ _ w _ _ ?_ h
        unfold send_write_command at hsend
        split at hsend
        · cases hsend; exact ⟨rfl, rfl, rfl, rfl, rfl⟩
        · split at hsend
          · cases hsend
          · cases hsend; exact ⟨rfl, rfl, rfl, rfl, rfl⟩

/-- What one attempt of a transaction does to the counter and to `exit_flag`. -/
theorem attempt_counter (fuel : Nat) (t : Transaction) (data : List Nat) (w : World)
    (r : Int × List Nat × World) (h : t.attempt fuel data w = .ok r) :
    r.2.2.exit_flag = w.exit_flag ∧
    (r.2.2.comm_failures = w.comm_failures ∨
      (r.1 = -1 ∧ w.exit_flag = 0 ∧ r.2.2.comm_failures = next_count w.comm_failures)) := by
  rcases attempt_outcome fuel t data w r h with hs | ⟨hv, hr⟩
  · exact ⟨hs.2.1, Or.inl hs.2.2.1⟩
  · obtain ⟨h1, h2⟩ := reported_from_counter hr
    refine ⟨h1, ?_⟩
    by_cases hf : w.exit_flag = 0
    · rw [if_pos hf] at h2
      exact Or.inr ⟨hv, hf, h2⟩
    · rw [if_neg hf] at h2
      exact Or.inl h2

/-- While the process is shutting down the retry loop leaves the counter as it is. -/
theorem command_loop_shutdown (fuel : Nat) (t : Transaction) (left : Nat) (b : Int)
    (data : List Nat) (w : World) (r : Int × List Nat × World) (hf : w.exit_flag ≠ 0)
    (h : command_loop (t.attempt fuel) left b data w = .ok r) :
    r.2.2.comm_failures = w.comm_failures := by
  induction left generalizing b data w with
  | zero =>
    simp only [command_loop] at h
    cases h
    rfl
  | succ l ih =>
    unfold command_loop at h
    split at h
    · split at h
      · cases h
      · rename_i n0 d0 w0 ha
        obtain ⟨h1, h2⟩ := attempt_counter fuel t data w _ ha
        simp only at h1 h2
        have h3 := ih n0 d0 w0 (by rw [h1]; exact hf) h
        rcases h2 with h4 | ⟨-, h4, -⟩
        · rw [h3, h4]
        · exact absurd h4 hf
    · cases h
      rfl

/-- Below the wrap the counter steps forward by one each time. -/
theorem next_count_iterate (c j : Nat) (h : c + j < 4294967296) :
    next_count^[j] c = c + j := by
  induction j generalizing c with
  | zero => rfl
  | succ n ih =>
    rw [Function.iterate_succ_apply]
    have h1 : next_count c = c + 1 := by
      unfold next_count
      exact Nat.mod_eq_of_lt (by omega)
    rw [h1, ih (c + 1) (by omega)]
    omega

/-! ## The claims on failures, the connection and the buffers -/

/-- C11 as stated fails once the counter wraps: after 4294967295 consecutive failures from
a zero counter (with every reconnection in between succeeding), the next call, the
4294967296th, takes the 32-bit counter back to 0; 4294967296 is above 10 and no multiple
of 10, yet the call logs the warning and the message and tries no reconnection. -/
theorem comm_fail_wraps :
    ∃ w, comm_fail_run (List.replicate 4294967295 (some "lost")) (patient 4294967295) = .ok w ∧
      nutusb_comm_fail (some "lost") w =
        .ok (comm_fail_message (some "lost")
          { comm_fail_count w with log := w.log ++ [Log.excessive] }) := by
  obtain ⟨w, hw⟩ := comm_fail_run_ok (some "lost") 4294967295 (patient 4294967295) 4294967295
    rfl rfl (le_refl _)
  refine ⟨w, hw, ?_⟩
  obtain ⟨hf, hc⟩ := comm_fail_run_next _ _ w rfl rfl hw
  rw [List.length_replicate] at hc
  have hz : next_count w.comm_failures = 0 := by rw [hc]
  rw [comm_fail_call _ w hf, hz]
  rfl

/-- C11, amended: from a zero counter, with the process not shutting down, the `n`-th
consecutive call of `nutusb_comm_fail`, for `n` below 2^32 (the counter is a 32-bit
`unsigned int`): for `n ≤ 9` it logs the message and tries no reconnection; for `n = 10`
it logs the warning and the message; for `n > 10` not a multiple of 10 it logs nothing and
calls `upsdrv_reconnect` once; for `n > 10` a multiple of 10 it logs the warning and the
message and tries no reconnection. -/
theorem comm_fail_schedule (w0 w : World) (before : List (Option String))
    (fmt : Option String)
    (h0 : w0.comm_failures = 0) (hflag : w0.exit_flag = 0)
    (hrun : comm_fail_run before w0 = .ok w)
    (hn : before.length + 1 < 4294967296) :
    (before.length + 1 ≤ 9 →
      nutusb_comm_fail fmt w = .ok (comm_fail_message fmt (comm_fail_count w))) ∧
    (before.length + 1 = 10 →
      nutusb_comm_fail fmt w =
        .ok (comm_fail_message fmt { comm_fail_count w with log := w.log ++ [Log.excessive] })) ∧
    (10 < before.length + 1 → (before.length + 1) % 10 ≠ 0 →
      nutusb_comm_fail fmt w = upsdrv_reconnect (comm_fail_count w) ∧
      ∀ w1, nutusb_comm_fail fmt w = .ok w1 → w1.log = w.log) ∧
    (10 < before.length + 1 → (before.length + 1) % 10 = 0 →
      nutusb_comm_fail fmt w =
        .ok (comm_fail_message fmt { comm_fail_count w with log := w.log ++ [Log.excessive] })) := by
  obtain ⟨hf, hc⟩ := comm_fail_run_next before w0 w h0 hflag hrun
  rw [Nat.mod_eq_of_lt hn] at hc
  have hcall := comm_fail_call fmt w hf
  rw [hc] at hcall
  refine ⟨fun h => ?_, fun h => ?_, fun h1 h2 => ?_, fun h1 h2 => ?_⟩
  · rw [hcall, if_neg (by omega), if_neg (by omega)]
  · rw [hcall, if_neg (by omega), if_pos (by omega)]
  · rw [hcall, if_pos ⟨h1, h2⟩]
    refine ⟨rfl, fun w1 hw1 => ?_⟩
    exact (upsdrv_reconnect_record _ _ hw1).2.2.2.2.1
  · rw [hcall, if_neg (by omega), if_pos h2]

/-- C11, amended, at the eleventh call of a run of calls with the message "lost" in a world
whose next reconnection succeeds: it logs nothing and reconnects. -/
theorem comm_fail_schedule_witness :
    comm_fail_run (List.replicate 10 (some "lost")) (patient 1) =
      .ok { patient 1 with
        comm_failures := 10
        log := List.replicate 9 (Log.lost "lost") ++ [Log.excessive, Log.lost "lost"] } ∧
    nutusb_comm_fail (some "lost")
        { patient 1 with
          comm_failures := 10
          log := List.replicate 9 (Log.lost "lost") ++ [Log.excessive, Log.lost "lost"] } =
      .ok { patient 0 with
        comm_failures := 11
        ops := [Op.usb_open, Op.clear_halt]
        log := List.replicate 9 (Log.lost "lost") ++ [Log.excessive, Log.lost "lost"] } :=
  ⟨rfl,
   ((comm_fail_schedule (patient 1) _ (List.replicate 10 (some "lost")) (some "lost") rfl rfl
      rfl (by decide)).2.2.1 (by decide) (by decide)).1.trans rfl⟩

/-- C12: with a counter above 0 `nutusb_comm_good` sets it to 0 and logs one recovery
notice; with a counter of 0 it changes nothing; so a second call, and any further call,
changes nothing more. -/
theorem comm_good_resets (w : World) :
    (0 < w.comm_failures →
      nutusb_comm_good w =
        { w with log := w.log ++ [Log.reestablished], comm_failures := 0 }) ∧
    (w.comm_failures = 0 → nutusb_comm_good w = w) ∧
    nutusb_comm_good (nutusb_comm_good w) = nutusb_comm_good w ∧
    (∀ k : Nat, nutusb_comm_good^[k + 1] w = nutusb_comm_good w) := by
  have h1 : 0 < w.comm_failures →
      nutusb_comm_good w =
        { w with log := w.log ++ [Log.reestablished], comm_failures := 0 } := by
    intro h
    unfold nutusb_comm_good
    rw [if_neg (by omega)]
  have h2 : ∀ v : World, v.comm_failures = 0 → nutusb_comm_good v = v := by
    intro v h
    unfold nutusb_comm_good
    rw [if_pos h]
  have h3 : (nutusb_comm_good w).comm_failures = 0 := by
    unfold nutusb_comm_good
    split
    · assumption
    · rfl
  refine ⟨h1, h2 w, h2 _ h3, fun k => ?_⟩
  induction k with
  | zero => rfl
  | succ n ih =>
    rw [Function.iterate_succ_apply', ih]
    exact h2 _ h3

/-- C12, after three failures: the first call logs the recovery and clears the counter,
the second changes nothing. -/
theorem comm_good_resets_witness :
    nutusb_comm_good { patient 0 with comm_failures := 3 } =
      { patient 0 with log := [Log.reestablished] } ∧
    nutusb_comm_good (patient 0) = patient 0 :=
  ⟨(comm_good_resets { patient 0 with comm_failures := 3 }).1 (by decide),
   (comm_good_resets (patient 0)).2.1 rfl⟩

/-- C13 as stated fails at the twentieth call: a run of 20 consecutive failures from a zero
counter logs the warning twice, at the tenth and at the twentieth call. -/
theorem comm_fail_notice_twice :
    (comm_fail_run (List.replicate 20 (some "lost")) (patient 9)).map
        (fun w => (w.comm_failures, w.log.count Log.excessive)) = .ok (20, 2) ∧
    (comm_fail_run (List.replicate 19 (some "lost")) (patient 9)).map
        (fun w => (w.comm_failures, w.log.count Log.excessive)) = .ok (19, 1) :=
  ⟨rfl, rfl⟩

/-- C13, amended: with the process not shutting down, a call of `nutusb_comm_fail` logs
the "excessive comm failures, limiting error reporting" warning when it brings the counter
to a multiple of 10 (10, 20, 30, ...), once, and does not log it otherwise. -/
theorem comm_fail_notice_schedule (fmt : Option String) (w w1 : World)
    (hflag : w.exit_flag = 0) (h : nutusb_comm_fail fmt w = .ok w1) :
    w1.comm_failures = next_count w.comm_failures ∧
    w1.log.count Log.excessive =
      w.log.count Log.excessive + (if w1.comm_failures % 10 = 0 then 1 else 0) := by
  have hc := (comm_fail_counter fmt w w1 h).2
  rw [if_pos hflag] at hc
  refine ⟨hc, ?_⟩
  rw [hc]
  rw [comm_fail_call fmt w hflag] at h
  split at h
  · rename_i h1
    rw [(upsdrv_reconnect_record _ _ h).2.2.2.2.1, if_neg h1.2]
    rfl
  · split at h
    · rename_i h2
      cases h
      rw [comm_fail_message_notices, if_pos h2]
      simp [List.count_append]
    · rename_i h2
      cases h
      rw [comm_fail_message_notices, if_neg h2]
      rfl

/-- C13, amended, at the call that takes the counter from 19 to 20: it logs the warning. -/
theorem comm_fail_notice_schedule_witness :
    ({ patient 0 with comm_failures := 19 } : World).exit_flag = 0 ∧
    (comm_fail_message (some "lost")
      { patient 0 with comm_failures := 20, log := [Log.excessive] }).log.count Log.excessive =
      0 + 1 :=
  ⟨rfl,
   (comm_fail_notice_schedule (some "lost") { patient 0 with comm_failures := 19 }
      (comm_fail_message (some "lost")
        { patient 0 with comm_failures := 20, log := [Log.excessive] }) rfl rfl).2⟩

/-- C14 as stated fails: with a failure counter of 3, a read whose first attempt receives
the valid reply `AB 01 03 81 10 20 30 70` returns 3 and the counter is still 3. -/
theorem transaction_leaves_counter :
    command_read_sequence 1 0x01 []
        { fresh [⟨true, [0xAB, 0x01, 0x03, 0x81, 0x10, 0x20, 0x30, 0x70], 7⟩] with
          comm_failures := 3 } =
      .ok (3, [0x10, 0x20, 0x30],
        { fresh [] with
          comm_failures := 3, sent := [[0xAB, 0x01, 0x01, 0x53]], ops := [Op.xfer 0 5000] }) :=
  rfl

/-- C14, amended: a read or write transaction does not reset the failure counter.  After
it returns a positive length the counter is the one before the call stepped forward at
most 4 times, modulo 2^32: it lies between `c` and `c + 4` when `c + 4` is below 2^32, and
it is `c` when the process is shutting down or when the first attempt succeeds.  Each
attempt either leaves the handle, the counter, the log and the opens to come as they
were, or returns -1 after one call of `nutusb_comm_fail`, which steps the counter forward
by one when the process is not shutting down and leaves it otherwise. -/
theorem transaction_keeps_counter (fuel : Nat) (t : Transaction) (data : List Nat) (w : World)
    (n : Int) (d : List Nat) (w1 : World) (hn : 1 ≤ n) :
    (t.sequence fuel data w = .ok (n, d, w1) →
      (∃ j, j ≤ 4 ∧ w1.comm_failures = next_count^[j] w.comm_failures) ∧
      (w.comm_failures + 4 < 4294967296 →
        w.comm_failures ≤ w1.comm_failures ∧ w1.comm_failures ≤ w.comm_failures + 4) ∧
      (w.exit_flag ≠ 0 → w1.comm_failures = w.comm_failures)) ∧
    (t.attempt fuel data w = .ok (n, d, w1) →
      t.sequence fuel data w = .ok (n, d, w1) ∧ w1.comm_failures = w.comm_failures) ∧
    (∀ (v : Int) (d2 : List Nat) (w2 : World), t.attempt fuel data w = .ok (v, d2, w2) →
      same_standing w w2 ∨
      (v = -1 ∧ reported_from w w2 ∧
        w2.comm_failures =
          if w.exit_flag = 0 then next_count w.comm_failures else w.comm_failures)) := by
  refine ⟨fun h => ?_, fun h => ?_, fun v d2 w2 h => ?_⟩
  · rw [sequence_eq] at h
    split at h
    · cases h
    · rename_i r hr
      unfold command_finish at h
      split at h
      · split at h
        · cases h
        · simp only [Except.ok.injEq, Prod.mk.injEq] at h
          omega
      · cases h
        obtain ⟨j, -, hc, hs⟩ := command_loop_tally fuel t 5 0 data w _ hr
        have hj : j ≤ 4 := by
          have := hs hn (by decide)
          omega
        refine ⟨⟨j, hj, hc⟩, fun hroom => ?_, fun hf => ?_⟩
        · simp only at hc
          rw [hc, next_count_iterate _ _ (by omega)]
          omega
        · exact command_loop_shutdown fuel t 5 0 data w _ hf hr
  · have ht := attempt_counter fuel t data w _ h
    refine ⟨?_, ?_⟩
    · rw [sequence_eq]
      have hpos : ¬ n < 1 := by omega
      have hzero : (0 : Int) < 1 := by decide
      simp only [command_loop, h, hpos, hzero, if_false, if_true, command_finish]
    · rcases ht.2 with h1 | ⟨h1, -⟩
      · exact h1
      · simp only at h1
        omega
  · rcases attempt_outcome fuel t data w _ h with hs | ⟨hv, hr⟩
    · exact Or.inl hs
    · exact Or.inr ⟨hv, hr, (reported_from_counter hr).2⟩

/-- C14, amended, at a read with a counter of 3 whose first attempt receives
`AB 01 03 81 10 20 30 71`, a frame with a bad checksum, and whose second attempt receives
the valid reply `AB 01 03 81 10 20 30 70`: it returns 3 and the counter is 4. -/
theorem transaction_keeps_counter_witness :
    Transaction.sequence 1 (.read 0x01) []
        { fresh [⟨true, [0xAB, 0x01, 0x03, 0x81, 0x10, 0x20, 0x30, 0x71], 7⟩,
            ⟨true, [0xAB, 0x01, 0x03, 0x81, 0x10, 0x20, 0x30, 0x70], 9⟩] with
          comm_failures := 3 } =
      .ok (3, [0x10, 0x20, 0x30],
        { fresh [] with
          comm_failures := 4
          sent := [[0xAB, 0x01, 0x01, 0x53], [0xAB, 0x01, 0x01, 0x53]]
          ops := [Op.xfer 0 5000, Op.xfer 0 5000]
          log := [Log.lost "get_answer: checksum error! "] }) ∧
    ((3 : Nat) ≤ 4 ∧ (4 : Nat) ≤ 3 + 4) :=
  ⟨rfl,
   ((transaction_keeps_counter 1 (.read 0x01) []
      { fresh [⟨true, [0xAB, 0x01, 0x03, 0x81, 0x10, 0x20, 0x30, 0x71], 7⟩,
          ⟨true, [0xAB, 0x01, 0x03, 0x81, 0x10, 0x20, 0x30, 0x70], 9⟩] with
        comm_failures := 3 }
      3 [0x10, 0x20, 0x30]
      { fresh [] with
        comm_failures := 4
        sent := [[0xAB, 0x01, 0x01, 0x53], [0xAB, 0x01, 0x01, 0x53]]
        ops := [Op.xfer 0 5000, Op.xfer 0 5000]
        log := [Log.lost "get_answer: checksum error! "] }
      (by decide)).1 rfl).2.1 (by decide)⟩

/-- C15: with a low-level open that leaves a handle when it succeeds and `NULL` when it
fails, `open_device` goes through the rounds one by one.  If the first rounds, fewer than
5, are not good ones (the open fails, or the clearing of the halt fails) and the next one
is a good one, it returns `TRUE` there, with the handle that open gave, which is not
`NULL`, and makes no further round; if 5 rounds are not good ones it returns `FALSE` after
exactly these 5, with a `NULL` handle.  A round whose open succeeds and whose clearing
fails resets the device, closes it and sets the handle to `NULL`, and the next round
starts from there. -/
theorem open_device_rounds (w : World) (pre rest : List OpenTry)
    (hbad : ∀ x ∈ pre, x.good = false) (hsound : ∀ x ∈ pre, x.sound = true) :
    (∀ t : OpenTry, w.opens = pre ++ t :: rest → pre.length < 5 → t.good = true →
      t.sound = true →
      open_device w =
        .ok (true, { w with
          upsdev := t.dev, opens := rest, ops := w.ops ++ (pre ++ [t]).flatMap try_ops }) ∧
      t.dev ≠ none ∧ try_ops t = [Op.usb_open, Op.clear_halt]) ∧
    (w.opens = pre ++ rest → pre.length = 5 →
      open_device w =
        .ok (false, { w with
          upsdev := none, opens := rest, ops := w.ops ++ pre.flatMap try_ops })) ∧
    (∀ (n : Nat) (t : OpenTry) (more : List OpenTry), w.opens = t :: more →
      t.opened = true → t.cleared = false →
      open_device_loop (n + 1) w =
        open_device_loop n { w with
          upsdev := none
          opens := more
          ops := w.ops ++
            [Op.usb_open, Op.clear_halt, Op.reset_device, Op.usb_close, Op.sleep 5] }) := by
  refine ⟨fun t ho hlen hgood hts => ⟨?_, ?_, ?_⟩, fun ho hlen => ?_, fun n t more ho h1 h2 => ?_⟩
  · unfold open_device MAX_TRY
    cases hp : pre with
    | nil =>
      subst hp
      rw [open_device_loop_good 4 w t rest ho hgood]
      simp
    | cons x xs =>
      have hne : pre ≠ [] := by rw [hp]; simp
      obtain ⟨m, hm⟩ : ∃ m, 5 = (m + 1) + pre.length := ⟨4 - pre.length, by omega⟩
      rw [hm, open_device_loop_bads pre (m + 1) w (t :: rest) ho hne hbad hsound]
      rw [open_device_loop_good m _ t rest rfl hgood]
      rw [← hp]
      simp [List.flatMap_append, List.append_assoc]
  · unfold OpenTry.good at hgood
    unfold OpenTry.sound at hts
    cases hd : t.dev with
    | some d => simp
    | none =>
      rw [hd] at hts
      cases ho2 : t.opened with
      | true => rw [ho2] at hts; simp at hts
      | false => rw [ho2] at hgood; simp at hgood
  · unfold OpenTry.good at hgood
    unfold try_ops
    cases ho2 : t.opened with
    | false => rw [ho2] at hgood; simp at hgood
    | true =>
      cases hc : t.cleared with
      | false => rw [ho2, hc] at hgood; simp at hgood
      | true => simp
  · unfold open_device MAX_TRY
    have hne : pre ≠ [] := by
      intro h
      rw [h] at hlen
      simp at hlen
    have h5 : 5 = 0 + pre.length := by omega
    rw [h5, open_device_loop_bads pre 0 w rest ho hne hbad hsound]
    rfl
  · conv_lhs => unfold open_device_loop
    simp only [ho, h1, h2, List.append_assoc, List.singleton_append]
    simp

/-- C15, at a world where the first open fails, the second opens but cannot clear the
halt and the third is good: `TRUE` at the third round, the device reset and closed after
the second; and at a world where five opens fail: `FALSE` with a `NULL` handle. -/
theorem open_device_rounds_witness :
    open_device
        { closed with
          opens := [⟨false, none, false⟩, ⟨true, some 7, false⟩, ⟨true, some 8, true⟩,
            ⟨true, some 9, true⟩] } =
      .ok (true, { closed with
        upsdev := some 8
        opens := [⟨true, some 9, true⟩]
        ops := [Op.usb_open, Op.usb_open, Op.clear_halt, Op.reset_device, Op.usb_close,
          Op.sleep 5, Op.usb_open, Op.clear_halt] }) ∧
    open_device { closed with upsdev := some 3 } =
      .ok (false, { closed with opens := [], ops := List.replicate 5 Op.usb_open }) :=
  ⟨((open_device_rounds
        { closed with
          opens := [⟨false, none, false⟩, ⟨true, some 7, false⟩, ⟨true, some 8, true⟩,
            ⟨true, some 9, true⟩] }
        [⟨false, none, false⟩, ⟨true, some 7, false⟩] [⟨true, some 9, true⟩]
        (by decide) (by decide)).1 ⟨true, some 8, true⟩ rfl (by decide) rfl rfl).1,
   (open_device_rounds { closed with upsdev := some 3 }
      (List.replicate 5 ⟨false, none, false⟩) [] (by decide) (by decide)).2.1 rfl rfl⟩

/-- C16, the code against the claim as written: a reply of two valid frames of 140 bytes
each (ordinal 1, and ordinal 2 marked last), each coming as transfers of 128 and 17
bytes, makes `get_answer` write 280 bytes to the output and return 280, more than 256. -/
theorem get_answer_exceeds_256 :
    checksum_test (reply_frame 1 0x01 (List.replicate 140 1) 59) = true ∧
    checksum_test (reply_frame 1 0x82 (List.replicate 140 2) 46) = true ∧
    get_answer 6 (List.replicate 300 0) 0x01
        (fresh [⟨true, [0xAB, 0x01, 140, 0x01] ++ List.replicate 124 1, 1⟩,
          ⟨true, List.replicate 16 1 ++ [59], 2⟩,
          ⟨true, [0xAB, 0x01, 140, 0x82] ++ List.replicate 124 2, 3⟩,
          ⟨true, List.replicate 16 2 ++ [46], 4⟩]) =
      .ok (280, List.replicate 140 1 ++ List.replicate 140 2 ++ List.replicate 20 0,
        { fresh [] with
          ops := [Op.xfer 0 5000, Op.xfer 128 4999, Op.xfer 0 4998, Op.xfer 128 4997] }) ∧
    ¬ ((280 : Int) ≤ 256) :=
  ⟨by decide, by decide, rfl, by decide⟩

/-- C16, amended: whatever the transport does, a value `get_answer` returns is -1 or lies
between 0 and 17780, which is 127 frames (one for each ordinal of the 7-bit sequence
field) of at most 140 bytes, and the output buffer is as it was from offset 17780 on. -/
theorem get_answer_output_bound (fuel : Nat) (data : List Nat) (command : Nat) (w : World)
    (v : Int) (d : List Nat) (w1 : World)
    (h : get_answer fuel data command w = .ok (v, d, w1)) :
    REPLY_MAX = 17780 ∧ -1 ≤ v ∧ v ≤ 17780 ∧ d.drop 17780 = data.drop 17780 := by
  have hmax : REPLY_MAX = 17780 := rfl
  refine ⟨hmax, ?_⟩
  unfold get_answer at h
  split at h
  · cases h
    exact ⟨le_refl _, by decide, rfl⟩
  · have hb : Bounded data (get_answer_init data) := by
      unfold Bounded get_answer_init
      simp
    have hr := get_answer_loop_bounded _ data _ _ _ hb h
    rw [hmax] at hr
    exact hr

/-- C16, amended, at the reply `AB 01 01 81 10 C2` of one frame with one payload byte. -/
theorem get_answer_output_bound_witness :
    get_answer 3 [7, 8] 0x01 (fresh [⟨true, [0xAB, 0x01, 0x01, 0x81, 0x10, 0xC2], 1⟩]) =
      .ok (1, [0x10, 8], { fresh [] with ops := [Op.xfer 0 5000] }) ∧
    (REPLY_MAX = 17780 ∧ (-1 : Int) ≤ 1 ∧ (1 : Int) ≤ 17780 ∧
      [0x10, 8].drop 17780 = [7, 8].drop 17780) :=
  ⟨rfl, get_answer_output_bound 3 [7, 8] 0x01
    (fresh [⟨true, [0xAB, 0x01, 0x01, 0x81, 0x10, 0xC2], 1⟩]) 1 [0x10, 8]
    { fresh [] with ops := [Op.xfer 0 5000] } rfl⟩

/-- C17: let `padded` be the transfers of the world `w` with successful transfers of no
bytes inserted anywhere, each at a time below the 5000 ms.  If `get_answer` returns in `w`
it returns the same value and the same output with `padded`, within a budget larger by
the number of transfers, and if it returns with `padded` it returns the same value and
the same output in `w`; the worlds it leaves differ only in the transfers.  A pass
through the loop body whose transfer succeeds with no bytes changes only the elapsed time
in the locals, and the loop goes on to another transfer. -/
theorem zero_byte_reads_ignored (fuel : Nat) (data : List Nat) (command : Nat) (w : World)
    (padded : List Read) (hp : Padded w.reads padded) :
    (∀ (v : Int) (d : List Nat) (w1 : World),
      get_answer fuel data command w = .ok (v, d, w1) →
      ∃ w2, get_answer (fuel + padded.length) data command { w with reads := padded } =
          .ok (v, d, w2) ∧ same_but_transfers w1 w2) ∧
    (∀ (v : Int) (d : List Nat) (w2 : World),
      get_answer fuel data command { w with reads := padded } = .ok (v, d, w2) →
      ∃ w1, get_answer fuel data command w = .ok (v, d, w1) ∧ same_but_transfers w1 w2) ∧
    (∀ (s : Locals) (now : Int) (rest : List Read), s.need_data > 0 →
      s.bytes_read.toNat ≤ s.buf.length → w.reads = ⟨true, [], now⟩ :: rest →
      get_answer_step s w =
        .ok (.again { s with ellapsed_time := now }
          { w with
            reads := rest
            ops := w.ops ++ [Op.xfer s.bytes_read (XCP_USB_TIMEOUT - s.ellapsed_time)] })) := by
  refine ⟨fun v d w1 h => ?_, fun v d w2 h => ?_, fun s now rest h1 h2 h3 => ?_⟩
  · obtain ⟨u, ef, cf, rs, os, snt, ops, lg, st⟩ := w
    cases u with
    | none =>
      cases h
      exact ⟨_, rfl, ⟨rfl, rfl, rfl, rfl, rfl, rfl, rfl⟩⟩
    | some dev =>
      exact get_answer_loop_padded fuel _ ⟨some dev, ef, cf, rs, os, snt, ops, lg, st⟩
        ⟨some dev, ef, cf, padded, os, snt, ops, lg, st⟩ _ ⟨rfl, rfl, rfl, rfl, rfl, rfl, rfl⟩ hp h
  · obtain ⟨u, ef, cf, rs, os, snt, ops, lg, st⟩ := w
    cases u with
    | none =>
      cases h
      exact ⟨_, rfl, ⟨rfl, rfl, rfl, rfl, rfl, rfl, rfl⟩⟩
    | some dev =>
      exact get_answer_loop_unpadded fuel _ _ ⟨some dev, ef, cf, rs, os, snt, ops, lg, st⟩
        ⟨some dev, ef, cf, padded, os, snt, ops, lg, st⟩ _ (Or.inl rfl)
        ⟨rfl, rfl, rfl, rfl, rfl, rfl, rfl⟩ hp h
  · exact get_answer_step_zero s w now rest h1 h3 h2

/-- C17, at the reply `AB 01 01 81 10 C2` in one transfer, with a transfer of no bytes
inserted before it and one after it: 1 is returned and the payload written as without
them. -/
theorem zero_byte_reads_ignored_witness :
    Padded (fresh [⟨true, [0xAB, 0x01, 0x01, 0x81, 0x10, 0xC2], 7⟩]).reads
      [⟨true, [], 3⟩, ⟨true, [0xAB, 0x01, 0x01, 0x81, 0x10, 0xC2], 7⟩, ⟨true, [], 9⟩] ∧
    ∃ w2, get_answer (2 + 3) [] 0x01
        { fresh [⟨true, [0xAB, 0x01, 0x01, 0x81, 0x10, 0xC2], 7⟩] with
          reads := [⟨true, [], 3⟩, ⟨true, [0xAB, 0x01, 0x01, 0x81, 0x10, 0xC2], 7⟩,
            ⟨true, [], 9⟩] } = .ok (1, [0x10], w2) ∧
      same_but_transfers { fresh [] with ops := [Op.xfer 0 5000] } w2 :=
  ⟨.pad 3 (by decide) (.keep _ (.pad 9 (by decide) .done)),
   (zero_byte_reads_ignored 2 [] 0x01 (fresh [⟨true, [0xAB, 0x01, 0x01, 0x81, 0x10, 0xC2], 7⟩])
      [⟨true, [], 3⟩, ⟨true, [0xAB, 0x01, 0x01, 0x81, 0x10, 0xC2], 7⟩, ⟨true, [], 9⟩]
      (.pad 3 (by decide) (.keep _ (.pad 9 (by decide) .done)))).1 1 [0x10]
      { fresh [] with ops := [Op.xfer 0 5000] } rfl⟩

/-- C18: when the second half of the loop body looks at a frame (the one at the place the
resynchronisation gives) whose length byte `L` is above 140, it copies nothing to the
output.  While fewer than `L + 5` bytes are buffered it only asks for more data, and once
`L + 5` bytes are buffered it returns -1, whatever the sequence byte and the checksum of
the frame are, so that `get_answer` returns -1 with the output it had. -/
theorem oversized_frame_rejected (s : Locals) (w : World) (mb L : Nat)
    (hneed : s.need_data ≤ 0) (hres : get_answer_resync s = .ok (some mb))
    (hlen : peek s.buf (mb + 2) = .ok L) (hbig : 140 < L) :
    (s.bytes_read < (L : Int) + 5 →
      get_answer_frame s w =
        .ok (.again
          { s with my_buf := mb, need_data := count_zero_byte s.need_data + L + 1 } w)) ∧
    ((L : Int) + 5 ≤ s.bytes_read →
      get_answer_frame s w = .ok (.give (-1) { s with my_buf := mb } w) ∧
      ∀ (fuel : Nat) (s0 : Locals) (w0 : World),
        s0.endblock = false → s0.ellapsed_time < XCP_USB_TIMEOUT →
        get_answer_step s0 w0 = get_answer_frame s w →
        get_answer_loop (fuel + 1) s0 w0 = .ok (-1, s.data, w)) := by
  have hframe : get_answer_frame s w =
      if s.bytes_read - ((L : Int) + PW_HEADER_SIZE) < 0
      then .ok (.again
        { s with my_buf := mb, need_data := count_zero_byte s.need_data + L + 1 } w)
      else .ok (.give (-1) { s with my_buf := mb } w) := by
    unfold get_answer_frame
    rw [if_neg (by omega : ¬ s.need_data > 0)]
    simp only [hres]
    exact get_answer_validate_oversized { s with my_buf := mb } w L hlen hbig
  have h5 : ((PW_HEADER_SIZE : Nat) : Int) = 5 := rfl
  constructor
  · intro hshort
    rw [hframe, if_pos (by omega)]
  · intro hfull
    have hgive : get_answer_frame s w = .ok (.give (-1) { s with my_buf := mb } w) := by
      rw [hframe, if_neg (by omega)]
    refine ⟨hgive, fun fuel s0 w0 hend htime hstep => ?_⟩
    unfold get_answer_loop
    rw [if_pos ⟨hend, by omega⟩, hstep, hgive]

/-- C18, at locals that hold the 146 bytes of a frame `AB 01 8D 01 ...` with a length byte
of 141: the frame is rejected with -1 and the output `[9]` is as it was. -/
theorem oversized_frame_rejected_witness :
    get_answer_resync
        { get_answer_init [9] with
          buf := [0xAB, 0x01, 141, 0x01] ++ List.replicate 252 0
          bytes_read := 146
          need_data := 0 } = .ok (some 0) ∧
    get_answer_frame
        { get_answer_init [9] with
          buf := [0xAB, 0x01, 141, 0x01] ++ List.replicate 252 0
          bytes_read := 146
          need_data := 0 } (fresh []) =
      .ok (.give (-1)
        { get_answer_init [9] with
          buf := [0xAB, 0x01, 141, 0x01] ++ List.replicate 252 0
          bytes_read := 146
          need_data := 0 } (fresh [])) :=
  ⟨rfl, ((oversized_frame_rejected
      { get_answer_init [9] with
        buf := [0xAB, 0x01, 141, 0x01] ++ List.replicate 252 0
        bytes_read := 146
        need_data := 0 } (fresh []) 0 141 (by decide) rfl rfl (by decide)).2 (by decide)).1⟩

/-- C19, the code at failing inputs.  The valid frame of 140 payload bytes (ordinal 1,
last) comes as transfers of 6, 128 and 11 bytes: it is accepted, but the third transfer,
which like all of them asks for up to 128 bytes, is made at `buf + 134`, with 134 bytes
buffered and 122 bytes of room.  When that transfer brings 128 bytes the write runs past
the 256 bytes of `buf`.  And after the frame `AB 01 01 01 10 42` that came behind one
garbage byte, with nothing after it, one byte is kept as unconsumed, so that -1 is
returned and the next frame is never read. -/
theorem get_answer_overruns_buffer :
    checksum_test (reply_frame 1 0x81 (List.replicate 140 7) 115) = true ∧
    get_answer 4 [] 0x01
        (fresh [⟨true, [0xAB, 0x01, 140, 0x81, 7, 7], 1⟩, ⟨true, List.replicate 128 7, 2⟩,
          ⟨true, List.replicate 10 7 ++ [115], 3⟩]) =
      .ok (140, List.replicate 140 7,
        { fresh [] with ops := [Op.xfer 0 5000, Op.xfer 6 4999, Op.xfer 134 4998] }) ∧
    get_answer 4 [] 0x01
        (fresh [⟨true, [0xAB, 0x01, 140, 0x81, 7, 7], 1⟩, ⟨true, List.replicate 128 7, 2⟩,
          ⟨true, List.replicate 10 7 ++ [115] ++ List.replicate 117 0, 3⟩]) =
      .error .undefined ∧
    checksum_test [0xAB, 0x01, 0x01, 0x82, 0x20, 0xB1] = true ∧
    get_answer 4 [] 0x01
        (fresh [⟨true, [0x00, 0xAB, 0x01, 0x01, 0x01, 0x10, 0x42], 1⟩,
          ⟨true, [0xAB, 0x01, 0x01, 0x82, 0x20, 0xB1], 2⟩]) =
      .ok (-1, [0x10],
        { fresh [⟨true, [0xAB, 0x01, 0x01, 0x82, 0x20, 0xB1], 2⟩] with
          ops := [Op.xfer 0 5000] }) ∧
    get_answer 4 [] 0x01
        (fresh [⟨true, [0xAB, 0x01, 0x01, 0x01, 0x10, 0x42], 1⟩,
          ⟨true, [0xAB, 0x01, 0x01, 0x82, 0x20, 0xB1], 2⟩]) =
      .ok (2, [0x10, 0x20], { fresh [] with ops := [Op.xfer 0 5000, Op.xfer 0 4999] }) :=
  ⟨by decide, rfl, rfl, by decide, rfl, rfl⟩

/-- C20: `get_answer` does the same for any two opcodes, and a reply of one valid last
frame of ordinal 1 is accepted with the same value and the same output whatever its block
number and whatever the opcode it is supposed to answer. -/
theorem get_answer_ignores_command (fuel : Nat) (data : List Nat) (c1 c2 : Nat) (w : World)
    (payload : List Nat) (blk1 blk2 ck1 ck2 : Nat) (now : Int) (rest : List Read)
    (hL : payload.length ≤ 123)
    (h1 : checksum_test (reply_frame blk1 0x81 payload ck1) = true)
    (h2 : checksum_test (reply_frame blk2 0x81 payload ck2) = true) :
    get_answer fuel data c1 w = get_answer fuel data c2 w ∧
    get_answer (fuel + 1) data c1
        (fresh (⟨true, reply_frame blk1 0x81 payload ck1, now⟩ :: rest)) =
      .ok (payload.length, memcpy_out data 0 payload,
        { fresh rest with ops := [Op.xfer 0 5000] }) ∧
    get_answer (fuel + 1) data c2
        (fresh (⟨true, reply_frame blk2 0x81 payload ck2, now⟩ :: rest)) =
      .ok (payload.length, memcpy_out data 0 payload,
        { fresh rest with ops := [Op.xfer 0 5000] }) := by
  refine ⟨rfl, ?_, ?_⟩
  · exact get_answer_one_read fuel data c1
      (fresh (⟨true, reply_frame blk1 0x81 payload ck1, now⟩ :: rest)) [] payload blk1 ck1 now
      rest (by simp [fresh]) rfl (by simp) (by omega) h1 (by simp; omega)
  · exact get_answer_one_read fuel data c2
      (fresh (⟨true, reply_frame blk2 0x81 payload ck2, now⟩ :: rest)) [] payload blk2 ck2 now
      rest (by simp [fresh]) rfl (by simp) (by omega) h2 (by simp; omega)

/-- C20, at the replies `AB 01 01 81 10 C2` and `AB 09 01 81 10 BA`, of block numbers 1
and 9, to the opcodes 0x31 and 0x33: both are accepted with the payload `10`. -/
theorem get_answer_ignores_command_witness :
    checksum_test (reply_frame 0x01 0x81 [0x10] 0xC2) = true ∧
    checksum_test (reply_frame 0x09 0x81 [0x10] 0xBA) = true ∧
    get_answer 2 [] 0x31 (fresh [⟨true, reply_frame 0x01 0x81 [0x10] 0xC2, 1⟩]) =
      .ok (1, [0x10], { fresh [] with ops := [Op.xfer 0 5000] }) ∧
    get_answer 2 [] 0x33 (fresh [⟨true, reply_frame 0x09 0x81 [0x10] 0xBA, 1⟩]) =
      .ok (1, [0x10], { fresh [] with ops := [Op.xfer 0 5000] }) :=
  ⟨by decide, by decide,
   (get_answer_ignores_command 1 [] 0x31 0x33 (fresh []) [0x10] 0x01 0x09 0xC2 0xBA 1 []
      (by decide) (by decide) (by decide)).2⟩

end Bcmxcp
